import Mathlib

/-!
# px4_drv: ring buffer and S1UR stream resynchronizer

A shallow embedding of `ringbuffer.c` and of the stream handler of
`s1ur_device.c`, with the properties of the driver specification stated
and proved over it.

Conventions of the embedding:

* a byte (`u8`) is a `Nat`; a memory region is the `List Nat` of its bytes,
  and a pointer into a region is the list of the bytes from that address on;
* `size_t` values are `Nat` with the arithmetic of the source taken modulo
  `2^64`; `u32` values are `Nat` with arithmetic modulo `2^32`;
* an `atomic_t` holds an `int`: an `Int` in `[-2^31, 2^31)`; storing a
  `size_t` into it keeps the low 32 bits, reading it back sign-extends;
* a call that would sleep forever in a sequential run
  (`wait_event` on a condition that is false) returns `none`.
-/

namespace Px4Drv

/-! ## Machine integers and errno values -/

/-- The constant `INT_MAX` of the kernel (32-bit `int`). -/
def INT_MAX : Nat := 2147483647

/-- Addition of two `size_t` values (64-bit, wraps). -/
def size_add (a b : Nat) : Nat := (a + b) % 18446744073709551616

/-- Subtraction of two `size_t` values (64-bit, wraps). -/
def size_sub (a b : Nat) : Nat :=
  (a + 18446744073709551616 - b % 18446744073709551616) % 18446744073709551616

/-- The `int` obtained from a `size_t`: low 32 bits, two's complement. -/
def int_of_size (n : Nat) : Int :=
  if n % 4294967296 < 2147483648 then ((n % 4294967296 : Nat) : Int)
  else ((n % 4294967296 : Nat) : Int) - 4294967296

/-- The `size_t` obtained from an `int`: sign extension to 64 bits. -/
def size_of_int (i : Int) : Nat := (i % 18446744073709551616).toNat

/-- Two's complement wrap of an `int` result (kernel atomics wrap). -/
def int_wrap (i : Int) : Int := (i + 2147483648) % 4294967296 - 2147483648

def ENOMEM : Int := 12
def EFAULT : Int := 14
def EBUSY : Int := 16
def EINVAL : Int := 22
def EOVERFLOW : Int := 75
def EALREADY : Int := 114

/-! ## Memory regions -/

/-- The `n` bytes read at `p + off`. -/
def mem_read (p : List Nat) (off n : Nat) : List Nat := (p.drop off).take n

/-- The region `dst` after `memcpy(dst + off, src, n)`. -/
def memcpy (dst : List Nat) (off : Nat) (src : List Nat) (n : Nat) : List Nat :=
  dst.take off ++ src.take n ++ dst.drop (off + n)

/-- The call `copy_to_user(dst, src, n)` on a destination of which the first
`ok` bytes are writable: the bytes that reach the destination (a prefix of
the source) and the return value, the number of bytes not copied. -/
def copy_to_user (ok : Nat) (src : List Nat) : List Nat × Nat :=
  (src.take ok, src.length - ok)

/-! ## ringbuffer.c -/

/-- The `struct ringbuffer` of the driver. `buf = none` is the NULL pointer;
otherwise `buf` holds the bytes of the pages behind the pointer. The wait
queue head carries no data in a sequential run and is left out. -/
structure ringbuffer where
  state : Int
  rw_count : Int
  wait_count : Int
  buf : Option (List Nat)
  size : Nat
  actual_size : Int
  head : Int
  tail : Int
  deriving DecidableEq, Repr

/-- The function `ringbuffer_create`; `kzalloc_ok` tells whether `kzalloc`
returned memory. -/
def ringbuffer_create (kzalloc_ok : Bool) : Int × Option ringbuffer :=
  if !kzalloc_ok then (-ENOMEM, none)
  else (0, some { state := 0, rw_count := 0, wait_count := 0, buf := none,
                  size := 0, actual_size := 0, head := 0, tail := 0 })

def ringbuffer_free_nolock (ringbuf : ringbuffer) : ringbuffer :=
  { ringbuf with buf := none, size := 0 }

def ringbuffer_reset_nolock (ringbuf : ringbuffer) : ringbuffer :=
  { ringbuf with actual_size := 0, head := 0, tail := 0 }

/-- The function `ringbuffer_lock`: counts the waiter and waits until no
fast-path operation is in flight. In a sequential run nobody else can drain
`rw_count`, so the wait returns only if it is already zero. -/
def ringbuffer_lock (ringbuf : ringbuffer) : Option ringbuffer :=
  let rb := { ringbuf with wait_count := int_wrap (ringbuf.wait_count + 1) }
  if rb.rw_count = 0 then some rb else none

/-- The function `ringbuffer_unlock` (the wake-up has no effect on the data). -/
def ringbuffer_unlock (ringbuf : ringbuffer) : ringbuffer :=
  { ringbuf with wait_count := int_wrap (ringbuf.wait_count - 1) }

/-- The function `ringbuffer_alloc`; `pages` is what `__get_free_pages` returns
if it is called: `none` for NULL, otherwise the (uninitialised) bytes of the
pages obtained. -/
def ringbuffer_alloc (ringbuf : ringbuffer) (size : Nat) (pages : Option (List Nat)) :
    Option (Int × ringbuffer) :=
  if size > INT_MAX then some (-EINVAL, ringbuf)
  else if ringbuf.state ≠ 0 then some (-EBUSY, ringbuf)
  else
    match ringbuffer_lock ringbuf with
    | none => none
    | some rb1 =>
      let rb2 := if rb1.buf.isSome ∧ rb1.size ≠ size then ringbuffer_free_nolock rb1 else rb1
      let rb3 := ringbuffer_reset_nolock { rb2 with size := 0 }
      let r : Int × ringbuffer :=
        if rb3.buf.isNone then
          match pages with
          | none => (-ENOMEM, { rb3 with buf := none })
          | some mem => (0, { rb3 with buf := some mem, size := size })
        else (0, rb3)
      some (r.1, ringbuffer_unlock r.2)

def ringbuffer_free (ringbuf : ringbuffer) : Option (Int × ringbuffer) :=
  if ringbuf.state ≠ 0 then some (-EBUSY, ringbuf)
  else
    match ringbuffer_lock ringbuf with
    | none => none
    | some rb1 =>
      some (0, ringbuffer_unlock (ringbuffer_free_nolock (ringbuffer_reset_nolock rb1)))

def ringbuffer_reset (ringbuf : ringbuffer) : Option (Int × ringbuffer) :=
  if ringbuf.state ≠ 0 then some (-EBUSY, ringbuf)
  else
    match ringbuffer_lock ringbuf with
    | none => none
    | some rb1 => some (0, ringbuffer_unlock (ringbuffer_reset_nolock rb1))

/-- The call `atomic_cmpxchg(v, old, new)`: the value returned (the previous
content) and the new content. -/
def atomic_cmpxchg (v old new : Int) : Int × Int := (v, if v = old then new else v)

def ringbuffer_start (ringbuf : ringbuffer) : Int × ringbuffer :=
  let r := atomic_cmpxchg ringbuf.state 0 1
  if r.1 ≠ 0 then (-EALREADY, { ringbuf with state := r.2 })
  else (0, { ringbuf with state := r.2 })

def ringbuffer_stop (ringbuf : ringbuffer) : Int × ringbuffer :=
  if ringbuf.state = 0 then (-EALREADY, { ringbuf with state := 0 })
  else (0, { ringbuf with state := 0 })

def ringbuffer_ready_read (ringbuf : ringbuffer) : Int × ringbuffer :=
  let r := atomic_cmpxchg ringbuf.state 1 2
  if r.1 = 0 then (-EINVAL, { ringbuf with state := r.2 })
  else (0, { ringbuf with state := r.2 })

/-- The function `ringbuffer_read_user`. `ubuf_ok` is the number of bytes of
the user destination that can be written before `copy_to_user` faults and
`len` the value of `*len` on entry. The result is the return value, the ring
buffer afterwards, the value of `*len` on exit and the bytes that reached
the destination. -/
def ringbuffer_read_user (ringbuf : ringbuffer) (ubuf_ok : Nat) (len : Nat) :
    Int × ringbuffer × Nat × List Nat :=
  let rw1 := int_wrap (ringbuf.rw_count + 1)
  let p := ringbuf.buf.getD []
  let buf_size := ringbuf.size
  let actual_size := size_of_int ringbuf.actual_size
  let head := size_of_int ringbuf.head
  let read_size := if len ≤ actual_size then len else actual_size
  if read_size ≠ 0 then
    if size_add head read_size ≤ buf_size then
      let c := copy_to_user ubuf_ok (mem_read p head read_size)
      let res := c.2
      let read_size1 := if res ≠ 0 then size_sub read_size res else read_size
      let ret : Int := if res ≠ 0 then -EFAULT else 0
      let head1 := if size_add head read_size1 = buf_size then 0 else size_add head read_size1
      (ret,
       { ringbuf with
           rw_count := int_wrap (rw1 - 1)
           head := int_of_size head1
           actual_size := int_wrap (ringbuf.actual_size - int_of_size read_size1) },
       read_size1, c.1)
    else
      let tmp := size_sub buf_size head
      let c1 := copy_to_user ubuf_ok (mem_read p head tmp)
      let c2 := if c1.2 = 0 then copy_to_user (ubuf_ok - tmp) (mem_read p 0 (size_sub read_size tmp))
                else ([], c1.2)
      let res := c2.2
      let read_size1 := if res ≠ 0 then size_sub read_size res else read_size
      let ret : Int := if res ≠ 0 then -EFAULT else 0
      let head1 := size_sub read_size1 tmp
      (ret,
       { ringbuf with
           rw_count := int_wrap (rw1 - 1)
           head := int_of_size head1
           actual_size := int_wrap (ringbuf.actual_size - int_of_size read_size1) },
       read_size1, c1.1 ++ c2.1)
  else
    (0, { ringbuf with rw_count := int_wrap (rw1 - 1) }, read_size, [])

/-- The function `ringbuffer_write_atomic` on the source region `buf`, with
`*len = buf.length` on entry. The result is the return value, the ring buffer
afterwards and the value of `*len` on exit. -/
def ringbuffer_write_atomic (ringbuf : ringbuffer) (buf : List Nat) :
    Int × ringbuffer × Nat :=
  let len := buf.length
  if ringbuf.state ≠ 2 then (-EINVAL, ringbuf, len)
  else
    let rw1 := int_wrap (ringbuf.rw_count + 1)
    let buf_size := ringbuf.size
    let actual_size := size_of_int ringbuf.actual_size
    let tail := size_of_int ringbuf.tail
    let write_size := if size_add actual_size len ≤ buf_size then len
                      else size_sub buf_size actual_size
    let rb1 : ringbuffer :=
      if write_size ≠ 0 then
        if size_add tail write_size ≤ buf_size then
          { ringbuf with
              buf := ringbuf.buf.map (fun p => memcpy p tail buf write_size)
              tail := int_of_size (if size_add tail write_size = buf_size then 0
                                   else size_add tail write_size)
              actual_size := int_wrap (ringbuf.actual_size + int_of_size write_size) }
        else
          let tmp := size_sub buf_size tail
          { ringbuf with
              buf := ringbuf.buf.map (fun p =>
                memcpy (memcpy p tail buf tmp) 0 (buf.drop tmp) (size_sub write_size tmp))
              tail := int_of_size (size_sub write_size tmp)
              actual_size := int_wrap (ringbuf.actual_size + int_of_size write_size) }
      else ringbuf
    let ret : Int := if len ≠ write_size then -EOVERFLOW else 0
    (ret, { rb1 with rw_count := int_wrap (rw1 - 1) }, write_size)

def ringbuffer_is_running (ringbuf : ringbuffer) : Bool := ringbuf.state ≠ 0

def ringbuffer_is_readable (ringbuf : ringbuffer) : Bool := ringbuf.actual_size ≠ 0

/-! ## Abstract view of a ring buffer -/

/-- Representation invariant of a ring buffer between two operations of a
sequential run: the capacity fits an `int`, no operation is in flight or
waiting, the occupied count is within the capacity, the indices are inside
the storage and `tail` is `head + occupied` around the end of the storage,
and the storage holds at least `size` bytes. -/
def ringbuffer.Inv (rb : ringbuffer) : Prop :=
  rb.size ≤ INT_MAX ∧ rb.rw_count = 0 ∧ rb.wait_count = 0 ∧
  0 ≤ rb.actual_size ∧ rb.actual_size ≤ (rb.size : Int) ∧
  0 ≤ rb.head ∧ (rb.head < (rb.size : Int) ∨ rb.head = 0) ∧
  rb.tail = (((rb.head.toNat + rb.actual_size.toNat) % rb.size : Nat) : Int) ∧
  rb.size ≤ (rb.buf.getD []).length

instance (rb : ringbuffer) : Decidable rb.Inv := by
  unfold ringbuffer.Inv; infer_instance

/-- The buffered bytes, oldest first: the `actual_size` bytes of the storage
that start at `head` and continue around its end. -/
def ringbuffer.contents (rb : ringbuffer) : List Nat :=
  (List.range rb.actual_size.toNat).map
    (fun i => (rb.buf.getD []).getD ((rb.head.toNat + i) % rb.size) 0)

/-- The storage after a write of `w` bytes of `buf` at index `t` of a storage of `S` bytes. -/
def stored (p : List Nat) (S t : Nat) (buf : List Nat) (w : Nat) : List Nat :=
  if w = 0 then p
  else if t + w ≤ S then memcpy p t buf w
  else memcpy (memcpy p t buf (S - t)) 0 (buf.drop (S - t)) (w - (S - t))

/-! ## Sequential runs of ring buffer calls -/

/-- A fast-path call of a sequential run: `ringbuffer_write_atomic` on a source
region, or `ringbuffer_read_user` asking for `len` bytes into a destination
that is writable for all of them (no fault). -/
inductive FastOp where
  | write (buf : List Nat)
  | read (len : Nat)
  deriving DecidableEq, Repr

/-- What a run of fast-path calls has produced so far: the ring buffer, the
bytes returned by the reads and the bytes accepted by the writes, both in
call order. -/
structure FastTrace where
  rb : ringbuffer
  returned : List Nat
  accepted : List Nat
  deriving DecidableEq, Repr

/-- One fast-path call. A write accepts the first `*len` bytes of its source,
`*len` being the length it reports on exit. -/
def FastOp.step (t : FastTrace) : FastOp → FastTrace
  | FastOp.write buf =>
    let r := ringbuffer_write_atomic t.rb buf
    { rb := r.2.1, returned := t.returned, accepted := t.accepted ++ buf.take r.2.2 }
  | FastOp.read len =>
    let r := ringbuffer_read_user t.rb len len
    { rb := r.2.1, returned := t.returned ++ r.2.2.2, accepted := t.accepted }

/-- A sequence of fast-path calls, from left to right. -/
def run_fast (rb : ringbuffer) (ops : List FastOp) : FastTrace :=
  ops.foldl FastOp.step { rb := rb, returned := [], accepted := [] }

/-- A call of the ring buffer interface, apart from `ringbuffer_alloc` and
`ringbuffer_free`; reads are fault-free. -/
inductive RbOp where
  | start
  | ready_read
  | stop
  | reset
  | write_atomic (buf : List Nat)
  | read_user (len : Nat)
  deriving DecidableEq, Repr

/-- The ring buffer after one call (`none` if the call never returns). -/
def RbOp.run (rb : ringbuffer) : RbOp → Option ringbuffer
  | RbOp.start => some (ringbuffer_start rb).2
  | RbOp.ready_read => some (ringbuffer_ready_read rb).2
  | RbOp.stop => some (ringbuffer_stop rb).2
  | RbOp.reset => (ringbuffer_reset rb).map (fun r => r.2)
  | RbOp.write_atomic buf => some (ringbuffer_write_atomic rb buf).2.1
  | RbOp.read_user len => some (ringbuffer_read_user rb len len).2.1

/-- The ring buffer after a sequence of calls, from left to right. -/
def run_ops (rb : ringbuffer) : List RbOp → Option ringbuffer
  | [] => some rb
  | op :: ops => (op.run rb).bind (fun rb1 => run_ops rb1 ops)

/-- A ring buffer of capacity 4, not running, whose storage is present. -/
def rb_allocated4 : ringbuffer :=
  { state := 0, rw_count := 0, wait_count := 0, buf := some [0, 0, 0, 0], size := 4,
    actual_size := 0, head := 0, tail := 0 }

/-- A readable ring buffer of capacity 4 that still holds the byte 7: it is
reached from `rb_allocated4` by start, ready_read, a write of `[7]`, stop,
start and ready_read. -/
def rb_readable_holding7 : ringbuffer :=
  (ringbuffer_ready_read (ringbuffer_start (ringbuffer_stop
    (ringbuffer_write_atomic
      (ringbuffer_ready_read (ringbuffer_start rb_allocated4).2).2 [7]).2.1).2).2).2

/-! ## s1ur_device.c: the stream resynchronizer -/

/-- Truncation of a value to `u32`. -/
def u32 (n : Nat) : Nat := n % 4294967296

/-- Subtraction of two `u32` values (wraps). -/
def u32_sub (a b : Nat) : Nat := (a + 4294967296 - b % 4294967296) % 4294967296

def S1UR_DEVICE_TS_SYNC_COUNT : Nat := 4

def S1UR_DEVICE_TS_SYNC_SIZE : Nat := 188 * S1UR_DEVICE_TS_SYNC_COUNT

/-- The `struct s1ur_stream_context`: the remainder buffer, an array of
`S1UR_DEVICE_TS_SYNC_SIZE` bytes, and the remainder length. The `chrdev`
field names the sink; the calls of `ptx_chrdev_put_stream` on it are
recorded as the list of the slices passed, in call order. -/
structure s1ur_stream_context where
  remain_buf : List Nat
  remain_len : Nat
  deriving DecidableEq, Repr

/-- The inner `while (true)` loop of `s1ur_device_stream_process`, entered
with counter `i`: the final value of `i` and of `sync_remain`. A read of
`p[k]` past the end of the region gives 0. `none` when the fuel runs out. -/
def sync_scan (p : List Nat) (remain : Nat) : Nat → Nat → Option (Nat × Bool)
  | 0, _ => none
  | fuel + 1, i =>
    if u32 ((i + 1) * 188) ≤ remain then
      if p.getD (u32 (i * 188)) 0 ≠ 0x47 then some (i, false)
      else sync_scan p remain fuel (u32 (i + 1))
    else some (i, true)

/-- The function `s1ur_device_stream_process` on the region at `p` with
`*len = remain`, appending the slices given to `ptx_chrdev_put_stream` to
`sink`: the sink, `*buf` and `*len` on exit. Each round of the outer loop
and each scan uses fuel; `none` when it runs out. -/
def s1ur_device_stream_process :
    Nat → List Nat → Nat → List (List Nat) → Option (List (List Nat) × List Nat × Nat)
  | 0, _, _, _ => none
  | fuel + 1, p, remain, sink =>
    if remain = 0 then some (sink, p, remain)
    else
      match sync_scan p remain (fuel + 1) 0 with
      | none => none
      | some (i, sync_remain) =>
        if i < S1UR_DEVICE_TS_SYNC_COUNT then
          s1ur_device_stream_process fuel (p.drop 1) (remain - 1) sink
        else
          let sink1 := sink ++ [p.take (u32 (188 * i))]
          let p1 := p.drop (u32 (188 * i))
          let remain1 := u32_sub remain (u32 (188 * i))
          if sync_remain then some (sink1, p1, remain1)
          else s1ur_device_stream_process fuel p1 remain1 sink1

/-- The end of `s1ur_device_stream_handler`, from the call of
`s1ur_device_stream_process` on the chunk on: the bytes left over are copied
to the start of the remainder buffer. -/
def s1ur_device_stream_handler_tail (fuel : Nat) (ctx : s1ur_stream_context)
    (p : List Nat) (remain : Nat) (sink : List (List Nat)) :
    Option (Int × s1ur_stream_context × List (List Nat)) :=
  match s1ur_device_stream_process fuel p remain sink with
  | none => none
  | some (sink2, p2, remain2) =>
    if remain2 ≠ 0 then
      some (0, { remain_buf := memcpy ctx.remain_buf 0 p2 remain2, remain_len := remain2 }, sink2)
    else some (0, ctx, sink2)

/-- The function `s1ur_device_stream_handler` on the chunk `buf`, with
`len = buf.length`: the return value, the context afterwards and the slices
given to the sink during the call. -/
def s1ur_device_stream_handler (fuel : Nat) (ctx : s1ur_stream_context) (buf : List Nat) :
    Option (Int × s1ur_stream_context × List (List Nat)) :=
  let len := buf.length
  let ctx_remain_len := u32 ctx.remain_len
  if ctx_remain_len ≠ 0 then
    if u32 (ctx_remain_len + len) ≥ S1UR_DEVICE_TS_SYNC_SIZE then
      let t := u32_sub S1UR_DEVICE_TS_SYNC_SIZE ctx_remain_len
      let remain_buf := memcpy ctx.remain_buf ctx_remain_len buf t
      match s1ur_device_stream_process fuel remain_buf S1UR_DEVICE_TS_SYNC_SIZE [] with
      | none => none
      | some (sink1, _, ctx_remain_len1) =>
        let p := if ctx_remain_len1 = 0 then buf.drop t else buf
        let remain := if ctx_remain_len1 = 0 then u32_sub len t else len
        s1ur_device_stream_handler_tail fuel { remain_buf := remain_buf, remain_len := 0 }
          p remain sink1
    else
      some (0, { remain_buf := memcpy ctx.remain_buf ctx_remain_len buf len,
                 remain_len := size_add ctx.remain_len len }, [])
  else s1ur_device_stream_handler_tail fuel ctx buf len []

/-! ## Streams of transport packets -/

/-- A valid transport packet: 188 bytes, the first being the sync marker. -/
def ValidPacket (pk : List Nat) : Prop := pk.length = 188 ∧ pk.head? = some 0x47

instance (pk : List Nat) : Decidable (ValidPacket pk) := by
  unfold ValidPacket; infer_instance

/-- The bytes at the offsets `0, 188, 376, ...` of `d` are all the sync marker. -/
def Synced (d : List Nat) : Prop := ∀ j, j * 188 < d.length → d.getD (j * 188) 0 = 0x47

/-- Feeding the chunks in order to `s1ur_device_stream_handler`: the context
at the end and all slices given to the sink, in call order. -/
def feed_chunks (fuel : Nat) (ctx : s1ur_stream_context) :
    List (List Nat) → Option (s1ur_stream_context × List (List Nat))
  | [] => some (ctx, [])
  | c :: cs =>
    match s1ur_device_stream_handler fuel ctx c with
    | none => none
    | some (_, ctx1, sink1) =>
      match feed_chunks fuel ctx1 cs with
      | none => none
      | some (ctx2, sink2) => some (ctx2, sink1 ++ sink2)

/-- A transport packet: the sync marker followed by 187 bytes `b`. -/
def packet_of (b : Nat) : List Nat := 0x47 :: List.replicate 187 b

/-- A stream context at the start of a session: no remainder. -/
def fresh_context : s1ur_stream_context :=
  { remain_buf := List.replicate 752 0, remain_len := 0 }

/-- Seventeen valid packets. -/
def seventeen_packets : List (List Nat) := (List.range 17).map packet_of

/-! ## Ring buffer: inputs of the error paths -/

/-- A full ring buffer of capacity 8 whose data starts at index 2, so that
a read of more than 6 bytes goes around the end of the storage. -/
def rb_full8 : ringbuffer :=
  { state := 2, rw_count := 0, wait_count := 0,
    buf := some [14, 15, 3, 4, 5, 11, 12, 13], size := 8,
    actual_size := 8, head := 2, tail := 2 }

/-- A ring buffer that is not running and holds three bytes in a storage of
capacity 4 (it was stopped before the reader had drained it). -/
def rb_stopped_holding3 : ringbuffer :=
  { state := 0, rw_count := 0, wait_count := 0, buf := some [1, 2, 3, 0], size := 4,
    actual_size := 3, head := 0, tail := 3 }

/-! ## ringbuffer.c: a reader running concurrently with an administrative call

`ringbuffer_read_user` first counts itself in `rw_count` and loads the storage
pointer, the capacity, the occupied count and the head into local variables;
it then copies and stores the new head and occupied count into the ring buffer
as it is at that moment. The two parts are separate functions here, so that a
run can place the steps of another thread between them; run back to back they
are `ringbuffer_read_user`. -/

/-- The local variables `p`, `buf_size`, `actual_size` and `head` of
`ringbuffer_read_user`. -/
structure read_user_locals where
  p : List Nat
  buf_size : Nat
  actual_size : Nat
  head : Nat
  deriving DecidableEq, Repr

/-- The entry of `ringbuffer_read_user`: `atomic_add_return_acquire(1,
&ringbuf->rw_count)` and the four loads. -/
def read_user_enter (ringbuf : ringbuffer) : ringbuffer × read_user_locals :=
  ({ ringbuf with rw_count := int_wrap (ringbuf.rw_count + 1) },
   { p := ringbuf.buf.getD [], buf_size := ringbuf.size,
     actual_size := size_of_int ringbuf.actual_size, head := size_of_int ringbuf.head })

/-- The rest of `ringbuffer_read_user` from the computation of `read_size` on,
run on the ring buffer `ringbuf` as it is then with the local variables `l`
loaded at the entry: the copies, `atomic_xchg(&ringbuf->head, head)`,
`atomic_sub_return_release(read_size, &ringbuf->actual_size)` and the
decrement of `rw_count`. -/
def read_user_finish (ringbuf : ringbuffer) (l : read_user_locals) (ubuf_ok : Nat)
    (len : Nat) : Int × ringbuffer × Nat × List Nat :=
  let p := l.p
  let buf_size := l.buf_size
  let actual_size := l.actual_size
  let head := l.head
  let read_size := if len ≤ actual_size then len else actual_size
  if read_size ≠ 0 then
    if size_add head read_size ≤ buf_size then
      let c := copy_to_user ubuf_ok (mem_read p head read_size)
      let res := c.2
      let read_size1 := if res ≠ 0 then size_sub read_size res else read_size
      let ret : Int := if res ≠ 0 then -EFAULT else 0
      let head1 := if size_add head read_size1 = buf_size then 0 else size_add head read_size1
      (ret,
       { ringbuf with
           rw_count := int_wrap (ringbuf.rw_count - 1)
           head := int_of_size head1
           actual_size := int_wrap (ringbuf.actual_size - int_of_size read_size1) },
       read_size1, c.1)
    else
      let tmp := size_sub buf_size head
      let c1 := copy_to_user ubuf_ok (mem_read p head tmp)
      let c2 := if c1.2 = 0 then copy_to_user (ubuf_ok - tmp) (mem_read p 0 (size_sub read_size tmp))
                else ([], c1.2)
      let res := c2.2
      let read_size1 := if res ≠ 0 then size_sub read_size res else read_size
      let ret : Int := if res ≠ 0 then -EFAULT else 0
      let head1 := size_sub read_size1 tmp
      (ret,
       { ringbuf with
           rw_count := int_wrap (ringbuf.rw_count - 1)
           head := int_of_size head1
           actual_size := int_wrap (ringbuf.actual_size - int_of_size read_size1) },
       read_size1, c1.1 ++ c2.1)
  else
    (0, { ringbuf with rw_count := int_wrap (ringbuf.rw_count - 1) }, read_size, [])

/-- A call of `ringbuffer_reset` on `ringbuf` during which another thread runs
`ringbuffer_read_user` with `*len = len`, in this order: the reset passes its
state check and `ringbuffer_lock` returns, the reader runs its entry, the
reset runs `ringbuffer_reset_nolock` and `ringbuffer_unlock` and returns 0,
the reader runs its rest. The result is `none` if the reset returns `-EBUSY`
or would block; otherwise the value of `rw_count` at the moment
`ringbuffer_reset_nolock` starts and what the reader returns. -/
def reset_during_read_user (ringbuf : ringbuffer) (ubuf_ok len : Nat) :
    Option (Int × Int × ringbuffer × Nat × List Nat) :=
  if ringbuf.state ≠ 0 then none
  else
    match ringbuffer_lock ringbuf with
    | none => none
    | some rb1 =>
      let e := read_user_enter rb1
      let rb3 := ringbuffer_unlock (ringbuffer_reset_nolock e.1)
      some (e.1.rw_count, read_user_finish rb3 e.2 ubuf_ok len)

/-! ## s1ur_device.c: the control path

The bridge, the demodulators, the tuner, the transport bus and the character
device framework are collaborators. A call to one of them is an event of type
`Call`; a function of the driver is modelled by the value it returns and the
list of the calls it makes, in order. The return value of a call is given by
an environment `env : Call → Int` (0 for success), the outcome of the
`k`-th poll of a polling loop by a function of `k`. Delays (`msleep`) and log
messages are left out. -/

def EAGAIN : Int := 11

def EIO : Int := 5

/-- The broadcast systems of `ptx_chrdev.h` that the driver tells apart. -/
inductive ptx_system where
  | PTX_UNSPECIFIED_SYSTEM
  | PTX_ISDB_T_SYSTEM
  | PTX_ISDB_S_SYSTEM
  deriving DecidableEq, Repr

/-- A call to a collaborator, with the arguments that vary. -/
inductive Call where
  | it930x_write_gpio (pin : Nat) (high : Bool)
  | tc90522_init_t
  | tc90522_init_s
  | r850_init
  | r850_term
  | tc90522_term_t
  | tc90522_term_s
  | tc90522_write_multiple_regs_t
  | tc90522_enable_ts_pins_t (enable : Bool)
  | tc90522_sleep_t (sleep : Bool)
  | tc90522_sleep_s (sleep : Bool)
  | r850_set_system
  | tc90522_write_reg_t (reg val : Nat)
  | tc90522_set_agc_t (enable : Bool)
  | r850_wakeup
  | r850_set_frequency (freq : Nat)
  | r850_is_pll_locked
  | it930x_purge_psb
  | itedtv_bus_start_streaming (remain_len : Nat)
  | itedtv_bus_stop_streaming
  | tc90522_tmcc_get_tsid_s (idx : Nat)
  | tc90522_set_tsid_s (tsid : Nat)
  | tc90522_get_tsid_s
  | ptx_chrdev_group_destroy
  | get_device
  | itedtv_bus_init
  | it930x_init
  | it930x_raise
  | it930x_read_reg (reg : Nat)
  | it930x_load_firmware
  | it930x_init_warm
  | it930x_set_gpio_mode (pin : Nat)
  | it930x_set_pid_filter
  | ptx_chrdev_context_add_group
  | it930x_term
  | itedtv_bus_term
  | kfree_stream_ctx
  | put_device
  | complete
  deriving DecidableEq, Repr

/-- The fields of `struct s1ur_device` that the control path changes: the
reference count `kref` and the flag `available`. -/
structure s1ur_device where
  kref : Nat
  available : Bool
  deriving DecidableEq, Repr

/-- A run of statements `ret = f(...); if (ret) <leave>;`: the calls are made
in order up to and including the first that fails; the result is the last
return value and the calls made. -/
def run_calls (env : Call → Int) : List Call → Int × List Call
  | [] => (0, [])
  | c :: cs =>
    if env c ≠ 0 then (env c, [c])
    else ((run_calls env cs).1, c :: (run_calls env cs).2)

/-- The function `s1ur_backend_set_power`. -/
def s1ur_backend_set_power (env : Call → Int) (s1ur : s1ur_device) (state : Bool) :
    Int × List Call :=
  if !state && !s1ur.available then (0, [])
  else if state then
    run_calls env [Call.it930x_write_gpio 3 false, Call.it930x_write_gpio 2 true]
  else (0, [Call.it930x_write_gpio 2 false, Call.it930x_write_gpio 3 true])

/-- The function `s1ur_backend_init`. -/
def s1ur_backend_init (env : Call → Int) : Int × List Call :=
  run_calls env [Call.tc90522_init_t, Call.tc90522_init_s, Call.r850_init]

/-- The function `s1ur_backend_term`. -/
def s1ur_backend_term : Int × List Call :=
  (0, [Call.r850_term, Call.tc90522_term_t, Call.tc90522_term_s])

/-- The function `s1ur_chrdev_open`: the return value, the device afterwards
and the calls made. The labels `fail_backend`, `fail_backend_init` and
`fail_backend_power` are the three unwinding exits; the failures after the
register sequence leave through `return ret`. -/
def s1ur_chrdev_open (env : Call → Int) (s1ur : s1ur_device) :
    Int × s1ur_device × List Call :=
  let power := s1ur_backend_set_power env s1ur true
  if power.1 ≠ 0 then (power.1, s1ur, power.2)
  else
    let init := s1ur_backend_init env
    let fail_backend_init := (s1ur_backend_set_power env s1ur false).2
    if init.1 ≠ 0 then (init.1, s1ur, power.2 ++ init.2 ++ fail_backend_init)
    else
      let fail_backend := s1ur_backend_term.2 ++ fail_backend_init
      let regs := env Call.tc90522_write_multiple_regs_t
      let t1 := power.2 ++ init.2 ++ [Call.tc90522_write_multiple_regs_t]
      if regs ≠ 0 then (regs, s1ur, t1 ++ fail_backend)
      else
        let pins := env (Call.tc90522_enable_ts_pins_t false)
        let t2 := t1 ++ [Call.tc90522_enable_ts_pins_t false]
        if pins ≠ 0 then (pins, s1ur, t2)
        else
          let sleep := env (Call.tc90522_sleep_t true)
          let t3 := t2 ++ [Call.tc90522_sleep_t true]
          if sleep ≠ 0 then (sleep, s1ur, t3)
          else
            let sys := env Call.r850_set_system
            let t4 := t3 ++ [Call.r850_set_system]
            if sys ≠ 0 then (sys, s1ur, t4)
            else (0, { s1ur with kref := s1ur.kref + 1 }, t4)

/-- The function `s1ur_device_release`, the finalizer handed to `kref_put`. -/
def s1ur_device_release : List Call :=
  [Call.it930x_term, Call.itedtv_bus_term, Call.kfree_stream_ctx, Call.put_device,
   Call.complete]

/-- The call `kref_put(&s1ur->kref, s1ur_device_release)`: the count goes down
by one and the finalizer runs when it reaches zero. A put on a count that is
already zero is outside the model and changes nothing. -/
def kref_put (s1ur : s1ur_device) : s1ur_device × List Call :=
  if s1ur.kref = 0 then (s1ur, [])
  else if s1ur.kref = 1 then ({ s1ur with kref := 0 }, s1ur_device_release)
  else ({ s1ur with kref := s1ur.kref - 1 }, [])

/-- The function `s1ur_chrdev_release`. -/
def s1ur_chrdev_release (env : Call → Int) (s1ur : s1ur_device) :
    Int × s1ur_device × List Call :=
  let t := s1ur_backend_term.2 ++ (s1ur_backend_set_power env s1ur false).2
  (0, (kref_put s1ur).1, t ++ (kref_put s1ur).2)

/-- The function `s1ur_device_term`. -/
def s1ur_device_term (s1ur : s1ur_device) : s1ur_device × List Call :=
  let s := { s1ur with available := false }
  ((kref_put s).1, [Call.ptx_chrdev_group_destroy] ++ (kref_put s).2)

/-- The chip calls of the `PTX_ISDB_T_SYSTEM` case of `s1ur_chrdev_tune` up to
the lock poll, each followed by `if (ret) break;`. -/
def tune_calls_before_poll (freq : Nat) : List Call :=
  [Call.tc90522_write_reg_t 0x47 0x30, Call.tc90522_set_agc_t false,
   Call.tc90522_sleep_s true, Call.tc90522_write_reg_t 0x0e 0x77,
   Call.tc90522_write_reg_t 0x0f 0x10, Call.tc90522_write_reg_t 0x71 0x20,
   Call.tc90522_sleep_t false, Call.tc90522_write_reg_t 0x76 0x0c,
   Call.tc90522_write_reg_t 0x1f 0x30, Call.r850_wakeup, Call.r850_set_frequency freq]

/-- The chip calls of `s1ur_chrdev_tune` after the tuner has locked: AGC on,
then the finalizing register writes. -/
def tune_calls_after_lock : List Call :=
  [Call.tc90522_set_agc_t true, Call.tc90522_write_reg_t 0x71 0x01,
   Call.tc90522_write_reg_t 0x72 0x25, Call.tc90522_write_reg_t 0x75 0x00]

/-- The loop `while (i--) { ret = r850_is_pll_locked(..., &tuner_locked);
if (!ret && tuner_locked) break; msleep(10); }` entered with `i` rounds left
after `k` polls: the values of `ret` and `tuner_locked` and the number of
polls made when it ends. `pll k` is what the `k`-th poll returns and stores
in `tuner_locked`. -/
def pll_poll_loop (pll : Nat → Int × Bool) : Nat → Nat → Int → Bool → Int × Bool × Nat
  | 0, k, ret, tuner_locked => (ret, tuner_locked, k)
  | i + 1, k, _, _ =>
    if (pll k).1 = 0 ∧ (pll k).2 = true then ((pll k).1, (pll k).2, k + 1)
    else pll_poll_loop pll i (k + 1) (pll k).1 (pll k).2

/-- The function `s1ur_chrdev_tune`: the return value and the calls made. The
loop starts with `i = 50`; `tuner_locked` has no value before the first poll
(the loop reads it only after a poll). -/
def s1ur_chrdev_tune (env : Call → Int) (pll : Nat → Int × Bool) (system : ptx_system)
    (freq : Nat) : Int × List Call :=
  match system with
  | ptx_system.PTX_ISDB_T_SYSTEM =>
    let before := run_calls env (tune_calls_before_poll freq)
    if before.1 ≠ 0 then before
    else
      let poll := pll_poll_loop pll 50 0 before.1 false
      let t := before.2 ++ List.replicate poll.2.2 Call.r850_is_pll_locked
      if poll.1 ≠ 0 then (poll.1, t)
      else if poll.2.1 = false then (-EAGAIN, t)
      else
        let after := run_calls env tune_calls_after_lock
        (after.1, t ++ after.2)
  | _ => (-EINVAL, [])

/-- The first loop of `s1ur_chrdev_set_stream_id`: `while (i--) { ret =
tc90522_tmcc_get_tsid_s(..., stream_id, &tsid); if ((!ret && tsid) || ret ==
-EINVAL) break; msleep(10); }`, entered with `i` rounds left after `k` polls:
`ret`, `tsid` and the number of polls made at the end. `poll k` is the return
value of the `k`-th poll and the identifier it stores in `tsid` when it
succeeds; a poll that fails leaves `tsid` as it is. -/
def tsid_resolve_loop (poll : Nat → Int × Nat) : Nat → Nat → Int → Nat → Int × Nat × Nat
  | 0, k, ret, tsid => (ret, tsid, k)
  | i + 1, k, _, tsid =>
    let tsid1 := if (poll k).1 = 0 then (poll k).2 else tsid
    if ((poll k).1 = 0 ∧ tsid1 ≠ 0) ∨ (poll k).1 = -EINVAL then ((poll k).1, tsid1, k + 1)
    else tsid_resolve_loop poll i (k + 1) (poll k).1 tsid1

/-- The second loop of `s1ur_chrdev_set_stream_id`: `while (i--) { ret =
tc90522_get_tsid_s(..., &tsid2); if (!ret && tsid2 == tsid) break;
msleep(10); }`, with the same conventions. -/
def tsid_readback_loop (poll : Nat → Int × Nat) (tsid : Nat) :
    Nat → Nat → Int → Nat → Int × Nat × Nat
  | 0, k, ret, tsid2 => (ret, tsid2, k)
  | i + 1, k, _, tsid2 =>
    let tsid21 := if (poll k).1 = 0 then (poll k).2 else tsid2
    if (poll k).1 = 0 ∧ tsid21 = tsid then ((poll k).1, tsid21, k + 1)
    else tsid_readback_loop poll tsid i (k + 1) (poll k).1 tsid21

/-- The function `s1ur_chrdev_set_stream_id`: the return value and the calls
made. `resolve` and `readback` give the outcomes of the polls of the two
loops; `tsid0` and `tsid20` are the values that the uninitialised variables
`tsid` and `tsid2` happen to hold. -/
def s1ur_chrdev_set_stream_id (env : Call → Int) (resolve readback : Nat → Int × Nat)
    (tsid0 tsid20 : Nat) (current_system : ptx_system) (stream_id : Nat) :
    Int × List Call :=
  if current_system ≠ ptx_system.PTX_ISDB_S_SYSTEM then (-EINVAL, [])
  else
    let first : Int × Nat × Nat :=
      if stream_id < 12 then tsid_resolve_loop resolve 100 0 0 tsid0 else (0, stream_id, 0)
    let t1 := List.replicate first.2.2 (Call.tc90522_tmcc_get_tsid_s stream_id)
    if stream_id < 12 ∧ first.1 ≠ 0 then (first.1, t1)
    else if stream_id < 12 ∧ first.2.1 = 0 then (-EAGAIN, t1)
    else
      let tsid := first.2.1
      let set := env (Call.tc90522_set_tsid_s tsid)
      let t2 := t1 ++ [Call.tc90522_set_tsid_s tsid]
      if set ≠ 0 then (set, t2)
      else
        let second := tsid_readback_loop readback tsid 100 0 set tsid20
        let t3 := t2 ++ List.replicate second.2.2 Call.tc90522_get_tsid_s
        if second.2.1 ≠ tsid then (-EAGAIN, t3) else (second.1, t3)

/-- The function `s1ur_chrdev_start_capture`: the return value, the stream
context afterwards and the calls made. The registration call carries the
remainder length that the stream context has when it is made. -/
def s1ur_chrdev_start_capture (env : Call → Int) (current_system : ptx_system)
    (stream_ctx : s1ur_stream_context) : Int × s1ur_stream_context × List Call :=
  let purge := env Call.it930x_purge_psb
  if purge ≠ 0 then (purge, stream_ctx, [Call.it930x_purge_psb])
  else
    let pins : Int × List Call :=
      match current_system with
      | ptx_system.PTX_ISDB_T_SYSTEM =>
        (env (Call.tc90522_enable_ts_pins_t true), [Call.tc90522_enable_ts_pins_t true])
      | _ => (0, [])
    let fail_tc : List Call :=
      match current_system with
      | ptx_system.PTX_ISDB_T_SYSTEM => [Call.tc90522_enable_ts_pins_t false]
      | _ => []
    if pins.1 ≠ 0 then (pins.1, stream_ctx, [Call.it930x_purge_psb] ++ pins.2 ++ fail_tc)
    else
      let ctx1 : s1ur_stream_context := { stream_ctx with remain_len := 0 }
      let start := env (Call.itedtv_bus_start_streaming ctx1.remain_len)
      let t := [Call.it930x_purge_psb] ++ pins.2 ++
        [Call.itedtv_bus_start_streaming ctx1.remain_len]
      if start ≠ 0 then (start, ctx1, t ++ fail_tc)
      else (0, ctx1, t)

/-- The function `s1ur_chrdev_stop_capture`: the return value and the calls
made. -/
def s1ur_chrdev_stop_capture (s1ur : s1ur_device) (current_system : ptx_system) :
    Int × List Call :=
  if !s1ur.available then (0, [Call.itedtv_bus_stop_streaming])
  else
    match current_system with
    | ptx_system.PTX_ISDB_T_SYSTEM =>
      (0, [Call.itedtv_bus_stop_streaming, Call.tc90522_enable_ts_pins_t false])
    | _ => (0, [Call.itedtv_bus_stop_streaming])

/-- Every collaborator call succeeds. -/
def env_ok : Call → Int := fun _ => 0

/-- Every collaborator call succeeds except `tc90522_enable_ts_pins_t(false)`,
which fails with `-EIO`. -/
def env_pins_off_fail : Call → Int :=
  fun c => if c = Call.tc90522_enable_ts_pins_t false then - EIO else 0

/-- A device that has been initialised: one reference, available. -/
def s1ur_ready : s1ur_device := { kref := 1, available := true }

/-- Lock polls of which the first fails with `-EIO` and the following ones
succeed and report lock. -/
def pll_error_then_lock : Nat → Int × Bool :=
  fun k => if k = 0 then (- EIO, false) else (0, true)

/-- Resolution polls that succeed with identifier 0 twice and report
`0x4010` from the third poll on. -/
def tsid_resolves_third : Nat → Int × Nat :=
  fun k => if k < 2 then (0, 0) else (0, 16400)

/-- Resolution polls that all fail with `-EIO`. -/
def tsid_poll_fails : Nat → Int × Nat :=
  fun _ => (- EIO, 0)

/-- Readback polls that report 0 once and `0x4010` from the second poll on. -/
def tsid_reads_second : Nat → Int × Nat :=
  fun k => if k < 1 then (0, 0) else (0, 16400)

/-! ## s1ur_device.c: the life of the device object -/

/-- The collaborator calls of `s1ur_device_init` from `it930x_raise` on, each
followed by `if (ret) goto fail_device;` (`fail_chrdev` for the last): the
configuration read of `s1ur_device_load_config`, firmware, warm init, the GPIO
set-up, the PID filter when null packets are discarded, and the registration
of the character device group. -/
def device_init_calls (discard_null_packets : Bool) : List Call :=
  [Call.it930x_raise, Call.it930x_read_reg 0x4979, Call.it930x_load_firmware,
   Call.it930x_init_warm, Call.it930x_set_gpio_mode 3, Call.it930x_write_gpio 3 true,
   Call.it930x_set_gpio_mode 2, Call.it930x_write_gpio 2 false] ++
  (if discard_null_packets then [Call.it930x_set_pid_filter] else []) ++
  [Call.ptx_chrdev_context_add_group]

/-- The function `s1ur_device_init`: the return value, the device object when
the call succeeds (`kref_init` sets the count to 1, the last statement sets
`available`) and the calls made. `args_ok` tells whether all four arguments
are non-NULL, `kzalloc_ok` whether the stream context could be allocated. -/
def s1ur_device_init (env : Call → Int) (args_ok kzalloc_ok discard_null_packets : Bool) :
    Int × Option s1ur_device × List Call :=
  if !args_ok then (-EINVAL, none, [])
  else if !kzalloc_ok then (-ENOMEM, none, [Call.get_device, Call.put_device])
  else
    let fail_bus := [Call.kfree_stream_ctx, Call.put_device]
    let fail_bridge := Call.itedtv_bus_term :: fail_bus
    let fail_device := Call.it930x_term :: fail_bridge
    let bus := env Call.itedtv_bus_init
    if bus ≠ 0 then (bus, none, [Call.get_device, Call.itedtv_bus_init] ++ fail_bus)
    else
      let bridge := env Call.it930x_init
      let t := [Call.get_device, Call.itedtv_bus_init, Call.it930x_init]
      if bridge ≠ 0 then (bridge, none, t ++ fail_bridge)
      else
        let rest := run_calls env (device_init_calls discard_null_packets)
        if rest.1 ≠ 0 then (rest.1, none, t ++ rest.2 ++ fail_device)
        else (0, some { kref := 1, available := true }, t ++ rest.2)

/-- An operation on the device object after `s1ur_device_init`: an open of the
character device that succeeds, a release of it, or `s1ur_device_term`. -/
inductive LifeOp where
  | chrdev_open
  | chrdev_release
  | device_term
  deriving DecidableEq, Repr

/-- The device object and all collaborator calls made on its behalf so far. -/
structure LifeState where
  s1ur : s1ur_device
  calls : List Call
  deriving DecidableEq, Repr

/-- One operation; an open is a call of `s1ur_chrdev_open` in which every
collaborator call succeeds. -/
def LifeOp.step (st : LifeState) : LifeOp → LifeState
  | LifeOp.chrdev_open =>
    { s1ur := (s1ur_chrdev_open env_ok st.s1ur).2.1,
      calls := st.calls ++ (s1ur_chrdev_open env_ok st.s1ur).2.2 }
  | LifeOp.chrdev_release =>
    { s1ur := (s1ur_chrdev_release env_ok st.s1ur).2.1,
      calls := st.calls ++ (s1ur_chrdev_release env_ok st.s1ur).2.2 }
  | LifeOp.device_term =>
    { s1ur := (s1ur_device_term st.s1ur).1,
      calls := st.calls ++ (s1ur_device_term st.s1ur).2 }

/-- A sequence of operations, from left to right. -/
def run_life (st : LifeState) : List LifeOp → LifeState
  | [] => st
  | op :: ops => run_life (LifeOp.step st op) ops

/-- The state right after a successful `s1ur_device_init`. -/
def life_start : LifeState := { s1ur := { kref := 1, available := true }, calls := [] }

/-- The number of runs of the finalizer `s1ur_device_release` among the calls
(each run closes the bridge once). -/
def finalizer_runs (calls : List Call) : Nat := calls.count Call.it930x_term

/-- The number of times the completion `quit_completion` was fired. -/
def completions (calls : List Call) : Nat := calls.count Call.complete

/-- A history in which each release follows its open: with `out` opens not yet
released and `termed` telling whether terminate has been called, the rest of
the history releases only what is open, calls terminate exactly once, and
ends with nothing open. -/
def history_matched : Nat → Bool → List LifeOp → Bool
  | out, termed, [] => termed && out == 0
  | out, termed, LifeOp.chrdev_open :: ops => history_matched (out + 1) termed ops
  | out, termed, LifeOp.chrdev_release :: ops =>
    decide (0 < out) && history_matched (out - 1) termed ops
  | out, termed, LifeOp.device_term :: ops => !termed && history_matched out true ops

/-- A matched history in which, moreover, every open after the terminate
happens while an earlier open is still unreleased (the device object is still
referenced when it is opened). -/
def history_alive : Nat → Bool → List LifeOp → Bool
  | out, termed, [] => termed && out == 0
  | out, termed, LifeOp.chrdev_open :: ops =>
    (!termed || decide (0 < out)) && history_alive (out + 1) termed ops
  | out, termed, LifeOp.chrdev_release :: ops =>
    decide (0 < out) && history_alive (out - 1) termed ops
  | out, termed, LifeOp.device_term :: ops => !termed && history_alive out true ops

/-! ## s1ur_device.c: memory accesses of the stream resynchronizer

The functions above work on lists, where a read past the end of a region
gives 0 and a copy past the end is cut short. The functions below list, for
the same runs, the memory accesses that the source makes, so that their
bounds can be stated. A read is recorded as the number of bytes it needs from
the pointer on and the number of bytes that the region holds from the pointer
on; a write into the remainder buffer as its offset and length. -/

/-- The reads of the inner loop of `s1ur_device_stream_process` entered with
counter `i`: each `p[i * 188]` that is evaluated needs `i * 188 + 1` bytes of
the region, which holds `p.length` bytes from `p` on. -/
def sync_scan_accesses (p : List Nat) (remain : Nat) : Nat → Nat → List (Nat × Nat)
  | 0, _ => []
  | fuel + 1, i =>
    if u32 ((i + 1) * 188) ≤ remain then
      (u32 (i * 188) + 1, p.length) ::
        (if p.getD (u32 (i * 188)) 0 ≠ 0x47 then []
         else sync_scan_accesses p remain fuel (u32 (i + 1)))
    else []

/-- The reads of `s1ur_device_stream_process` on the region at `p` with
`*len = remain`: those of each scan, and the `188 * i` bytes from `p` on that
each call of `ptx_chrdev_put_stream` is given. -/
def stream_process_accesses : Nat → List Nat → Nat → List (Nat × Nat)
  | 0, _, _ => []
  | fuel + 1, p, remain =>
    if remain = 0 then []
    else
      sync_scan_accesses p remain (fuel + 1) 0 ++
        match sync_scan p remain (fuel + 1) 0 with
        | none => []
        | some (i, sync_remain) =>
          if i < S1UR_DEVICE_TS_SYNC_COUNT then
            stream_process_accesses fuel (p.drop 1) (remain - 1)
          else
            (u32 (188 * i), p.length) ::
              (if sync_remain then []
               else stream_process_accesses fuel (p.drop (u32 (188 * i)))
                 (u32_sub remain (u32 (188 * i))))

/-- A memory access of `s1ur_device_stream_handler`: a read of the chunk or
of the remainder buffer (`needed` bytes from the pointer on, of which the
region holds `avail`), or a write of `n` bytes at offset `off` of the
remainder buffer. -/
inductive Access where
  | chunk_read (needed avail : Nat)
  | remain_read (needed avail : Nat)
  | remain_write (off n : Nat)
  deriving DecidableEq, Repr

/-- An access that stays within its region; the remainder buffer has
`S1UR_DEVICE_TS_SYNC_SIZE` bytes. -/
def Access.in_bounds : Access → Prop
  | Access.chunk_read needed avail => needed ≤ avail
  | Access.remain_read needed avail => needed ≤ avail
  | Access.remain_write off n => off + n ≤ S1UR_DEVICE_TS_SYNC_SIZE

instance (a : Access) : Decidable a.in_bounds := by
  cases a <;> unfold Access.in_bounds <;> infer_instance

/-- The accesses of the end of `s1ur_device_stream_handler`: the reads of
`s1ur_device_stream_process` on the chunk and the copy of the bytes left over
to the start of the remainder buffer. -/
def s1ur_device_stream_handler_tail_accesses (fuel : Nat) (p : List Nat) (remain : Nat) :
    List Access :=
  (stream_process_accesses fuel p remain).map (fun a => Access.chunk_read a.1 a.2) ++
    match s1ur_device_stream_process fuel p remain [] with
    | none => []
    | some (_, p2, remain2) =>
      if remain2 ≠ 0 then [Access.chunk_read remain2 p2.length, Access.remain_write 0 remain2]
      else []

/-- The accesses of `s1ur_device_stream_handler` on the chunk `buf`, in the
order of the source: each `memcpy` reads the chunk and writes the remainder
buffer, the first `s1ur_device_stream_process` reads the remainder buffer. -/
def s1ur_device_stream_handler_accesses (fuel : Nat) (ctx : s1ur_stream_context)
    (buf : List Nat) : List Access :=
  let len := buf.length
  let ctx_remain_len := u32 ctx.remain_len
  if ctx_remain_len ≠ 0 then
    if u32 (ctx_remain_len + len) ≥ S1UR_DEVICE_TS_SYNC_SIZE then
      let t := u32_sub S1UR_DEVICE_TS_SYNC_SIZE ctx_remain_len
      let remain_buf := memcpy ctx.remain_buf ctx_remain_len buf t
      [Access.chunk_read t buf.length, Access.remain_write ctx_remain_len t] ++
        (stream_process_accesses fuel remain_buf S1UR_DEVICE_TS_SYNC_SIZE).map
          (fun a => Access.remain_read a.1 a.2) ++
        match s1ur_device_stream_process fuel remain_buf S1UR_DEVICE_TS_SYNC_SIZE [] with
        | none => []
        | some (_, _, ctx_remain_len1) =>
          let p := if ctx_remain_len1 = 0 then buf.drop t else buf
          let remain := if ctx_remain_len1 = 0 then u32_sub len t else len
          s1ur_device_stream_handler_tail_accesses fuel p remain
    else [Access.chunk_read len buf.length, Access.remain_write ctx_remain_len len]
  else s1ur_device_stream_handler_tail_accesses fuel buf len

/-- A chunk of nine valid packets behind eleven bytes of garbage, cut off in
the middle of the last packet. -/
def garbage_then_packets : List Nat :=
  (List.replicate 11 0 ++ ((List.range 9).map packet_of).flatten).take 1650

/-- A chunk of one hundred bytes without sync marker. -/
def short_chunk : List Nat := List.replicate 100 1

/-- An input of 2^32 - 1 bytes that are all the sync marker. -/
def markers_4g : List Nat := List.replicate 4294967295 0x47

/-- A chunk of 2^32 - 1 bytes. -/
def chunk_4g : List Nat := List.replicate 4294967295 0

/-- Four valid packets followed by the first byte of a fifth. -/
def four_packets_and_a_byte : List Nat := ((List.range 5).map packet_of).flatten.take 753

/-! ## Stream resynchronizer: cuttings of a packet stream that lose nothing

When a chunk of `len` bytes of an aligned packet stream arrives while the
handler holds a remainder of `r` bytes, the handler either appends the chunk
to the remainder, or completes the remainder to four packets, hands them to the
sink and scans the rest of the chunk; a scan hands over nothing unless it finds
four packets. -/

/-- The chunk lengths that lose no byte: with no remainder the chunk is empty
or holds four packets; with a remainder of `r` bytes the chunk either does not
complete four packets, or completes them exactly, or leaves four more
packets behind them. -/
def chunk_fits (r len : Nat) : Bool :=
  if r = 0 then decide (len = 0 ∨ 752 ≤ len)
  else decide (r + len ≤ 752 ∨ 1504 ≤ r + len)

/-- The remainder length after such a chunk: the bytes behind the last whole
packet when something was handed to the sink, all bytes held otherwise. -/
def remain_after (r len : Nat) : Nat :=
  if r = 0 then len % 188
  else if r + len < 752 then r + len
  else (r + len) % 188

/-- A sequence of chunk lengths, arriving at a remainder of `r` bytes, of
which every chunk fits and after which no remainder is left. -/
def cutting_fits : Nat → List Nat → Bool
  | r, [] => decide (r = 0)
  | r, len :: lens => chunk_fits r len && cutting_fits (remain_after r len) lens

/-- Seventeen valid packets cut into chunks of 852, 88, 564, 0 and 1692
bytes: the second chunk is appended to the remainder, the third completes
four packets exactly, the fourth is empty. -/
def seventeen_packets_cut : List (List Nat) :=
  [seventeen_packets.flatten.take 852, (seventeen_packets.flatten.drop 852).take 88,
   (seventeen_packets.flatten.drop 940).take 564, [], seventeen_packets.flatten.drop 1504]

/-- Nine valid packets. -/
def nine_packets : List (List Nat) := (List.range 9).map packet_of

/-- Five valid packets. -/
def five_packets : List (List Nat) := (List.range 5).map packet_of

/-! ## px4_usb.c: registration of the driver

The character device framework and the USB core are collaborators. A call to
one of them is an event of type `UsbCall`; a call of
`ptx_chrdev_context_create` or `ptx_chrdev_context_destroy` is named by the
slot of `px4_usb_chrdev_ctx` that it is given. -/

/-- The values of `enum px4_usb_device_type` that index `px4_usb_chrdev_ctx`. -/
inductive px4_usb_device_type where
  | PX4_USB_DEVICE
  | PXMLT5_USB_DEVICE
  | PXMLT8_USB_DEVICE
  | ISDB2056_USB_DEVICE
  | ISDB6014_4TS_USB_DEVICE
  | PXM1UR_USB_DEVICE
  | PXS1UR_USB_DEVICE
  deriving DecidableEq, Repr

/-- A call made by `px4_usb_register` or `px4_usb_unregister`. -/
inductive UsbCall where
  | ptx_chrdev_context_create (slot : px4_usb_device_type)
  | ptx_chrdev_context_destroy (slot : px4_usb_device_type)
  | usb_register
  | usb_deregister
  deriving DecidableEq, Repr

open px4_usb_device_type in
/-- The function `px4_usb_register`: the return value and the calls made, in
order. `env` gives the return value of each call. The lists `fail_*` are the
calls made from the label of that name to the end of the function. -/
def px4_usb_register (env : UsbCall → Int) : Int × List UsbCall :=
  let fail_mlt5 := [UsbCall.ptx_chrdev_context_destroy PX4_USB_DEVICE]
  let fail_mlt8 := UsbCall.ptx_chrdev_context_destroy PXMLT5_USB_DEVICE :: fail_mlt5
  let fail_isdb2056 := UsbCall.ptx_chrdev_context_destroy PXMLT8_USB_DEVICE :: fail_mlt8
  let fail_isdb6014 := UsbCall.ptx_chrdev_context_destroy ISDB2056_USB_DEVICE :: fail_isdb2056
  let fail_pxm1ur := UsbCall.ptx_chrdev_context_destroy PXM1UR_USB_DEVICE :: fail_isdb6014
  let fail_pxs1ur := UsbCall.ptx_chrdev_context_destroy PXS1UR_USB_DEVICE :: fail_pxm1ur
  let fail_usb := UsbCall.ptx_chrdev_context_destroy ISDB6014_4TS_USB_DEVICE :: fail_pxs1ur
  let c1 := [UsbCall.ptx_chrdev_context_create PX4_USB_DEVICE]
  if env (UsbCall.ptx_chrdev_context_create PX4_USB_DEVICE) ≠ 0 then
    (env (UsbCall.ptx_chrdev_context_create PX4_USB_DEVICE), c1)
  else
    let c2 := c1 ++ [UsbCall.ptx_chrdev_context_create PXMLT5_USB_DEVICE]
    if env (UsbCall.ptx_chrdev_context_create PXMLT5_USB_DEVICE) ≠ 0 then
      (env (UsbCall.ptx_chrdev_context_create PXMLT5_USB_DEVICE), c2 ++ fail_mlt5)
    else
      let c3 := c2 ++ [UsbCall.ptx_chrdev_context_create PXMLT8_USB_DEVICE]
      if env (UsbCall.ptx_chrdev_context_create PXMLT8_USB_DEVICE) ≠ 0 then
        (env (UsbCall.ptx_chrdev_context_create PXMLT8_USB_DEVICE), c3 ++ fail_mlt8)
      else
        let c4 := c3 ++ [UsbCall.ptx_chrdev_context_create ISDB2056_USB_DEVICE]
        if env (UsbCall.ptx_chrdev_context_create ISDB2056_USB_DEVICE) ≠ 0 then
          (env (UsbCall.ptx_chrdev_context_create ISDB2056_USB_DEVICE), c4 ++ fail_isdb2056)
        else
          let c5 := c4 ++ [UsbCall.ptx_chrdev_context_create ISDB6014_4TS_USB_DEVICE]
          if env (UsbCall.ptx_chrdev_context_create ISDB6014_4TS_USB_DEVICE) ≠ 0 then
            (env (UsbCall.ptx_chrdev_context_create ISDB6014_4TS_USB_DEVICE),
              c5 ++ fail_isdb6014)
          else
            let c6 := c5 ++ [UsbCall.ptx_chrdev_context_create PXM1UR_USB_DEVICE]
            if env (UsbCall.ptx_chrdev_context_create PXM1UR_USB_DEVICE) ≠ 0 then
              (env (UsbCall.ptx_chrdev_context_create PXM1UR_USB_DEVICE), c6 ++ fail_pxm1ur)
            else
              let c7 := c6 ++ [UsbCall.ptx_chrdev_context_create PXS1UR_USB_DEVICE]
              if env (UsbCall.ptx_chrdev_context_create PXS1UR_USB_DEVICE) ≠ 0 then
                (env (UsbCall.ptx_chrdev_context_create PXS1UR_USB_DEVICE),
                  c7 ++ fail_pxs1ur)
              else
                let c8 := c7 ++ [UsbCall.usb_register]
                if env UsbCall.usb_register ≠ 0 then (env UsbCall.usb_register, c8 ++ fail_usb)
                else (0, c8)

open px4_usb_device_type in
/-- The function `px4_usb_unregister`: the calls made, in order. -/
def px4_usb_unregister : List UsbCall :=
  [UsbCall.usb_deregister,
   UsbCall.ptx_chrdev_context_destroy PXS1UR_USB_DEVICE,
   UsbCall.ptx_chrdev_context_destroy PXM1UR_USB_DEVICE,
   UsbCall.ptx_chrdev_context_destroy ISDB6014_4TS_USB_DEVICE,
   UsbCall.ptx_chrdev_context_destroy ISDB2056_USB_DEVICE,
   UsbCall.ptx_chrdev_context_destroy PXMLT8_USB_DEVICE,
   UsbCall.ptx_chrdev_context_destroy PXMLT5_USB_DEVICE,
   UsbCall.ptx_chrdev_context_destroy PX4_USB_DEVICE]

/-- The order in which `px4_usb_register` creates the contexts. -/
def usb_creation_order : List px4_usb_device_type :=
  [px4_usb_device_type.PX4_USB_DEVICE, px4_usb_device_type.PXMLT5_USB_DEVICE,
   px4_usb_device_type.PXMLT8_USB_DEVICE, px4_usb_device_type.ISDB2056_USB_DEVICE,
   px4_usb_device_type.ISDB6014_4TS_USB_DEVICE, px4_usb_device_type.PXM1UR_USB_DEVICE,
   px4_usb_device_type.PXS1UR_USB_DEVICE]

/-- The contexts that the calls create, in order. -/
def contexts_created (env : UsbCall → Int) : List UsbCall → List px4_usb_device_type
  | [] => []
  | UsbCall.ptx_chrdev_context_create s :: cs =>
    if env (UsbCall.ptx_chrdev_context_create s) = 0 then s :: contexts_created env cs
    else contexts_created env cs
  | _ :: cs => contexts_created env cs

/-- The slots given to `ptx_chrdev_context_destroy` by the calls, in order. -/
def contexts_destroyed : List UsbCall → List px4_usb_device_type
  | [] => []
  | UsbCall.ptx_chrdev_context_destroy s :: cs => s :: contexts_destroyed cs
  | _ :: cs => contexts_destroyed cs

/-- Every call succeeds except the one given, which fails with `-ENOMEM`. -/
def usb_env_fail (c : UsbCall) : UsbCall → Int :=
  fun x => if x = c then -ENOMEM else 0
/-! ## Machine arithmetic and memory lemmas -/

theorem size_of_int_natCast (n : Nat) (h : n < 18446744073709551616) :
    size_of_int (n : Int) = n := by
  unfold size_of_int; omega

theorem size_add_eq (a b : Nat) (h : a + b < 18446744073709551616) : size_add a b = a + b := by
  unfold size_add; omega

theorem size_sub_eq (a b : Nat) (h : b ≤ a) (ha : a < 18446744073709551616) :
    size_sub a b = a - b := by
  unfold size_sub; omega

theorem int_of_size_eq (n : Nat) (h : n < 2147483648) : int_of_size n = (n : Int) := by
  unfold int_of_size; split <;> omega

theorem int_wrap_eq (i : Int) (h1 : -2147483648 ≤ i) (h2 : i < 2147483648) : int_wrap i = i := by
  unfold int_wrap; omega

theorem mod_lt_two (x S : Nat) (h : x < 2 * S) : x % S = if x < S then x else x - S := by
  split
  · exact Nat.mod_eq_of_lt ‹_›
  · rw [Nat.mod_eq_sub_mod (by omega)]
    exact Nat.mod_eq_of_lt (by omega)

theorem mem_read_eq (p : List Nat) (off n : Nat) (h : off + n ≤ p.length) :
    mem_read p off n = (List.range n).map (fun i => p.getD (off + i) 0) := by
  unfold mem_read
  apply List.ext_getElem
  · simp; omega
  · intro i h1 h2
    simp at h1 h2 ⊢
    rw [List.getElem?_eq_getElem (by omega)]; simp

theorem memcpy_length (dst : List Nat) (off : Nat) (src : List Nat) (n : Nat)
    (h : off + n ≤ dst.length) (hs : n ≤ src.length) :
    (memcpy dst off src n).length = dst.length := by
  unfold memcpy; simp; omega

theorem memcpy_getD (dst : List Nat) (off : Nat) (src : List Nat) (n : Nat)
    (h : off + n ≤ dst.length) (hs : n ≤ src.length) (j : Nat) :
    (memcpy dst off src n).getD j 0 =
      if off ≤ j ∧ j < off + n then src.getD (j - off) 0 else dst.getD j 0 := by
  unfold memcpy
  by_cases h1 : j < off
  · have : ¬ (off ≤ j ∧ j < off + n) := by omega
    simp only [this, if_false, List.append_assoc]
    rw [List.getD_append _ _ _ _ (by simp; omega)]
    simp [List.getD_eq_getElem?_getD, List.getElem?_take, h1]
  · by_cases h2 : j < off + n
    · have : (off ≤ j ∧ j < off + n) := by omega
      simp only [this, if_true, List.append_assoc]
      rw [List.getD_append_right _ _ _ _ (by simp; omega)]
      rw [List.getD_append _ _ _ _ (by simp; omega)]
      simp [List.getD_eq_getElem?_getD, List.getElem?_take]
      have e : j - min off dst.length = j - off := by omega
      rw [e, if_pos (by omega)]
    · have : ¬ (off ≤ j ∧ j < off + n) := by omega
      simp only [this, if_false]
      rw [List.getD_append_right _ _ _ _ (by simp; omega)]
      simp [List.getD_eq_getElem?_getD]
      congr 2; omega

/-! ## Ring buffer: the fast path under the representation invariant -/

theorem mod_step (t w S : Nat) (ht : t < S ∨ (t = 0 ∧ S = 0)) (hw : w ≤ S) :
    (t + w) % S = if t + w = S then 0 else if t + w < S then t + w else t + w - S := by
  rcases ht with ht | ⟨rfl, rfl⟩
  · rw [mod_lt_two _ _ (by omega)]
    split_ifs <;> omega
  · have : w = 0 := by omega
    subst this; simp

theorem counter_roundtrip : int_wrap (int_wrap ((0 : Int) + 1) - 1) = 0 := by decide

theorem occupied_add (a w : Nat) (h : a + w ≤ 2147483647) :
    int_wrap ((a : Int) + int_of_size w) = ((a + w : Nat) : Int) := by
  rw [int_of_size_eq w (by omega), int_wrap_eq _ (by omega) (by omega)]; omega

theorem occupied_sub (a r : Nat) (h : r ≤ a) (ha : a ≤ 2147483647) :
    int_wrap ((a : Int) - int_of_size r) = ((a - r : Nat) : Int) := by
  rw [int_of_size_eq r (by omega), int_wrap_eq _ (by omega) (by omega)]; omega

theorem write_clean (b : Option (List Nat)) (S a h : Nat) (buf : List Nat)
    (hS : S ≤ 2147483647) (ha : a ≤ S) (hh : h < S ∨ h = 0)
    (hlen : S + buf.length < 18446744073709551616) :
    ringbuffer_write_atomic
      { state := 2, rw_count := 0, wait_count := 0, buf := b, size := S,
        actual_size := a, head := h, tail := (((h + a) % S : Nat) : Int) } buf =
    (if buf.length ≤ S - a then 0 else -EOVERFLOW,
     { state := 2, rw_count := 0, wait_count := 0,
       buf := b.map (fun p => stored p S ((h + a) % S) buf (min buf.length (S - a))),
       size := S,
       actual_size := ((a + min buf.length (S - a) : Nat) : Int), head := h,
       tail := (((h + (a + min buf.length (S - a))) % S : Nat) : Int) },
     min buf.length (S - a)) := by
  have ht : (h + a) % S < S ∨ ((h + a) % S = 0 ∧ S = 0) := by
    rcases Nat.eq_zero_or_pos S with h0 | h0
    · right; subst h0; simp; omega
    · left; exact Nat.mod_lt _ h0
  generalize htd : (h + a) % S = t at ht
  have ht2 : (h + (a + min buf.length (S - a))) % S = (t + min buf.length (S - a)) % S := by
    rw [← htd, ← Nat.add_assoc, Nat.mod_add_mod]
  rw [ht2]
  generalize hw : min buf.length (S - a) = w
  have hw1 : w ≤ S - a := by omega
  have hw2 : w ≤ buf.length := by omega
  rw [mod_step t w S ht (by omega)]
  unfold ringbuffer_write_atomic
  simp only [ne_eq, not_true_eq_false, if_false]
  rw [size_of_int_natCast a (by omega), size_of_int_natCast t (by omega)]
  rw [size_add_eq a _ (by omega)]
  have hws : (if a + buf.length ≤ S then buf.length else size_sub S a) = w := by
    split
    · omega
    · rw [size_sub_eq _ _ ha (by omega)]; omega
  rw [hws]
  have hret : (if buf.length ≠ w then -EOVERFLOW else (0 : Int)) =
      if buf.length ≤ S - a then 0 else -EOVERFLOW := by
    by_cases hc : buf.length ≤ S - a
    · rw [if_pos hc, if_neg (by omega)]
    · rw [if_neg hc, if_pos (by omega)]
  rw [hret]
  by_cases hw0 : w = 0
  · subst hw0
    simp only [ne_eq, not_true_eq_false, if_false, stored, if_true, counter_roundtrip, Nat.add_zero]
    have e3 : (if t = S then 0 else if t < S then t else t - S) = t := by
      split_ifs <;> omega
    rw [e3]
    cases b <;> rfl
  · simp only [ne_eq, hw0, not_false_eq_true, if_true, counter_roundtrip, stored, if_false]
    rw [size_add_eq t w (by omega), occupied_add a w (by omega)]
    by_cases hc : t + w ≤ S
    · simp only [hc, if_true]
      have e2 : int_of_size (if t + w = S then 0 else t + w) =
          ((if t + w = S then 0 else if t + w < S then t + w else t + w - S : Nat) : Int) := by
        rw [int_of_size_eq _ (by split <;> omega)]
        congr 1
        split_ifs <;> omega
      rw [e2]
    · simp only [hc, if_false]
      rw [size_sub_eq S t (by omega) (by omega), size_sub_eq w _ (by omega) (by omega)]
      have e2 : int_of_size (w - (S - t)) =
          ((if t + w = S then 0 else if t + w < S then t + w else t + w - S : Nat) : Int) := by
        rw [int_of_size_eq _ (by omega)]
        congr 1
        split_ifs <;> omega
      rw [e2]

theorem stored_length (p : List Nat) (S t : Nat) (buf : List Nat) (w : Nat)
    (hp : S ≤ p.length) (ht : t < S) (hw : w ≤ S) (hb : w ≤ buf.length) :
    (stored p S t buf w).length = p.length := by
  unfold stored
  split_ifs with h1 h2
  · rfl
  · exact memcpy_length _ _ _ _ (by omega) hb
  · rw [memcpy_length _ _ _ _ (by rw [memcpy_length _ _ _ _ (by omega) (by omega)]; omega)
      (by simp; omega)]
    exact memcpy_length _ _ _ _ (by omega) (by omega)

theorem stored_getD (p : List Nat) (S t : Nat) (buf : List Nat) (w : Nat)
    (hp : S ≤ p.length) (ht : t < S) (hw : w ≤ S) (hb : w ≤ buf.length) (x : Nat) (hx : x < S) :
    (stored p S t buf w).getD x 0 =
      if t ≤ x ∧ x < t + w then buf.getD (x - t) 0
      else if x + S < t + w then buf.getD (x + S - t) 0
      else p.getD x 0 := by
  unfold stored
  by_cases h1 : w = 0
  · subst h1
    rw [if_pos rfl, if_neg (by omega), if_neg (by omega)]
  · rw [if_neg h1]
    by_cases h2 : t + w ≤ S
    · rw [if_pos h2, memcpy_getD _ _ _ _ (by omega) hb]
      by_cases h3 : t ≤ x ∧ x < t + w
      · rw [if_pos h3, if_pos h3]
      · rw [if_neg h3, if_neg h3, if_neg (by omega)]
    · have hl : (memcpy p t buf (S - t)).length = p.length :=
        memcpy_length _ _ _ _ (by omega) (by omega)
      rw [if_neg h2, memcpy_getD _ _ _ _ (by rw [hl]; omega) (by simp; omega)]
      by_cases h3 : x + S < t + w
      · rw [if_pos (by omega), if_neg (by omega), if_pos h3]
        simp only [List.getD_eq_getElem?_getD, List.getElem?_drop, Nat.sub_zero]
        congr 2; omega
      · rw [if_neg (by omega), memcpy_getD _ _ _ _ (by omega) (by omega)]
        by_cases h4 : t ≤ x ∧ x < t + w
        · rw [if_pos (by omega), if_pos h4]
        · rw [if_neg (by omega), if_neg h4, if_neg h3]

theorem contents_write (p : List Nat) (S a h : Nat) (buf : List Nat) (w : Nat)
    (hp : S ≤ p.length) (ha : a ≤ S) (hh : h < S) (hw : w ≤ S - a) (hb : w ≤ buf.length) :
    (List.range (a + w)).map (fun i => (stored p S ((h + a) % S) buf w).getD ((h + i) % S) 0) =
    (List.range a).map (fun i => p.getD ((h + i) % S) 0) ++ buf.take w := by
  apply List.ext_getElem
  · simp; omega
  · intro i h1 h2
    simp only [List.length_map, List.length_range] at h1
    simp only [List.getElem_map, List.getElem_range]
    have hS : 0 < S := by omega
    rw [stored_getD p S _ buf w hp (Nat.mod_lt _ hS) (by omega) hb _ (Nat.mod_lt _ hS)]
    rw [mod_lt_two (h + a) S (by omega), mod_lt_two (h + i) S (by omega)]
    by_cases hi : i < a
    · rw [List.getElem_append_left (by simpa using hi)]
      simp only [List.getElem_map, List.getElem_range]
      rw [mod_lt_two (h + i) S (by omega)]
      split_ifs <;> first | rfl | omega
    · rw [List.getElem_append_right (by simpa using hi)]
      simp only [List.length_map, List.length_range, List.getElem_take]
      have hia : i - a < buf.length := by omega
      have e : ∀ k, k = i - a → buf.getD k 0 = buf[i - a] := by
        intro k hk; subst hk
        rw [List.getD_eq_getElem _ _ hia]
      split_ifs <;> first | (apply e; omega) | omega

theorem mem_read_length (p : List Nat) (off n : Nat) (h : off + n ≤ p.length) :
    (mem_read p off n).length = n := by
  unfold mem_read; simp; omega

theorem copy_to_user_all (ok : Nat) (src : List Nat) (h : src.length ≤ ok) :
    copy_to_user ok src = (src, 0) := by
  unfold copy_to_user
  rw [List.take_of_length_le h]
  congr 1; omega

theorem read_clean (st t : Int) (b : Option (List Nat)) (S a h : Nat) (ubuf_ok len : Nat)
    (hS : S ≤ 2147483647) (ha : a ≤ S) (hh : h < S ∨ h = 0)
    (hp : S ≤ (b.getD []).length) (hok : min len a ≤ ubuf_ok) :
    ringbuffer_read_user
      { state := st, rw_count := 0, wait_count := 0, buf := b, size := S,
        actual_size := a, head := h, tail := t } ubuf_ok len =
    (0,
     { state := st, rw_count := 0, wait_count := 0, buf := b, size := S,
       actual_size := ((a - min len a : Nat) : Int),
       head := (((h + min len a) % S : Nat) : Int), tail := t },
     min len a,
     (List.range (min len a)).map (fun i => (b.getD []).getD ((h + i) % S) 0)) := by
  generalize hr : min len a = r at hok
  have hr1 : r ≤ a := by omega
  have hh2 : h < S ∨ (h = 0 ∧ S = 0) := by omega
  rw [mod_step h r S hh2 (by omega)]
  unfold ringbuffer_read_user
  simp only
  rw [size_of_int_natCast a (by omega), size_of_int_natCast h (by omega)]
  have hrs : (if len ≤ a then len else a) = r := by split <;> omega
  rw [hrs]
  rw [counter_roundtrip]
  by_cases hr0 : r = 0
  · subst hr0
    simp only [ne_eq, not_true_eq_false, if_false, Nat.add_zero, Nat.sub_zero, List.range_zero,
      List.map_nil]
    have e3 : (if h = S then 0 else if h < S then h else h - S) = h := by
      split_ifs <;> omega
    rw [e3]
  · simp only [ne_eq, hr0, not_false_eq_true, if_true]
    rw [size_add_eq h r (by omega)]
    by_cases hc : h + r ≤ S
    · simp only [hc, if_true]
      rw [copy_to_user_all _ _ (by rw [mem_read_length _ _ _ (by omega)]; exact hok)]
      simp only [ne_eq, not_true_eq_false, if_false]
      rw [size_add_eq h r (by omega), occupied_sub a r hr1 (by omega), mem_read_eq _ _ _ (by omega)]
      have e2 : int_of_size (if h + r = S then 0 else h + r) =
          ((if h + r = S then 0 else if h + r < S then h + r else h + r - S : Nat) : Int) := by
        rw [int_of_size_eq _ (by split <;> omega)]
        congr 1
        split_ifs <;> omega
      rw [e2]
      congr 3
      apply List.map_congr_left
      intro i hi
      simp only [List.mem_range] at hi
      rw [Nat.mod_eq_of_lt (by omega)]
    · simp only [hc, if_false]
      rw [size_sub_eq S h (by omega) (by omega), size_sub_eq r _ (by omega) (by omega)]
      rw [copy_to_user_all _ _ (by rw [mem_read_length _ _ _ (by omega)]; omega)]
      simp only [if_true]
      rw [copy_to_user_all _ _ (by rw [mem_read_length _ _ _ (by omega)]; omega)]
      simp only [ne_eq, not_true_eq_false, if_false]
      rw [occupied_sub a r hr1 (by omega), size_sub_eq r _ (by omega) (by omega)]
      have e2 : int_of_size (r - (S - h)) =
          ((if h + r = S then 0 else if h + r < S then h + r else h + r - S : Nat) : Int) := by
        rw [int_of_size_eq _ (by omega)]
        congr 1
        split_ifs <;> omega
      rw [e2, mem_read_eq _ _ _ (by omega), mem_read_eq _ _ _ (by omega)]
      congr 3
      have hsplit : r = (S - h) + (r - (S - h)) := by omega
      conv_rhs => rw [hsplit, List.range_add, List.map_append, List.map_map]
      congr 1
      · apply List.map_congr_left
        intro i hi
        simp only [List.mem_range] at hi
        rw [Nat.mod_eq_of_lt (by omega)]
      · apply List.map_congr_left
        intro i hi
        simp only [List.mem_range] at hi
        simp only [Function.comp]
        rw [mod_lt_two _ _ (by omega), if_neg (by omega)]
        congr 1; omega

/-- Every ring buffer that satisfies the invariant is given by natural numbers
`S`, `a`, `h` with `a ≤ S` and `h` inside the storage. -/
theorem Inv_repr (rb : ringbuffer) (hinv : rb.Inv) :
    ∃ a h : Nat,
      rb = { state := rb.state, rw_count := 0, wait_count := 0, buf := rb.buf,
             size := rb.size, actual_size := a, head := h,
             tail := (((h + a) % rb.size : Nat) : Int) } ∧
      rb.actual_size = a ∧ rb.head = h ∧
      rb.size ≤ 2147483647 ∧ a ≤ rb.size ∧ (h < rb.size ∨ h = 0) ∧
      rb.size ≤ (rb.buf.getD []).length := by
  obtain ⟨st, rw, wc, b, S, A, H, T⟩ := rb
  simp only [ringbuffer.Inv, INT_MAX] at hinv
  obtain ⟨h1, h2, h3, h4, h5, h6, h7, h8, h9⟩ := hinv
  obtain ⟨a, rfl⟩ := Int.eq_ofNat_of_zero_le h4
  obtain ⟨h, rfl⟩ := Int.eq_ofNat_of_zero_le h6
  subst h2 h3
  simp only [Int.toNat_ofNat] at h8
  subst h8
  exact ⟨a, h, rfl, rfl, rfl, h1, by dsimp only; omega, by dsimp only; omega, h9⟩

theorem Inv_of_repr (st : Int) (b : Option (List Nat)) (S a h : Nat)
    (hS : S ≤ 2147483647) (ha : a ≤ S) (hh : h < S ∨ h = 0) (hp : S ≤ (b.getD []).length) :
    ({ state := st, rw_count := 0, wait_count := 0, buf := b, size := S, actual_size := a,
       head := h, tail := (((h + a) % S : Nat) : Int) } : ringbuffer).Inv := by
  simp only [ringbuffer.Inv, INT_MAX, Int.toNat_ofNat]
  exact ⟨hS, trivial, trivial, by omega, by omega, by omega, by omega, trivial, hp⟩

theorem contents_repr (st : Int) (b : Option (List Nat)) (S a h : Nat) (t : Int) :
    ({ state := st, rw_count := 0, wait_count := 0, buf := b, size := S, actual_size := a,
       head := h, tail := t } : ringbuffer).contents =
      (List.range a).map (fun i => (b.getD []).getD ((h + i) % S) 0) := by
  simp only [ringbuffer.contents, Int.toNat_ofNat]

/-- The effect of `ringbuffer_write_atomic` on a readable ring buffer that
satisfies the invariant, in terms of the buffered bytes. -/
theorem write_atomic_ok (rb : ringbuffer) (buf : List Nat) (hinv : rb.Inv)
    (hst : rb.state = 2) (hlen : rb.size + buf.length < 18446744073709551616) :
    ∃ rb2 : ringbuffer,
      ringbuffer_write_atomic rb buf =
        (if buf.length ≤ rb.size - rb.actual_size.toNat then 0 else -EOVERFLOW, rb2,
         min buf.length (rb.size - rb.actual_size.toNat)) ∧
      rb2.Inv ∧ rb2.state = 2 ∧ rb2.size = rb.size ∧ rb2.head = rb.head ∧
      rb2.actual_size =
        rb.actual_size + ((min buf.length (rb.size - rb.actual_size.toNat) : Nat) : Int) ∧
      rb2.contents = rb.contents ++ buf.take (min buf.length (rb.size - rb.actual_size.toNat)) := by
  obtain ⟨a, h, hrb, ha, hh, h1, h2, h3, h4⟩ := Inv_repr rb hinv
  generalize rb.size = S at *
  generalize rb.buf = b at *
  rw [hst] at hrb
  subst hrb
  simp only [Int.toNat_ofNat]
  rw [write_clean b S a h buf h1 h2 h3 hlen]
  refine ⟨_, rfl, ?_, rfl, rfl, rfl, ?_, ?_⟩
  · apply Inv_of_repr _ _ _ _ _ h1 (by omega) h3
    cases b with
    | none => exact h4
    | some p =>
      simp only [Option.map_some', Option.getD_some] at h4 ⊢
      rcases Nat.eq_zero_or_pos S with h0 | h0
      · omega
      · rw [stored_length p S _ buf _ h4 (Nat.mod_lt _ h0) (by omega) (by omega)]
        exact h4
  · simp only [Nat.cast_add]
  · rw [contents_repr, contents_repr]
    cases b with
    | none =>
      simp only [Option.getD_none, List.length_nil] at h4
      have : a = 0 := by omega
      subst this
      have : S = 0 := by omega
      subst this
      simp
    | some p =>
      simp only [Option.map_some', Option.getD_some] at h4 ⊢
      rcases h3 with h3 | h3
      · exact contents_write p S a h buf _ h4 h2 h3 (by omega) (by omega)
      · have : S = 0 ∨ 0 < S := by omega
        rcases this with h0 | h0
        · subst h0
          have : a = 0 := by omega
          subst this
          simp
        · exact contents_write p S a h buf _ h4 h2 (by omega) (by omega) (by omega)

theorem contents_split (p : List Nat) (S a h r : Nat) (hr : r ≤ a) :
    (List.range a).map (fun i => p.getD ((h + i) % S) 0) =
      (List.range r).map (fun i => p.getD ((h + i) % S) 0) ++
      (List.range (a - r)).map (fun i => p.getD (((h + r) % S + i) % S) 0) := by
  have hsplit : a = r + (a - r) := by omega
  conv_lhs => rw [hsplit, List.range_add, List.map_append, List.map_map]
  congr 1
  apply List.map_congr_left
  intro i _
  simp only [Function.comp, Nat.mod_add_mod, Nat.add_assoc]

/-- The effect of a fault-free `ringbuffer_read_user` on a ring buffer that
satisfies the invariant, in terms of the buffered bytes. -/
theorem read_user_ok (rb : ringbuffer) (ubuf_ok len : Nat) (hinv : rb.Inv)
    (hok : min len rb.actual_size.toNat ≤ ubuf_ok) :
    ∃ rb2 : ringbuffer,
      ringbuffer_read_user rb ubuf_ok len =
        (0, rb2, min len rb.actual_size.toNat,
         rb.contents.take (min len rb.actual_size.toNat)) ∧
      rb2.Inv ∧ rb2.state = rb.state ∧ rb2.size = rb.size ∧ rb2.buf = rb.buf ∧
      rb2.tail = rb.tail ∧
      rb2.actual_size = rb.actual_size - ((min len rb.actual_size.toNat : Nat) : Int) ∧
      rb2.head = (((rb.head.toNat + min len rb.actual_size.toNat) % rb.size : Nat) : Int) ∧
      rb.contents = rb.contents.take (min len rb.actual_size.toNat) ++ rb2.contents := by
  obtain ⟨a, h, hrb, ha, hh, h1, h2, h3, h4⟩ := Inv_repr rb hinv
  generalize rb.size = S at *
  generalize rb.buf = b at *
  generalize rb.state = st at *
  subst hrb
  simp only [Int.toNat_ofNat] at hok ⊢
  rw [read_clean st _ b S a h ubuf_ok len h1 h2 h3 h4 hok]
  rw [contents_repr]
  have hsp := contents_split (b.getD []) S a h (min len a) (by omega)
  have htk : ((List.range a).map (fun i => (b.getD []).getD ((h + i) % S) 0)).take (min len a) =
      (List.range (min len a)).map (fun i => (b.getD []).getD ((h + i) % S) 0) := by
    rw [hsp, List.take_left']
    simp
  rw [htk]
  refine ⟨_, rfl, ?_, rfl, rfl, rfl, rfl, ?_, rfl, ?_⟩
  · have ht : (h + a) % S = ((h + min len a) % S + (a - min len a)) % S := by
      rw [Nat.mod_add_mod]; congr 1; omega
    rw [ht]
    apply Inv_of_repr _ _ _ _ _ h1 (by omega) _ h4
    rcases Nat.eq_zero_or_pos S with h0 | h0
    · right; subst h0
      have : a = 0 := by omega
      subst this
      simp; omega
    · left; exact Nat.mod_lt _ h0
  · simp only
    omega
  · rw [contents_repr]
    exact hsp

/-! ## Ring buffer: runs of fast-path calls -/

theorem contents_nil_of_empty (rb : ringbuffer) (h : rb.actual_size = 0) : rb.contents = [] := by
  simp [ringbuffer.contents, h]

/-- One fast-path call keeps the invariant and the FIFO bookkeeping: the bytes
returned so far followed by the bytes still buffered are the bytes buffered at
the start followed by the bytes accepted so far. -/
theorem fast_step_ok (S : Nat) (c0 : List Nat) (t : FastTrace) (op : FastOp)
    (hinv : t.rb.Inv) (hst : t.rb.state = 2) (hS : t.rb.size = S)
    (hfit : ∀ buf, op = FastOp.write buf → S + buf.length < 18446744073709551616)
    (hfifo : t.returned ++ t.rb.contents = c0 ++ t.accepted) :
    (FastOp.step t op).rb.Inv ∧ (FastOp.step t op).rb.state = 2 ∧
    (FastOp.step t op).rb.size = S ∧
    (FastOp.step t op).returned ++ (FastOp.step t op).rb.contents =
      c0 ++ (FastOp.step t op).accepted := by
  cases op with
  | write buf =>
    obtain ⟨rb2, hw, h1, h2, h3, _, _, h6⟩ :=
      write_atomic_ok t.rb buf hinv hst (by rw [hS]; exact hfit buf rfl)
    simp only [FastOp.step, hw]
    refine ⟨h1, h2, by rw [h3, hS], ?_⟩
    rw [h6, ← List.append_assoc, hfifo, List.append_assoc]
  | read len =>
    obtain ⟨rb2, hr, h1, h2, h3, _, _, _, _, h8⟩ :=
      read_user_ok t.rb len len hinv (Nat.min_le_left _ _)
    simp only [FastOp.step, hr]
    refine ⟨h1, by rw [h2, hst], by rw [h3, hS], ?_⟩
    rw [List.append_assoc, ← h8, hfifo]

theorem run_fast_ok (S : Nat) (c0 : List Nat) (ops : List FastOp) :
    ∀ t : FastTrace, t.rb.Inv → t.rb.state = 2 → t.rb.size = S →
      (∀ buf, FastOp.write buf ∈ ops → S + buf.length < 18446744073709551616) →
      t.returned ++ t.rb.contents = c0 ++ t.accepted →
      (ops.foldl FastOp.step t).rb.Inv ∧ (ops.foldl FastOp.step t).rb.state = 2 ∧
      (ops.foldl FastOp.step t).rb.size = S ∧
      (ops.foldl FastOp.step t).returned ++ (ops.foldl FastOp.step t).rb.contents =
        c0 ++ (ops.foldl FastOp.step t).accepted := by
  induction ops with
  | nil => intro t h1 h2 h3 _ h5; exact ⟨h1, h2, h3, h5⟩
  | cons op ops ih =>
    intro t h1 h2 h3 h4 h5
    obtain ⟨k1, k2, k3, k4⟩ := fast_step_ok S c0 t op h1 h2 h3
      (fun buf hb => h4 buf (by rw [hb]; exact List.mem_cons_self _ _)) h5
    exact ih (FastOp.step t op) k1 k2 k3
      (fun buf hb => h4 buf (List.mem_cons_of_mem _ hb)) k4

/-- Claim C1, counterexample: the readable ring buffer `rb_readable_holding7`
(capacity 4, one byte buffered) answers the single fault-free read of one
byte with `[7]` although the run contains no write, so the bytes returned are
not a prefix of the bytes accepted. -/
theorem ringbuffer_fifo_counterexample :
    rb_readable_holding7.state = 2 ∧ 0 < rb_readable_holding7.size ∧
    (run_fast rb_readable_holding7 [FastOp.read 1]).returned = [7] ∧
    (run_fast rb_readable_holding7 [FastOp.read 1]).accepted = [] ∧
    ¬ ((run_fast rb_readable_holding7 [FastOp.read 1]).returned <+:
        (run_fast rb_readable_holding7 [FastOp.read 1]).accepted) := by
  decide

/-- Claim C1, amended (ring buffer FIFO): for every readable ring buffer that
satisfies the invariant and every sequence of `ringbuffer_write_atomic` calls
and fault-free `ringbuffer_read_user` calls, the bytes returned by the reads
are a prefix of the bytes buffered at the start followed by the bytes accepted
by the writes, and equal them once the buffer is empty. -/
theorem ringbuffer_fifo (rb : ringbuffer) (ops : List FastOp)
    (hinv : rb.Inv) (hst : rb.state = 2)
    (hfit : ∀ buf, FastOp.write buf ∈ ops → rb.size + buf.length < 18446744073709551616) :
    (run_fast rb ops).returned <+: rb.contents ++ (run_fast rb ops).accepted ∧
    ((run_fast rb ops).rb.actual_size = 0 →
      (run_fast rb ops).returned = rb.contents ++ (run_fast rb ops).accepted) := by
  obtain ⟨_, _, _, h⟩ := run_fast_ok rb.size rb.contents ops
    { rb := rb, returned := [], accepted := [] } hinv hst rfl hfit (by simp)
  have h2 : (run_fast rb ops).returned ++ (run_fast rb ops).rb.contents =
      rb.contents ++ (run_fast rb ops).accepted := h
  constructor
  · rw [← h2]; exact List.prefix_append _ _
  · intro he
    rw [← h2, contents_nil_of_empty _ he, List.append_nil]

theorem ringbuffer_fifo_witness :
    (run_fast rb_readable_holding7 [FastOp.write [1, 2, 3, 4], FastOp.read 2, FastOp.read 9]).returned
        <+: rb_readable_holding7.contents ++
          (run_fast rb_readable_holding7
            [FastOp.write [1, 2, 3, 4], FastOp.read 2, FastOp.read 9]).accepted ∧
    ((run_fast rb_readable_holding7
        [FastOp.write [1, 2, 3, 4], FastOp.read 2, FastOp.read 9]).rb.actual_size = 0 →
      (run_fast rb_readable_holding7
        [FastOp.write [1, 2, 3, 4], FastOp.read 2, FastOp.read 9]).returned =
        rb_readable_holding7.contents ++
          (run_fast rb_readable_holding7
            [FastOp.write [1, 2, 3, 4], FastOp.read 2, FastOp.read 9]).accepted) :=
  ringbuffer_fifo rb_readable_holding7 [FastOp.write [1, 2, 3, 4], FastOp.read 2, FastOp.read 9]
    (by decide) (by decide)
    (by
      intro buf hb
      simp only [List.mem_cons, List.mem_singleton, FastOp.write.injEq, reduceCtorEq,
        List.not_mem_nil, or_false] at hb
      subst hb
      decide)

/-! ## Ring buffer: single calls -/

/-- Claim C2 (overflow truncation): on a readable ring buffer that satisfies
the invariant, `ringbuffer_write_atomic` reports `min(len, capacity - occupied)`
bytes and appends exactly that many bytes, the first ones of the input, behind
the bytes already buffered; it returns `-EOVERFLOW` with `capacity - occupied`
when `occupied + len > capacity` and `0` with `len` otherwise; `head` and
the bytes already buffered stay as they were. -/
theorem ringbuffer_write_atomic_truncates (rb : ringbuffer) (buf : List Nat)
    (hinv : rb.Inv) (hst : rb.state = 2)
    (hlen : rb.size + buf.length < 18446744073709551616) :
    (ringbuffer_write_atomic rb buf).2.2 = min buf.length (rb.size - rb.actual_size.toNat) ∧
    (ringbuffer_write_atomic rb buf).2.1.contents =
      rb.contents ++ buf.take (min buf.length (rb.size - rb.actual_size.toNat)) ∧
    ((ringbuffer_write_atomic rb buf).1, (ringbuffer_write_atomic rb buf).2.2) =
      (if rb.actual_size.toNat + buf.length > rb.size
       then (-EOVERFLOW, rb.size - rb.actual_size.toNat) else (0, buf.length)) ∧
    (ringbuffer_write_atomic rb buf).2.1.head = rb.head ∧
    (ringbuffer_write_atomic rb buf).2.1.actual_size =
      rb.actual_size + ((min buf.length (rb.size - rb.actual_size.toNat) : Nat) : Int) ∧
    (ringbuffer_write_atomic rb buf).2.1.size = rb.size := by
  obtain ⟨a, h, _, ha, _, _, h2, _, _⟩ := Inv_repr rb hinv
  obtain ⟨rb2, hw, _, _, h3, h4, h5, h6⟩ := write_atomic_ok rb buf hinv hst hlen
  rw [hw]
  refine ⟨rfl, h6, ?_, h4, h5, h3⟩
  rw [ha, Int.toNat_ofNat]
  dsimp only
  by_cases hc : a + buf.length > rb.size
  · rw [if_pos hc, if_neg (by omega), Nat.min_eq_right (by omega)]
  · rw [if_neg hc, if_pos (by omega), Nat.min_eq_left (by omega)]

theorem ringbuffer_write_atomic_truncates_witness :
    (ringbuffer_write_atomic rb_readable_holding7 [1, 2, 3, 4]).2.2 = 3 ∧
    (ringbuffer_write_atomic rb_readable_holding7 [1, 2, 3, 4]).2.1.contents = [7, 1, 2, 3] ∧
    (ringbuffer_write_atomic rb_readable_holding7 [1, 2, 3, 4]).1 = -EOVERFLOW := by
  have h := ringbuffer_write_atomic_truncates rb_readable_holding7 [1, 2, 3, 4]
    (by decide) (by decide) (by decide)
  refine ⟨?_, ?_, ?_⟩
  · rw [h.1]; decide
  · rw [h.2.1]; decide
  · have h3 := congrArg Prod.fst h.2.2.1
    rw [h3]; decide

/-- Claim C3 (short read): on a ring buffer that satisfies the invariant, a
fault-free `ringbuffer_read_user` asking for `n` bytes returns 0, reports and
delivers the oldest `min(n, occupied)` bytes, decreases the occupied count by
that amount and advances `head` by that amount modulo the capacity; asking
for more than is buffered empties the buffer, and an empty buffer gives a read
of 0 bytes without error. -/
theorem ringbuffer_read_user_short (rb : ringbuffer) (ubuf_ok n : Nat) (hinv : rb.Inv)
    (hok : min n rb.actual_size.toNat ≤ ubuf_ok) :
    (ringbuffer_read_user rb ubuf_ok n).1 = 0 ∧
    (ringbuffer_read_user rb ubuf_ok n).2.2.1 = min n rb.actual_size.toNat ∧
    (ringbuffer_read_user rb ubuf_ok n).2.2.2 = rb.contents.take (min n rb.actual_size.toNat) ∧
    (ringbuffer_read_user rb ubuf_ok n).2.1.actual_size =
      rb.actual_size - ((min n rb.actual_size.toNat : Nat) : Int) ∧
    (ringbuffer_read_user rb ubuf_ok n).2.1.head =
      (((rb.head.toNat + min n rb.actual_size.toNat) % rb.size : Nat) : Int) ∧
    (rb.actual_size.toNat < n →
      (ringbuffer_read_user rb ubuf_ok n).2.2.1 = rb.actual_size.toNat ∧
      (ringbuffer_read_user rb ubuf_ok n).2.1.actual_size = 0) ∧
    (rb.actual_size = 0 →
      (ringbuffer_read_user rb ubuf_ok n).1 = 0 ∧
      (ringbuffer_read_user rb ubuf_ok n).2.2.1 = 0) := by
  obtain ⟨rb2, hr, _, _, _, _, _, h6, h7, _⟩ := read_user_ok rb ubuf_ok n hinv hok
  obtain ⟨a, h, _, ha, _, _, _, _, _⟩ := Inv_repr rb hinv
  rw [hr]
  refine ⟨rfl, rfl, rfl, h6, h7, ?_, ?_⟩
  · intro hlt
    dsimp only
    rw [h6, ha, Int.toNat_ofNat] at *
    constructor <;> omega
  · intro he
    dsimp only
    rw [he]
    exact ⟨rfl, by simp⟩

theorem ringbuffer_read_user_short_witness :
    (ringbuffer_read_user rb_readable_holding7 9 9).1 = 0 ∧
    (ringbuffer_read_user rb_readable_holding7 9 9).2.2.1 = 1 ∧
    (ringbuffer_read_user rb_readable_holding7 9 9).2.1.actual_size = 0 := by
  have h := ringbuffer_read_user_short rb_readable_holding7 9 9 (by decide) (by decide)
  exact ⟨h.1, (h.2.2.2.2.2.1 (by decide)).1, (h.2.2.2.2.2.1 (by decide)).2⟩

/-! ## Ring buffer: state machine and administrative calls -/

/-- The function `ringbuffer_reset` on a ring buffer that satisfies the invariant. -/
theorem reset_ok (rb : ringbuffer) (hinv : rb.Inv) :
    ∃ r : Int × ringbuffer, ringbuffer_reset rb = some r ∧ r.2.Inv ∧ r.2.size = rb.size := by
  obtain ⟨a, h, hrb, _, _, h1, h2, h3, h4⟩ := Inv_repr rb hinv
  by_cases hst : rb.state = 0
  · refine ⟨(0, { rb with actual_size := 0, head := 0, tail := 0 }), ?_, ?_, rfl⟩
    · rw [hrb]
      simp only [ringbuffer_reset, ringbuffer_lock, ringbuffer_unlock, ringbuffer_reset_nolock,
        hst, ne_eq, not_true_eq_false, if_false, if_true, counter_roundtrip]
    · have := Inv_of_repr rb.state rb.buf rb.size 0 0 h1 (by omega) (by omega) h4
      rw [hrb]
      simpa using this
  · exact ⟨(-EBUSY, rb), by simp [ringbuffer_reset, hst], hinv, rfl⟩

theorem start_snd (rb : ringbuffer) :
    (ringbuffer_start rb).2 = { rb with state := if rb.state = 0 then 1 else rb.state } := by
  simp only [ringbuffer_start, atomic_cmpxchg]
  split_ifs <;> rfl

theorem stop_snd (rb : ringbuffer) : (ringbuffer_stop rb).2 = { rb with state := 0 } := by
  simp only [ringbuffer_stop]
  split_ifs <;> rfl

theorem ready_read_snd (rb : ringbuffer) :
    (ringbuffer_ready_read rb).2 = { rb with state := if rb.state = 1 then 2 else rb.state } := by
  simp only [ringbuffer_ready_read, atomic_cmpxchg]
  split_ifs <;> rfl

/-- Every call of `RbOp` returns and keeps the invariant and the capacity. -/
theorem RbOp_run_ok (rb : ringbuffer) (op : RbOp) (hinv : rb.Inv)
    (hfit : ∀ buf, op = RbOp.write_atomic buf → rb.size + buf.length < 18446744073709551616) :
    ∃ rb2 : ringbuffer, op.run rb = some rb2 ∧ rb2.Inv ∧ rb2.size = rb.size := by
  cases op with
  | start => exact ⟨_, rfl, by rw [start_snd]; exact hinv, by rw [start_snd]⟩
  | ready_read => exact ⟨_, rfl, by rw [ready_read_snd]; exact hinv, by rw [ready_read_snd]⟩
  | stop => exact ⟨_, rfl, by rw [stop_snd]; exact hinv, by rw [stop_snd]⟩
  | reset =>
    obtain ⟨r, h1, h2, h3⟩ := reset_ok rb hinv
    exact ⟨r.2, by simp [RbOp.run, h1], h2, h3⟩
  | write_atomic buf =>
    by_cases hst : rb.state = 2
    · obtain ⟨rb2, hw, h1, _, h3, _⟩ := write_atomic_ok rb buf hinv hst (hfit buf rfl)
      exact ⟨rb2, by simp [RbOp.run, hw], h1, h3⟩
    · exact ⟨rb, by simp [RbOp.run, ringbuffer_write_atomic, hst], hinv, rfl⟩
  | read_user len =>
    obtain ⟨rb2, hr, h1, _, h3, _⟩ := read_user_ok rb len len hinv (Nat.min_le_left _ _)
    exact ⟨rb2, by simp [RbOp.run, hr], h1, h3⟩

theorem run_ops_ok (ops : List RbOp) :
    ∀ rb : ringbuffer, rb.Inv →
      (∀ buf, RbOp.write_atomic buf ∈ ops → rb.size + buf.length < 18446744073709551616) →
      ∃ rb2 : ringbuffer, run_ops rb ops = some rb2 ∧ rb2.Inv ∧ rb2.size = rb.size := by
  induction ops with
  | nil => intro rb h _; exact ⟨rb, rfl, h, rfl⟩
  | cons op ops ih =>
    intro rb hinv hfit
    obtain ⟨rb1, h1, h2, h3⟩ := RbOp_run_ok rb op hinv
      (fun buf hb => hfit buf (by rw [hb]; exact List.mem_cons_self _ _))
    obtain ⟨rb2, k1, k2, k3⟩ := ih rb1 h2
      (fun buf hb => by rw [h3]; exact hfit buf (List.mem_cons_of_mem _ hb))
    exact ⟨rb2, by simp [run_ops, h1, k1], k2, by rw [k3, h3]⟩

/-- Claim C6 (ring buffer invariant): from a ring buffer whose storage holds
`capacity > 0` bytes (at most `INT_MAX`) with `head = tail = occupied = 0`,
every sequence of start, ready_read, stop, reset, write_atomic and fault-free
read_user calls runs to the end and leaves `0 ≤ occupied ≤ capacity`,
`head < capacity` and `tail < capacity`, the capacity being unchanged. -/
theorem ringbuffer_invariant (rb : ringbuffer) (mem : List Nat) (ops : List RbOp)
    (hbuf : rb.buf = some mem) (hmem : rb.size ≤ mem.length)
    (hcap : 0 < rb.size) (hmax : rb.size ≤ INT_MAX)
    (hzero : rb.head = 0 ∧ rb.tail = 0 ∧ rb.actual_size = 0)
    (hidle : rb.rw_count = 0 ∧ rb.wait_count = 0)
    (hfit : ∀ buf, RbOp.write_atomic buf ∈ ops → rb.size + buf.length < 18446744073709551616) :
    ∃ rb2 : ringbuffer, run_ops rb ops = some rb2 ∧ rb2.size = rb.size ∧
      0 ≤ rb2.actual_size ∧ rb2.actual_size ≤ (rb2.size : Int) ∧
      0 ≤ rb2.head ∧ rb2.head < (rb2.size : Int) ∧
      0 ≤ rb2.tail ∧ rb2.tail < (rb2.size : Int) := by
  have hinv : rb.Inv := by
    obtain ⟨h1, h2, h3⟩ := hzero
    simp only [ringbuffer.Inv, h1, h2, h3, hidle.1, hidle.2, hbuf, Option.getD_some]
    refine ⟨hmax, trivial, trivial, le_refl _, by omega, le_refl _, by omega, by simp, hmem⟩
  obtain ⟨rb2, h1, h2, h3⟩ := run_ops_ok ops rb hinv hfit
  obtain ⟨a, h, _, ha, hh, _, k2, k3, _⟩ := Inv_repr rb2 h2
  obtain ⟨_, _, _, _, _, _, _, ht, _⟩ := h2
  refine ⟨rb2, h1, h3, ?_, ?_, ?_, ?_, ?_, ?_⟩
  · omega
  · omega
  · omega
  · omega
  · rw [ht]; omega
  · rw [ht]
    have : (rb2.head.toNat + rb2.actual_size.toNat) % rb2.size < rb2.size :=
      Nat.mod_lt _ (by omega)
    omega

theorem ringbuffer_invariant_witness :
    ∃ rb2 : ringbuffer,
      run_ops rb_allocated4
        [RbOp.start, RbOp.ready_read, RbOp.write_atomic [1, 2, 3], RbOp.read_user 2,
         RbOp.write_atomic [4, 5, 6, 7], RbOp.stop, RbOp.reset] = some rb2 ∧
      rb2.size = rb_allocated4.size ∧
      0 ≤ rb2.actual_size ∧ rb2.actual_size ≤ (rb2.size : Int) ∧
      0 ≤ rb2.head ∧ rb2.head < (rb2.size : Int) ∧
      0 ≤ rb2.tail ∧ rb2.tail < (rb2.size : Int) :=
  ringbuffer_invariant rb_allocated4 [0, 0, 0, 0] _ rfl (by decide) (by decide) (by decide)
    (by decide) (by decide)
    (by
      intro buf hb
      simp only [List.mem_cons, List.mem_singleton, RbOp.write_atomic.injEq, reduceCtorEq,
        List.not_mem_nil, or_false, false_or] at hb
      rcases hb with hb | hb <;> subst hb <;> decide)

/-- The function `ringbuffer_alloc` when storage is obtained anew (there was
none, or its size differs from the request): on success the storage is the
pages obtained, the capacity is the requested size and the indices and the
occupied count are zero. -/
theorem ringbuffer_alloc_new_storage (rb : ringbuffer) (size : Nat) (mem : List Nat)
    (hsize : size ≤ INT_MAX) (hst : rb.state = 0)
    (hidle : rb.rw_count = 0 ∧ rb.wait_count = 0)
    (hnew : rb.buf = none ∨ rb.size ≠ size) :
    ringbuffer_alloc rb size (some mem) =
      some (0, { rb with buf := some mem, size := size, actual_size := 0, head := 0,
                         tail := 0 }) := by
  obtain ⟨st, rw, wc, b, S, A, H, T⟩ := rb
  obtain ⟨h1, h2⟩ := hidle
  dsimp only at hst h1 h2 hnew
  subst hst h1 h2
  have hs : ¬ size > INT_MAX := by omega
  cases b with
  | none =>
    simp [ringbuffer_alloc, ringbuffer_lock, ringbuffer_unlock, ringbuffer_reset_nolock, hs]
    decide
  | some p =>
    have hne : S ≠ size := by
      rcases hnew with h | h
      · cases h
      · exact h
    simp [ringbuffer_alloc, ringbuffer_lock, ringbuffer_unlock, ringbuffer_reset_nolock,
      ringbuffer_free_nolock, hs, hne]
    decide

/-- The function `ringbuffer_alloc` when the size asked for is the size the
storage already has: the storage is kept and the call returns 0, but the
capacity is left at 0. -/
theorem ringbuffer_alloc_kept_storage (rb : ringbuffer) (size : Nat) (mem : List Nat)
    (pages : Option (List Nat)) (hsize : size ≤ INT_MAX) (hst : rb.state = 0)
    (hidle : rb.rw_count = 0 ∧ rb.wait_count = 0)
    (hbuf : rb.buf = some mem) (hsame : rb.size = size) :
    ringbuffer_alloc rb size pages =
      some (0, { rb with size := 0, actual_size := 0, head := 0, tail := 0 }) := by
  obtain ⟨st, rw, wc, b, S, A, H, T⟩ := rb
  obtain ⟨h1, h2⟩ := hidle
  dsimp only at hst h1 h2 hbuf hsame
  subst hst h1 h2 hbuf hsame
  have hs : ¬ S > INT_MAX := by omega
  simp [ringbuffer_alloc, ringbuffer_lock, ringbuffer_unlock, ringbuffer_reset_nolock, hs]
  decide

/-- Claim C7, the code at the failing input: `ringbuffer_alloc` with the
size the buffer already has returns 0 and keeps the storage, but leaves the
capacity at 0 instead of the size asked for. -/
theorem ringbuffer_alloc_same_size_capacity_zero :
    ringbuffer_alloc rb_allocated4 4 (some [9, 9, 9, 9]) =
      some (0, { rb_allocated4 with size := 0 }) ∧
    rb_allocated4.state = 0 ∧ rb_allocated4.size = 4 ∧
    rb_allocated4.buf = some [0, 0, 0, 0] := by
  decide

/-- Claim C8, counterexample: on a ring buffer that is already readable
`ringbuffer_ready_read` returns 0, not `-EINVAL`. -/
theorem ringbuffer_ready_read_counterexample :
    rb_readable_holding7.state = 2 ∧
    (ringbuffer_ready_read rb_readable_holding7).1 = 0 ∧
    (ringbuffer_ready_read rb_readable_holding7).1 ≠ -EINVAL := by
  decide

/-- Claim C8, amended (markReadable): `ringbuffer_ready_read` fails with
`-EINVAL` exactly when the state is 0 (not running) and returns 0 in every
other state; it moves the state to readable (2) exactly when it was streaming
(1) and changes nothing else. -/
theorem ringbuffer_ready_read_transition (rb : ringbuffer) :
    ((ringbuffer_ready_read rb).1 = -EINVAL ↔ rb.state = 0) ∧
    ((ringbuffer_ready_read rb).1 = 0 ↔ rb.state ≠ 0) ∧
    (ringbuffer_ready_read rb).2 = { rb with state := if rb.state = 1 then 2 else rb.state } := by
  refine ⟨?_, ?_, ready_read_snd rb⟩
  · by_cases h : rb.state = 0
    · simp [ringbuffer_ready_read, atomic_cmpxchg, h]
    · simp [ringbuffer_ready_read, atomic_cmpxchg, h, EINVAL]
  · by_cases h : rb.state = 0
    · simp [ringbuffer_ready_read, atomic_cmpxchg, h, EINVAL]
    · simp [ringbuffer_ready_read, atomic_cmpxchg, h]

/-- Claim C9 (write is gated on readable): in every state other than
readable, `ringbuffer_write_atomic` returns `-EINVAL` and leaves the ring
buffer, storage included, and the length of the caller untouched. -/
theorem ringbuffer_write_atomic_gated (rb : ringbuffer) (buf : List Nat) (hst : rb.state ≠ 2) :
    ringbuffer_write_atomic rb buf = (-EINVAL, rb, buf.length) := by
  simp [ringbuffer_write_atomic, hst]

theorem ringbuffer_write_atomic_gated_witness :
    rb_allocated4.state ≠ 2 ∧
    ringbuffer_write_atomic rb_allocated4 [1, 2] = (-EINVAL, rb_allocated4, 2) :=
  ⟨by decide, ringbuffer_write_atomic_gated rb_allocated4 [1, 2] (by decide)⟩

/-- Claim C10 (reset/free contract): while the ring buffer is running
(state not 0) `ringbuffer_reset` and `ringbuffer_free` return `-EBUSY` and
change nothing; when it is not running, and no fast-path call is in flight,
`ringbuffer_reset` returns 0, sets `head`, `tail` and the occupied count to 0
and changes nothing else. -/
theorem ringbuffer_reset_free_contract (rb : ringbuffer)
    (hidle : rb.state = 0 → rb.rw_count = 0 ∧ rb.wait_count = 0) :
    ringbuffer_reset rb =
      some (if rb.state ≠ 0 then (-EBUSY, rb)
            else (0, { rb with actual_size := 0, head := 0, tail := 0 })) ∧
    (rb.state ≠ 0 → ringbuffer_free rb = some (-EBUSY, rb)) := by
  constructor
  · by_cases hst : rb.state = 0
    · obtain ⟨h1, h2⟩ := hidle hst
      obtain ⟨st, rw, wc, b, S, A, H, T⟩ := rb
      dsimp only at hst h1 h2
      subst hst h1 h2
      clear hidle
      simp [ringbuffer_reset, ringbuffer_lock, ringbuffer_unlock, ringbuffer_reset_nolock]
      decide
    · simp [ringbuffer_reset, hst]
  · intro hst
    simp [ringbuffer_free, hst]

theorem ringbuffer_reset_free_contract_witness :
    ringbuffer_reset rb_readable_holding7 = some (-EBUSY, rb_readable_holding7) ∧
    ringbuffer_free rb_readable_holding7 = some (-EBUSY, rb_readable_holding7) := by
  have h := ringbuffer_reset_free_contract rb_readable_holding7 (by decide)
  exact ⟨by rw [h.1]; decide, h.2 (by decide)⟩

/-! ## Stream resynchronizer: scanning aligned data -/

theorem u32_eq (n : Nat) (h : n < 4294967296) : u32 n = n := by
  unfold u32; omega

theorem u32_sub_eq (a b : Nat) (h : b ≤ a) (ha : a < 4294967296) : u32_sub a b = a - b := by
  unfold u32_sub; omega

/-- On aligned data the scan counts every whole packet and stops at the end
of the region. -/
theorem sync_scan_synced (d : List Nat) (hs : Synced d)
    (hL : d.length + 188 < 4294967296) :
    ∀ fuel i, i ≤ d.length / 188 → d.length / 188 - i < fuel →
      sync_scan d d.length fuel i = some (d.length / 188, true) := by
  intro fuel
  induction fuel with
  | zero => intro i _ h; omega
  | succ fuel ih =>
    intro i hi hf
    unfold sync_scan
    rw [u32_eq ((i + 1) * 188) (by omega), u32_eq (i * 188) (by omega)]
    by_cases hlt : i < d.length / 188
    · rw [if_pos (by omega), hs i (by omega)]
      simp only [ne_eq, not_true_eq_false, if_false]
      rw [u32_eq (i + 1) (by omega)]
      exact ih (i + 1) (by omega) (by omega)
    · rw [if_neg (by omega)]
      have : i = d.length / 188 := by omega
      rw [this]

/-- On aligned data of at least four packets one round of
`s1ur_device_stream_process` hands all whole packets to the sink and leaves
the bytes of the last, partial packet. -/
theorem stream_process_synced (d : List Nat) (sink : List (List Nat)) (fuel : Nat)
    (hs : Synced d) (hmin : 752 ≤ d.length) (hL : d.length + 188 < 4294967296)
    (hf : d.length < fuel) :
    s1ur_device_stream_process fuel d d.length sink =
      some (sink ++ [d.take (188 * (d.length / 188))], d.drop (188 * (d.length / 188)),
            d.length % 188) := by
  obtain ⟨f, rfl⟩ : ∃ f, fuel = f + 1 := ⟨fuel - 1, by omega⟩
  unfold s1ur_device_stream_process
  rw [if_neg (by omega), sync_scan_synced d hs hL (f + 1) 0 (Nat.zero_le _) (by omega)]
  simp only [S1UR_DEVICE_TS_SYNC_COUNT, if_true]
  rw [if_neg (by omega), u32_eq (188 * (d.length / 188)) (by omega),
    u32_sub_eq _ _ (by omega) (by omega)]
  congr 3
  omega

/-- A byte other than the sync marker at the head of the region, with at
least one packet length of data, is skipped by one round of the outer loop. -/
theorem stream_process_skip_one (b : Nat) (d : List Nat) (sink : List (List Nat)) (fuel : Nat)
    (hb : b ≠ 0x47) (hd : 188 ≤ (b :: d).length) :
    s1ur_device_stream_process (fuel + 1) (b :: d) (b :: d).length sink =
      s1ur_device_stream_process fuel d d.length sink := by
  rw [s1ur_device_stream_process]
  rw [if_neg (by simp)]
  have hscan : sync_scan (b :: d) (b :: d).length (fuel + 1) 0 = some (0, false) := by
    rw [sync_scan]
    have h1 : u32 ((0 + 1) * 188) = 188 := by decide
    have h2 : u32 (0 * 188) = 0 := by decide
    rw [h1, h2, if_pos hd]
    simp only [List.getD_cons_zero, ne_eq, hb, not_false_eq_true, if_true]
  rw [hscan]
  simp only [S1UR_DEVICE_TS_SYNC_COUNT, Nat.zero_lt_succ, Nat.ofNat_pos, if_true, List.drop_one,
    List.tail_cons, List.length_cons, Nat.add_sub_cancel]

/-- A prefix without sync marker in front of at least one packet length of
data is skipped byte by byte. -/
theorem stream_process_skip (g d : List Nat) (sink : List (List Nat))
    (hg : ∀ b ∈ g, b ≠ 0x47) (hd : 188 ≤ d.length) (fuel : Nat) :
    s1ur_device_stream_process (fuel + g.length) (g ++ d) (g ++ d).length sink =
      s1ur_device_stream_process fuel d d.length sink := by
  induction g with
  | nil => rfl
  | cons b g ih =>
    have e : fuel + (b :: g).length = (fuel + g.length) + 1 := by simp; omega
    rw [e, List.cons_append,
      stream_process_skip_one b (g ++ d) sink _ (hg b (List.mem_cons_self _ _))
        (by simp; omega)]
    exact ih (fun x hx => hg x (List.mem_cons_of_mem _ hx))

/-! ## Streams of valid packets are aligned -/

theorem Synced_nil : Synced [] := by
  intro j hj; simp at hj

theorem Synced_packet_append (pk d : List Nat) (hpk : ValidPacket pk) (hd : Synced d) :
    Synced (pk ++ d) := by
  obtain ⟨hlen, hhead⟩ := hpk
  intro j hj
  rcases Nat.eq_zero_or_pos j with h0 | h0
  · subst h0
    cases pk with
    | nil => simp at hlen
    | cons x xs =>
      simp only [List.head?_cons, Option.some.injEq] at hhead
      simp [hhead]
  · have hge : pk.length ≤ j * 188 := by omega
    rw [List.getD_append_right _ _ _ _ hge, hlen]
    have e : j * 188 - 188 = (j - 1) * 188 := by omega
    rw [e]
    apply hd
    rw [List.length_append] at hj
    omega

theorem Synced_join (pkts : List (List Nat)) (h : ∀ pk ∈ pkts, ValidPacket pk) :
    Synced pkts.flatten := by
  induction pkts with
  | nil => exact Synced_nil
  | cons pk pkts ih =>
    rw [List.flatten_cons]
    exact Synced_packet_append pk _ (h pk (List.mem_cons_self _ _))
      (ih (fun x hx => h x (List.mem_cons_of_mem _ hx)))

theorem length_join_packets (pkts : List (List Nat)) (h : ∀ pk ∈ pkts, ValidPacket pk) :
    pkts.flatten.length = 188 * pkts.length := by
  induction pkts with
  | nil => rfl
  | cons pk pkts ih =>
    rw [List.flatten_cons, List.length_append, List.length_cons,
      ih (fun x hx => h x (List.mem_cons_of_mem _ hx)), (h pk (List.mem_cons_self _ _)).1]
    omega

theorem Synced_drop (d : List Nat) (m : Nat) (h : Synced d) : Synced (d.drop (188 * m)) := by
  intro j hj
  rw [List.length_drop] at hj
  have := h (m + j) (by omega)
  simp only [List.getD_eq_getElem?_getD, List.getElem?_drop] at this ⊢
  have e : 188 * m + j * 188 = (m + j) * 188 := by omega
  rw [e]; exact this

theorem Synced_take (d : List Nat) (n : Nat) (h : Synced d) : Synced (d.take n) := by
  intro j hj
  rw [List.length_take] at hj
  have := h j (by omega)
  simp only [List.getD_eq_getElem?_getD, List.getElem?_take] at this ⊢
  rw [if_pos (by omega)]; exact this

/-- On a whole number of valid packets, at least four, one call of
`s1ur_device_stream_process` hands them to the sink in one slice and leaves
nothing. -/
theorem stream_process_packets (pkts : List (List Nat)) (sink : List (List Nat)) (fuel : Nat)
    (hk : 4 ≤ pkts.length) (hv : ∀ pk ∈ pkts, ValidPacket pk)
    (hL : pkts.flatten.length + 188 < 4294967296) (hf : pkts.flatten.length < fuel) :
    s1ur_device_stream_process fuel pkts.flatten pkts.flatten.length sink =
      some (sink ++ [pkts.flatten], [], 0) := by
  have hlen := length_join_packets pkts hv
  rw [stream_process_synced pkts.flatten sink fuel (Synced_join pkts hv) (by omega) hL hf]
  have e : 188 * (pkts.flatten.length / 188) = pkts.flatten.length := by omega
  rw [e, List.take_length, List.drop_length]
  congr 3
  omega

/-- Claim C5 (resync recovery): a chunk made of bytes that are all different
from the sync marker followed by `k ≥ 4` valid packets, handled with an empty
remainder, gives the sink exactly the concatenation of the `k` packets, in one
slice and without any of the leading bytes, and the remainder stays empty. -/
theorem stream_handler_resync (fuel : Nat) (ctx : s1ur_stream_context) (g : List Nat)
    (pkts : List (List Nat)) (hctx : ctx.remain_len = 0)
    (hg : ∀ b ∈ g, b ≠ 0x47) (hk : 4 ≤ pkts.length) (hv : ∀ pk ∈ pkts, ValidPacket pk)
    (hL : (g ++ pkts.flatten).length + 188 < 4294967296)
    (hf : (g ++ pkts.flatten).length < fuel) :
    ∃ ctx2 : s1ur_stream_context,
      s1ur_device_stream_handler fuel ctx (g ++ pkts.flatten) =
        some (0, ctx2, [pkts.flatten]) ∧
      ctx2.remain_len = 0 := by
  refine ⟨ctx, ?_, hctx⟩
  have hlen := length_join_packets pkts hv
  rw [List.length_append] at hL hf
  unfold s1ur_device_stream_handler
  have h0 : u32 ctx.remain_len = 0 := by rw [hctx]; rfl
  simp only [h0, ne_eq, not_true_eq_false, if_false]
  unfold s1ur_device_stream_handler_tail
  obtain ⟨f, hfe⟩ : ∃ f, fuel = f + g.length := ⟨fuel - g.length, by omega⟩
  rw [hfe, stream_process_skip g pkts.flatten [] hg (by omega) f,
    stream_process_packets pkts [] f hk hv (by omega) (by omega)]
  simp

set_option maxRecDepth 100000 in
theorem stream_handler_resync_witness :
    ∃ ctx2 : s1ur_stream_context,
      s1ur_device_stream_handler 1000 fresh_context
          ([1, 2, 3] ++ [packet_of 1, packet_of 2, packet_of 3, packet_of 4].flatten) =
        some (0, ctx2, [[packet_of 1, packet_of 2, packet_of 3, packet_of 4].flatten]) ∧
      ctx2.remain_len = 0 :=
  stream_handler_resync 1000 fresh_context [1, 2, 3]
    [packet_of 1, packet_of 2, packet_of 3, packet_of 4] rfl (by decide) (by decide)
    (by decide) (by decide) (by decide)

/-! ## Stream resynchronizer: chunks of at least eight packets -/

theorem memcpy_take_front (dst src : List Nat) (n : Nat) (hn : n ≤ src.length) :
    (memcpy dst 0 src n).take n = src.take n := by
  unfold memcpy
  simp only [List.take_zero, List.nil_append, Nat.zero_add]
  rw [List.take_append_of_le_length (by simp; omega), List.take_take, Nat.min_self]

/-- The end of the handler on aligned data of at least four packets: all
whole packets go to the sink in one slice, the bytes of the last, partial
packet become the remainder. -/
theorem stream_handler_tail_synced (fuel : Nat) (ctx : s1ur_stream_context) (p : List Nat)
    (sink : List (List Nat)) (hbuf : ctx.remain_buf.length = 752) (hr : ctx.remain_len = 0)
    (hs : Synced p) (hmin : 752 ≤ p.length) (hL : p.length + 188 < 4294967296)
    (hf : p.length < fuel) :
    ∃ ctx2 : s1ur_stream_context,
      s1ur_device_stream_handler_tail fuel ctx p p.length sink =
        some (0, ctx2, sink ++ [p.take (188 * (p.length / 188))]) ∧
      ctx2.remain_buf.length = 752 ∧ ctx2.remain_len = p.length % 188 ∧
      ctx2.remain_buf.take ctx2.remain_len = p.drop (188 * (p.length / 188)) := by
  unfold s1ur_device_stream_handler_tail
  rw [stream_process_synced p sink fuel hs hmin hL hf]
  have hdl : (p.drop (188 * (p.length / 188))).length = p.length % 188 := by
    rw [List.length_drop]; omega
  by_cases h0 : p.length % 188 = 0
  · refine ⟨ctx, by simp [h0], hbuf, by omega, ?_⟩
    rw [hr, List.take_zero]
    rw [h0] at hdl
    exact (List.length_eq_zero.mp hdl).symm
  · refine ⟨{ remain_buf := memcpy ctx.remain_buf 0 (p.drop (188 * (p.length / 188)))
                  (p.length % 188),
              remain_len := p.length % 188 },
      by simp only [ne_eq, h0, not_false_eq_true, if_true], ?_, rfl, ?_⟩
    · exact (memcpy_length _ _ _ _ (by omega) (by omega)).trans hbuf
    · dsimp only
      rw [memcpy_take_front _ _ _ (by omega), List.take_of_length_le (by omega)]

theorem sync_size_eq : S1UR_DEVICE_TS_SYNC_SIZE = 752 := rfl

/-- The remainder buffer filled up from the head of the chunk: the remainder
followed by the first bytes of the chunk, 752 bytes in all. -/
theorem remain_buf_filled (rbuf c : List Nat) (r : Nat) (hbuf : rbuf.length = 752)
    (hr : r < 752) :
    memcpy rbuf r c (752 - r) = (rbuf.take r ++ c).take 752 := by
  unfold memcpy
  have e : r + (752 - r) = 752 := by omega
  rw [e, List.drop_of_length_le (by omega), List.append_nil, List.take_append_eq_append_take,
    List.length_take, List.take_take]
  have e2 : min r rbuf.length = r := by omega
  have e3 : min 752 r = r := by omega
  rw [e2, e3]

/-- One call of `s1ur_device_stream_handler` on a chunk of at least eight
packet lengths that continues an aligned stream: nothing is lost, the sink
receives whole packets and the remainder is shorter than a packet. -/
theorem stream_handler_step (fuel : Nat) (ctx : s1ur_stream_context) (c : List Nat)
    (hbuf : ctx.remain_buf.length = 752) (hr : ctx.remain_len < 188)
    (hs : Synced (ctx.remain_buf.take ctx.remain_len ++ c))
    (hmin : 1504 ≤ c.length) (hL : c.length + 188 < 4294967296) (hf : c.length < fuel) :
    ∃ (ctx2 : s1ur_stream_context) (sink : List (List Nat)),
      s1ur_device_stream_handler fuel ctx c = some (0, ctx2, sink) ∧
      ctx2.remain_buf.length = 752 ∧ ctx2.remain_len < 188 ∧
      sink.flatten ++ ctx2.remain_buf.take ctx2.remain_len =
        ctx.remain_buf.take ctx.remain_len ++ c ∧
      188 ∣ sink.flatten.length := by
  by_cases h0 : ctx.remain_len = 0
  · rw [h0, List.take_zero, List.nil_append] at hs
    obtain ⟨ctx2, h1, h2, h3, h4⟩ :=
      stream_handler_tail_synced fuel ctx c [] hbuf h0 hs (by omega) hL hf
    refine ⟨ctx2, [] ++ [c.take (188 * (c.length / 188))], ?_, h2, by omega, ?_, ?_⟩
    · unfold s1ur_device_stream_handler
      have hu : u32 ctx.remain_len = 0 := by rw [h0]; rfl
      simp only [hu, ne_eq, not_true_eq_false, if_false]
      exact h1
    · rw [h4, h0, List.take_zero, List.nil_append]
      simp
    · simp only [List.nil_append, List.flatten_cons, List.flatten_nil, List.append_nil,
        List.length_take]
      exact ⟨c.length / 188, by omega⟩
  · have hu : u32 ctx.remain_len = ctx.remain_len := u32_eq _ (by omega)
    have hfill := remain_buf_filled ctx.remain_buf c ctx.remain_len hbuf (by omega)
    generalize hR : ctx.remain_buf.take ctx.remain_len ++ c = R at *
    have hRl : R.length = ctx.remain_len + c.length := by
      rw [← hR, List.length_append, List.length_take]; omega
    have hlen : (R.take 752).length = 752 := by
      rw [List.length_take]; omega
    have hproc := stream_process_synced _ [] fuel (Synced_take R 752 hs) (by omega) (by omega)
      (by omega)
    have hrbt : (R.take 752).take (188 * ((R.take 752).length / 188)) = R.take 752 :=
      List.take_of_length_le (by omega)
    rw [hrbt, List.nil_append, hlen] at hproc
    have hrest : R.drop 752 = c.drop (752 - ctx.remain_len) := by
      rw [← hR, List.drop_append_eq_append_drop, List.length_take, List.drop_of_length_le
        (by simp only [List.length_take]; omega), List.nil_append]
      congr 1; omega
    have hs2 : Synced (R.drop 752) := Synced_drop R 4 hs
    have hl2 : (R.drop 752).length = c.length - (752 - ctx.remain_len) := by
      rw [List.length_drop]; omega
    obtain ⟨ctx2, h1, h2, h3, h4⟩ :=
      stream_handler_tail_synced fuel { remain_buf := R.take 752, remain_len := 0 }
        (R.drop 752) [R.take 752] hlen rfl hs2 (by omega) (by omega) (by omega)
    refine ⟨ctx2, [R.take 752] ++ [(R.drop 752).take (188 * ((R.drop 752).length / 188))],
      ?_, h2, by omega, ?_, ?_⟩
    · unfold s1ur_device_stream_handler
      simp only [hu, ne_eq, h0, not_false_eq_true, if_true, sync_size_eq]
      rw [u32_eq _ (by omega), if_pos (by omega), u32_sub_eq _ _ (by omega) (by omega),
        hfill, hproc]
      simp only [Nat.reduceMod, if_true]
      rw [u32_sub_eq _ _ (by omega) (by omega), ← hrest]
      have e : c.length - (752 - ctx.remain_len) = (R.drop 752).length := hl2.symm
      rw [e]
      exact h1
    · rw [h4]
      simp only [List.cons_append, List.nil_append, List.flatten_cons, List.flatten_nil,
        List.append_nil, List.append_assoc, List.take_append_drop]
    · simp only [List.cons_append, List.nil_append, List.flatten_cons, List.flatten_nil,
        List.append_nil, List.length_append, hlen, List.length_take]
      exact ⟨4 + (R.drop 752).length / 188, by omega⟩

/-- Feeding chunks of at least eight packet lengths that continue an aligned
stream: every call returns, nothing is lost, the sink receives whole packets
and the remainder stays shorter than a packet. -/
theorem feed_chunks_large (fuel : Nat) (chunks : List (List Nat)) :
    ∀ ctx : s1ur_stream_context, ctx.remain_buf.length = 752 → ctx.remain_len < 188 →
      Synced (ctx.remain_buf.take ctx.remain_len ++ chunks.flatten) →
      (∀ c ∈ chunks, 1504 ≤ c.length ∧ c.length + 188 < 4294967296 ∧ c.length < fuel) →
      ∃ (ctx2 : s1ur_stream_context) (sink : List (List Nat)),
        feed_chunks fuel ctx chunks = some (ctx2, sink) ∧
        ctx2.remain_buf.length = 752 ∧ ctx2.remain_len < 188 ∧
        sink.flatten ++ ctx2.remain_buf.take ctx2.remain_len =
          ctx.remain_buf.take ctx.remain_len ++ chunks.flatten ∧
        188 ∣ sink.flatten.length := by
  induction chunks with
  | nil =>
    intro ctx hbuf hr _ _
    exact ⟨ctx, [], rfl, hbuf, hr, by simp, by simp⟩
  | cons c cs ih =>
    intro ctx hbuf hr hs hc
    rw [List.flatten_cons, ← List.append_assoc] at hs
    obtain ⟨hc1, hc2, hc3⟩ := hc c (List.mem_cons_self _ _)
    have hs1 : Synced (ctx.remain_buf.take ctx.remain_len ++ c) := by
      have := Synced_take _ (ctx.remain_buf.take ctx.remain_len ++ c).length hs
      rwa [List.take_left'] at this
      rfl
    obtain ⟨ctx1, sink1, k1, k2, k3, k4, ⟨m, k5⟩⟩ :=
      stream_handler_step fuel ctx c hbuf hr hs1 hc1 hc2 hc3
    have hs2 : Synced (ctx1.remain_buf.take ctx1.remain_len ++ cs.flatten) := by
      have := Synced_drop _ m hs
      rw [← k4, List.append_assoc, ← k5, List.drop_left'] at this
      · exact this
      · rfl
    obtain ⟨ctx2, sink2, j1, j2, j3, j4, ⟨n, j5⟩⟩ :=
      ih ctx1 k2 k3 hs2 (fun x hx => hc x (List.mem_cons_of_mem _ hx))
    refine ⟨ctx2, sink1 ++ sink2, ?_, j2, j3, ?_, ?_⟩
    · simp only [feed_chunks, k1, j1]
    · rw [List.flatten_append, List.append_assoc, j4, ← List.append_assoc, k4,
        List.flatten_cons, List.append_assoc]
    · rw [List.flatten_append, List.length_append, k5, j5]
      exact ⟨m + n, by omega⟩

/-- Round trip for chunks of at least eight packet lengths: from a context
without remainder, valid packets cut into such chunks all reach the sink,
byte for byte and in order, and no remainder is left. -/
theorem feed_chunks_roundtrip (fuel : Nat) (ctx : s1ur_stream_context)
    (pkts chunks : List (List Nat))
    (hbuf : ctx.remain_buf.length = S1UR_DEVICE_TS_SYNC_SIZE) (hfresh : ctx.remain_len = 0)
    (hv : ∀ pk ∈ pkts, ValidPacket pk) (hcut : chunks.flatten = pkts.flatten)
    (hbig : ∀ c ∈ chunks, 1504 ≤ c.length)
    (hL : ∀ c ∈ chunks, c.length + 188 < 4294967296)
    (hf : ∀ c ∈ chunks, c.length < fuel) :
    ∃ (ctx2 : s1ur_stream_context) (sink : List (List Nat)),
      feed_chunks fuel ctx chunks = some (ctx2, sink) ∧ sink.flatten = pkts.flatten ∧
      ctx2.remain_len = 0 := by
  have hs : Synced (ctx.remain_buf.take ctx.remain_len ++ chunks.flatten) := by
    rw [hfresh, List.take_zero, List.nil_append, hcut]
    exact Synced_join pkts hv
  obtain ⟨ctx2, sink, h1, h2, h3, h4, ⟨m, h5⟩⟩ :=
    feed_chunks_large fuel chunks ctx hbuf (by omega) hs
      (fun c hc => ⟨hbig c hc, hL c hc, hf c hc⟩)
  rw [hfresh, List.take_zero, List.nil_append, hcut] at h4
  have hlen := congrArg List.length h4
  rw [List.length_append, length_join_packets pkts hv, h5, List.length_take] at hlen
  have h0 : ctx2.remain_len = 0 := by omega
  refine ⟨ctx2, sink, h1, ?_, h0⟩
  rw [h0, List.take_zero, List.append_nil] at h4
  exact h4

/-! ## Ring buffer: error paths of the administrative and the read call -/

/-- Claim C11, counterexample: on a ring buffer that is not running and holds
three bytes in a storage of capacity 4, `ringbuffer_alloc` for 8 bytes whose
page allocation fails returns `-ENOMEM` and leaves the buffer without storage,
with capacity 0 and the occupied count reset: not as it was before the call. -/
theorem ringbuffer_alloc_atomicity_counterexample :
    (ringbuffer_alloc rb_stopped_holding3 8 none).map (fun r => r.1) = some (-ENOMEM) ∧
    (ringbuffer_alloc rb_stopped_holding3 8 none).map (fun r => r.2.buf) = some none ∧
    (ringbuffer_alloc rb_stopped_holding3 8 none).map (fun r => r.2.size) = some 0 ∧
    (ringbuffer_alloc rb_stopped_holding3 8 none).map (fun r => r.2.actual_size) = some 0 ∧
    rb_stopped_holding3.buf = some [1, 2, 3, 0] ∧ rb_stopped_holding3.size = 4 ∧
    rb_stopped_holding3.actual_size = 3 := by
  decide

/-- Claim C11, amended (errors of `ringbuffer_alloc`): the call returns; when
it returns `-EINVAL` (size above `INT_MAX`) or `-EBUSY` (running) the ring
buffer is exactly as before; when it returns `-ENOMEM` the old storage is
released and the buffer is left without storage, with capacity 0 and
`head = tail = occupied = 0`; there is no other error. -/
theorem ringbuffer_alloc_error_effect (rb : ringbuffer) (size : Nat)
    (pages : Option (List Nat))
    (hidle : rb.state = 0 → rb.rw_count = 0 ∧ rb.wait_count = 0) :
    ∃ r : Int × ringbuffer, ringbuffer_alloc rb size pages = some r ∧
      (r.1 ≠ 0 →
        (r.1 = -EINVAL ∧ size > INT_MAX ∧ r.2 = rb) ∨
        (r.1 = -EBUSY ∧ rb.state ≠ 0 ∧ r.2 = rb) ∨
        (r.1 = -ENOMEM ∧ pages = none ∧
          r.2 = { rb with buf := none, size := 0, actual_size := 0, head := 0, tail := 0 })) := by
  by_cases hs : size > INT_MAX
  · exact ⟨(-EINVAL, rb), by simp [ringbuffer_alloc, hs], fun _ => Or.inl ⟨rfl, hs, rfl⟩⟩
  · by_cases hst : rb.state = 0
    · obtain ⟨h1, h2⟩ := hidle hst
      obtain ⟨st, rw, wc, b, S, A, H, T⟩ := rb
      dsimp only at hst h1 h2
      subst hst h1 h2
      clear hidle
      have hw : int_wrap (int_wrap 1 - 1) = 0 := by decide
      cases b with
      | none =>
        cases pages with
        | none =>
          simp [ringbuffer_alloc, ringbuffer_lock, ringbuffer_unlock, ringbuffer_reset_nolock,
            hs, hw]
        | some mem =>
          simp [ringbuffer_alloc, ringbuffer_lock, ringbuffer_unlock, ringbuffer_reset_nolock,
            hs, hw]
      | some p =>
        by_cases hne : S = size
        · simp [ringbuffer_alloc, ringbuffer_lock, ringbuffer_unlock, ringbuffer_reset_nolock,
            ringbuffer_free_nolock, hs, hw, hne]
        · cases pages with
          | none =>
            simp [ringbuffer_alloc, ringbuffer_lock, ringbuffer_unlock,
              ringbuffer_reset_nolock, ringbuffer_free_nolock, hs, hw, hne]
          | some mem =>
            simp [ringbuffer_alloc, ringbuffer_lock, ringbuffer_unlock,
              ringbuffer_reset_nolock, ringbuffer_free_nolock, hs, hw, hne]
    · exact ⟨(-EBUSY, rb), by simp [ringbuffer_alloc, hs, hst],
        fun _ => Or.inr (Or.inl ⟨rfl, hst, rfl⟩)⟩

theorem ringbuffer_alloc_error_effect_witness :
    ∃ r : Int × ringbuffer, ringbuffer_alloc rb_stopped_holding3 8 none = some r ∧
      (r.1 ≠ 0 →
        (r.1 = -EINVAL ∧ 8 > INT_MAX ∧ r.2 = rb_stopped_holding3) ∨
        (r.1 = -EBUSY ∧ rb_stopped_holding3.state ≠ 0 ∧ r.2 = rb_stopped_holding3) ∨
        (r.1 = -ENOMEM ∧ (none : Option (List Nat)) = none ∧
          r.2 = { rb_stopped_holding3 with
                    buf := none, size := 0, actual_size := 0, head := 0, tail := 0 })) :=
  ringbuffer_alloc_error_effect rb_stopped_holding3 8 none (by decide)

/-- A fault in a read that does not go around the end of the storage: the
call returns `-EFAULT`, reports and delivers the bytes that reached the
destination, and moves `head` and the occupied count by that number. -/
theorem read_user_fault_contiguous (rb : ringbuffer) (ubuf_ok len : Nat) (hinv : rb.Inv)
    (hfault : ubuf_ok < min len rb.actual_size.toNat)
    (hcont : rb.head.toNat + min len rb.actual_size.toNat ≤ rb.size) :
    (ringbuffer_read_user rb ubuf_ok len).1 = -EFAULT ∧
    (ringbuffer_read_user rb ubuf_ok len).2.2.1 = ubuf_ok ∧
    (ringbuffer_read_user rb ubuf_ok len).2.2.2 = rb.contents.take ubuf_ok ∧
    (ringbuffer_read_user rb ubuf_ok len).2.1.actual_size = rb.actual_size - (ubuf_ok : Int) ∧
    (ringbuffer_read_user rb ubuf_ok len).2.1.head = rb.head + (ubuf_ok : Int) := by
  obtain ⟨a, h, hrb, ha, hh, h1, h2, h3, h4⟩ := Inv_repr rb hinv
  generalize rb.size = S at *
  generalize rb.buf = b at *
  generalize rb.state = st at *
  subst hrb
  simp only [Int.toNat_ofNat] at hfault hcont ⊢
  generalize hr : min len a = r at hfault hcont
  have hr1 : r ≤ a := by omega
  rw [contents_repr]
  unfold ringbuffer_read_user
  simp only
  rw [size_of_int_natCast a (by omega), size_of_int_natCast h (by omega)]
  have hrs : (if len ≤ a then len else a) = r := by split <;> omega
  rw [hrs, if_pos (by omega), size_add_eq h r (by omega), if_pos hcont]
  have hres : (copy_to_user ubuf_ok (mem_read (b.getD []) h r)).2 = r - ubuf_ok := by
    simp only [copy_to_user, mem_read_length _ _ _ (show h + r ≤ (b.getD []).length by omega)]
  have hout : (copy_to_user ubuf_ok (mem_read (b.getD []) h r)).1 =
      ((List.range a).map (fun i => (b.getD []).getD ((h + i) % S) 0)).take ubuf_ok := by
    simp only [copy_to_user]
    rw [mem_read_eq _ _ _ (show h + r ≤ (b.getD []).length by omega), ← List.map_take,
      ← List.map_take, List.take_range, List.take_range]
    have e1 : min ubuf_ok r = ubuf_ok := by omega
    have e2 : min ubuf_ok a = ubuf_ok := by omega
    rw [e1, e2]
    apply List.map_congr_left
    intro i hi
    simp only [List.mem_range] at hi
    rw [Nat.mod_eq_of_lt (by omega)]
  rw [hres, hout]
  have hne : r - ubuf_ok ≠ 0 := by omega
  simp only [ne_eq, hne, not_false_eq_true, if_true]
  rw [size_sub_eq r _ (by omega) (by omega)]
  have e3 : r - (r - ubuf_ok) = ubuf_ok := by omega
  rw [e3, size_add_eq h ubuf_ok (by omega), if_neg (by omega),
    int_of_size_eq ubuf_ok (by omega), int_of_size_eq (h + ubuf_ok) (by omega),
    int_wrap_eq _ (by omega) (by omega)]
  exact ⟨trivial, rfl, trivial, rfl, Nat.cast_add h ubuf_ok⟩

/-- Claim C12, the code at the failing input: a read of 8 bytes from the
full ring buffer `rb_full8` (data starting at index 2 of 8, so the read goes
around the end) into a destination that faults after 3 bytes returns
`-EFAULT` and delivers 3 bytes, but reports 5 bytes, takes 5 bytes off the
occupied count and leaves `head` at -1. -/
theorem ringbuffer_read_user_fault_first_copy :
    ringbuffer_read_user rb_full8 3 8 =
      (-EFAULT, { rb_full8 with head := -1, actual_size := 3 }, 5, [3, 4, 5]) ∧
    rb_full8.actual_size = 8 ∧ rb_full8.head = 2 ∧ rb_full8.size = 8 := by
  decide

/-- A fault in the second copy of a read that goes around the end of the
storage is accounted for: 7 bytes delivered, 7 reported, `head` at 1. -/
theorem read_user_fault_second_copy_example :
    ringbuffer_read_user rb_full8 7 8 =
      (-EFAULT, { rb_full8 with head := 1, actual_size := 1 }, 7, [3, 4, 5, 11, 12, 13, 14]) := by
  decide

/-! ## Ring buffer: a reader that enters during an administrative call -/

theorem read_user_enter_finish (ringbuf : ringbuffer) (ubuf_ok len : Nat) :
    read_user_finish (read_user_enter ringbuf).1 (read_user_enter ringbuf).2 ubuf_ok len =
      ringbuffer_read_user ringbuf ubuf_ok len := by
  rfl

/-- Claim C20, evaluation of the code: with the stopped buffer that holds the
three bytes 1, 2, 3 in a storage of capacity 4, `ringbuffer_reset` alone
returns 0 and empties the buffer, and `ringbuffer_read_user` alone delivers
the three bytes; but when the reader enters after `ringbuffer_lock` of the
reset has returned, `ringbuffer_reset_nolock` runs while `rw_count` is 1, and
the reader, which loaded occupied 3 and head 0 before the reset, afterwards
stores head 3 and subtracts 3 from the occupied count that the reset has set
to 0: the buffer ends with occupied -3, head 3 and tail 0. -/
theorem ringbuffer_reset_not_fenced :
    ringbuffer_reset rb_stopped_holding3 =
      some (0, { rb_stopped_holding3 with actual_size := 0, head := 0, tail := 0 }) ∧
    ringbuffer_read_user rb_stopped_holding3 3 3 =
      (0, { rb_stopped_holding3 with actual_size := 0, head := 3 }, 3, [1, 2, 3]) ∧
    reset_during_read_user rb_stopped_holding3 3 3 =
      some (1, 0, { rb_stopped_holding3 with actual_size := -3, head := 3, tail := 0 }, 3,
        [1, 2, 3]) := by
  decide

/-! ## Control path: open -/

theorem run_calls_ok (env : Call → Int) (cs : List Call) (h : ∀ c ∈ cs, env c = 0) :
    run_calls env cs = (0, cs) := by
  induction cs with
  | nil => rfl
  | cons c cs ih =>
    have hc : env c = 0 := h c (List.mem_cons_self _ _)
    have ih2 := ih (fun x hx => h x (List.mem_cons_of_mem _ hx))
    simp [run_calls, hc, ih2]

/-- A failing `s1ur_chrdev_open` never takes a reference: the device is as
before. -/
theorem open_error_keeps_device (env : Call → Int) (s1ur : s1ur_device)
    (h : (s1ur_chrdev_open env s1ur).1 ≠ 0) : (s1ur_chrdev_open env s1ur).2.1 = s1ur := by
  unfold s1ur_chrdev_open at h ⊢
  simp only at h ⊢
  split_ifs at h ⊢ <;> first | rfl | exact absurd rfl h

/-- The unwinding exit `fail_backend` of `s1ur_chrdev_open`: when the
register sequence fails after power-on and chip init have succeeded, the
chips are terminated and the power is switched off before the error is
returned. -/
theorem open_regs_failure_unwinds (env : Call → Int) (s1ur : s1ur_device)
    (hpower : (s1ur_backend_set_power env s1ur true).1 = 0)
    (hinit : (s1ur_backend_init env).1 = 0)
    (hregs : env Call.tc90522_write_multiple_regs_t ≠ 0) :
    s1ur_chrdev_open env s1ur =
      (env Call.tc90522_write_multiple_regs_t, s1ur,
       (s1ur_backend_set_power env s1ur true).2 ++ (s1ur_backend_init env).2 ++
         [Call.tc90522_write_multiple_regs_t] ++
         (s1ur_backend_term.2 ++ (s1ur_backend_set_power env s1ur false).2)) := by
  unfold s1ur_chrdev_open
  simp [hpower, hinit, hregs]

/-- Claim C13, the code at the failing input: when
`tc90522_enable_ts_pins_t(false)` fails with `-EIO` after power-on, chip init
and the register sequence have succeeded, `s1ur_chrdev_open` returns `-EIO`
without taking a reference, and its last call is the failing one: neither the
chip term calls nor the power-off writes are made. -/
theorem s1ur_chrdev_open_pins_failure_no_unwind :
    s1ur_chrdev_open env_pins_off_fail s1ur_ready =
      (- EIO, s1ur_ready,
       [Call.it930x_write_gpio 3 false, Call.it930x_write_gpio 2 true,
        Call.tc90522_init_t, Call.tc90522_init_s, Call.r850_init,
        Call.tc90522_write_multiple_regs_t, Call.tc90522_enable_ts_pins_t false]) ∧
    Call.r850_term ∉ (s1ur_chrdev_open env_pins_off_fail s1ur_ready).2.2 ∧
    Call.it930x_write_gpio 2 false ∉ (s1ur_chrdev_open env_pins_off_fail s1ur_ready).2.2 := by
  decide
/-! ## Control path: tune -/

/-- The lock poll loop while no poll succeeds with lock: it uses up all its
rounds and ends with the outcome of the last poll. -/
theorem pll_poll_loop_no_lock (pll : Nat → Int × Bool) :
    ∀ (i k : Nat) (ret : Int) (locked : Bool),
      (∀ j, k ≤ j → j < k + (i + 1) → ¬ ((pll j).1 = 0 ∧ (pll j).2 = true)) →
      pll_poll_loop pll (i + 1) k ret locked = ((pll (k + i)).1, (pll (k + i)).2, k + (i + 1)) := by
  intro i
  induction i with
  | zero =>
    intro k ret locked h
    have hk := h k (le_refl _) (by omega)
    simp only [pll_poll_loop, hk, if_false, Nat.add_zero]
  | succ i ih =>
    intro k ret locked h
    have hk := h k (le_refl _) (by omega)
    rw [pll_poll_loop, if_neg hk, ih (k + 1) _ _ (fun j h1 h2 => h j (by omega) (by omega))]
    have e1 : k + 1 + i = k + (i + 1) := by omega
    have e2 : k + 1 + (i + 1) = k + (i + 1 + 1) := by omega
    rw [e1, e2]

/-- The lock poll loop when the poll number `k + m` is the first to succeed
with lock: `m + 1` polls are made. -/
theorem pll_poll_loop_lock (pll : Nat → Int × Bool) :
    ∀ (m i k : Nat) (ret : Int) (locked : Bool), m < i →
      (∀ j, k ≤ j → j < k + m → ¬ ((pll j).1 = 0 ∧ (pll j).2 = true)) →
      (pll (k + m)).1 = 0 ∧ (pll (k + m)).2 = true →
      pll_poll_loop pll i k ret locked = (0, true, k + m + 1) := by
  intro m
  induction m with
  | zero =>
    intro i k ret locked hi _ hok
    obtain ⟨i, rfl⟩ : ∃ i2, i = i2 + 1 := ⟨i - 1, by omega⟩
    rw [Nat.add_zero] at hok
    rw [pll_poll_loop, if_pos hok, hok.1, hok.2]
  | succ m ih =>
    intro i k ret locked hi hno hok
    obtain ⟨i, rfl⟩ : ∃ i2, i = i2 + 1 := ⟨i - 1, by omega⟩
    have hk := hno k (le_refl _) (by omega)
    rw [pll_poll_loop, if_neg hk,
      ih i (k + 1) _ _ (by omega) (fun j h1 h2 => hno j (by omega) (by omega))
        (by rw [show k + 1 + m = k + (m + 1) by omega]; exact hok)]
    have e : k + 1 + m + 1 = k + (m + 1) + 1 := by omega
    rw [e]

/-- Claim C14 (tune lock timeout): when every chip call before the lock poll
succeeds and each of the 50 polls succeeds but reports no lock,
`s1ur_chrdev_tune` makes exactly these calls and 50 polls, returns `-EAGAIN`,
and neither enables AGC nor writes the finalizing registers. The result of a
tune is a function of its arguments and of what the chips answer, so a later
tune is run in full: if its calls succeed and its first poll reports lock it
returns 0 after the whole sequence. -/
theorem s1ur_chrdev_tune_lock_timeout (env : Call → Int) (pll : Nat → Int × Bool)
    (freq : Nat) (hbefore : ∀ c ∈ tune_calls_before_poll freq, env c = 0)
    (hpoll : ∀ k < 50, pll k = (0, false)) :
    s1ur_chrdev_tune env pll ptx_system.PTX_ISDB_T_SYSTEM freq =
      (-EAGAIN, tune_calls_before_poll freq ++ List.replicate 50 Call.r850_is_pll_locked) ∧
    (s1ur_chrdev_tune env pll ptx_system.PTX_ISDB_T_SYSTEM freq).2.count
      Call.r850_is_pll_locked = 50 ∧
    (∀ c ∈ tune_calls_after_lock,
      c ∉ (s1ur_chrdev_tune env pll ptx_system.PTX_ISDB_T_SYSTEM freq).2) ∧
    (∀ (env2 : Call → Int) (pll2 : Nat → Int × Bool) (freq2 : Nat),
      (∀ c ∈ tune_calls_before_poll freq2 ++ tune_calls_after_lock, env2 c = 0) →
      pll2 0 = (0, true) →
      s1ur_chrdev_tune env2 pll2 ptx_system.PTX_ISDB_T_SYSTEM freq2 =
        (0, tune_calls_before_poll freq2 ++ [Call.r850_is_pll_locked] ++
              tune_calls_after_lock)) := by
  have h1 : s1ur_chrdev_tune env pll ptx_system.PTX_ISDB_T_SYSTEM freq =
      (-EAGAIN, tune_calls_before_poll freq ++ List.replicate 50 Call.r850_is_pll_locked) := by
    unfold s1ur_chrdev_tune
    simp only [run_calls_ok env _ hbefore, ne_eq, not_true_eq_false, if_false]
    rw [pll_poll_loop_no_lock pll 49 0 0 false
      (fun j _ hj => by rw [hpoll j (by omega)]; simp)]
    rw [hpoll 49 (by omega)]
    simp
  refine ⟨h1, ?_, ?_, ?_⟩
  · rw [h1]
    simp [tune_calls_before_poll]
  · rw [h1]
    intro c hc
    simp only [tune_calls_after_lock, List.mem_cons, List.mem_singleton, List.not_mem_nil,
      or_false] at hc
    rcases hc with rfl | rfl | rfl | rfl <;> simp [tune_calls_before_poll]
  · intro env2 pll2 freq2 hcalls hlock
    unfold s1ur_chrdev_tune
    simp only [run_calls_ok env2 _ (fun c hc => hcalls c (List.mem_append_left _ hc)),
      run_calls_ok env2 _ (fun c hc => hcalls c (List.mem_append_right _ hc)),
      ne_eq, not_true_eq_false, if_false]
    rw [pll_poll_loop_lock pll2 0 50 0 0 false (by omega) (fun j h1 h2 => by omega)
      (by rw [hlock]; exact ⟨rfl, rfl⟩)]
    simp

theorem s1ur_chrdev_tune_lock_timeout_witness :
    s1ur_chrdev_tune env_ok (fun _ => (0, false)) ptx_system.PTX_ISDB_T_SYSTEM 473143 =
      (-EAGAIN, tune_calls_before_poll 473143 ++
        List.replicate 50 Call.r850_is_pll_locked) :=
  (s1ur_chrdev_tune_lock_timeout env_ok (fun _ => (0, false)) 473143
    (fun _ _ => rfl) (fun _ _ => rfl)).1

/-- Claim C15, counterexample: when the first lock poll fails with `-EIO` and
the second succeeds and reports lock, `s1ur_chrdev_tune` does not abort: it
polls again, enables AGC, writes the finalizing registers and returns 0. -/
theorem s1ur_chrdev_tune_poll_error_counterexample :
    (pll_error_then_lock 0).1 = - EIO ∧
    s1ur_chrdev_tune env_ok pll_error_then_lock ptx_system.PTX_ISDB_T_SYSTEM 473143 =
      (0, tune_calls_before_poll 473143 ++
            [Call.r850_is_pll_locked, Call.r850_is_pll_locked] ++ tune_calls_after_lock) ∧
    Call.tc90522_set_agc_t true ∈
      (s1ur_chrdev_tune env_ok pll_error_then_lock ptx_system.PTX_ISDB_T_SYSTEM 473143).2 := by
  decide

/-- Claim C15, amended (poll errors in tune): a lock poll that fails does not
end the polling of `s1ur_chrdev_tune`. If poll number `k` (of at most 50) is
the first that succeeds and reports lock, exactly `k + 1` polls are made and
tune goes on to enable AGC, whatever the earlier polls returned. If none of
the 50 polls does, 50 polls are made, AGC is not enabled, and tune returns the
error of the last poll if that one failed and `-EAGAIN` otherwise. In both
cases the result does not depend on polls after the last one made. -/
theorem s1ur_chrdev_tune_poll_errors (env : Call → Int) (pll : Nat → Int × Bool)
    (freq : Nat) (hbefore : ∀ c ∈ tune_calls_before_poll freq, env c = 0) :
    (∀ k < 50, (∀ j < k, ¬ ((pll j).1 = 0 ∧ (pll j).2 = true)) →
      (pll k).1 = 0 ∧ (pll k).2 = true →
      s1ur_chrdev_tune env pll ptx_system.PTX_ISDB_T_SYSTEM freq =
        ((run_calls env tune_calls_after_lock).1,
         tune_calls_before_poll freq ++ List.replicate (k + 1) Call.r850_is_pll_locked ++
           (run_calls env tune_calls_after_lock).2)) ∧
    ((∀ j < 50, ¬ ((pll j).1 = 0 ∧ (pll j).2 = true)) →
      s1ur_chrdev_tune env pll ptx_system.PTX_ISDB_T_SYSTEM freq =
        (if (pll 49).1 ≠ 0 then (pll 49).1 else -EAGAIN,
         tune_calls_before_poll freq ++ List.replicate 50 Call.r850_is_pll_locked)) := by
  constructor
  · intro k hk hno hok
    unfold s1ur_chrdev_tune
    simp only [run_calls_ok env _ hbefore, ne_eq, not_true_eq_false, if_false]
    rw [pll_poll_loop_lock pll k 50 0 0 false hk (fun j _ h2 => hno j (by omega))
      (by rw [Nat.zero_add]; exact hok)]
    simp
  · intro hno
    unfold s1ur_chrdev_tune
    simp only [run_calls_ok env _ hbefore, ne_eq, not_true_eq_false, if_false]
    rw [pll_poll_loop_no_lock pll 49 0 0 false (fun j _ hj => hno j (by omega))]
    have h49 := hno 49 (by omega)
    by_cases he : (pll 49).1 = 0
    · have hl : (pll 49).2 = false := by
        cases hb : (pll 49).2
        · rfl
        · exact absurd ⟨he, hb⟩ h49
      simp [he, hl]
    · simp [he]

theorem s1ur_chrdev_tune_poll_errors_witness :
    s1ur_chrdev_tune env_ok pll_error_then_lock ptx_system.PTX_ISDB_T_SYSTEM 473143 =
      ((run_calls env_ok tune_calls_after_lock).1,
       tune_calls_before_poll 473143 ++ List.replicate (1 + 1) Call.r850_is_pll_locked ++
         (run_calls env_ok tune_calls_after_lock).2) :=
  (s1ur_chrdev_tune_poll_errors env_ok pll_error_then_lock 473143 (fun _ _ => rfl)).1 1
    (by decide) (by decide) (by decide)

/-! ## Control path: capture -/

/-- Claim C16 (start capture): `s1ur_chrdev_start_capture` returns 0 exactly
when the purge, the TS pin enable (made for the ISDB-T system only) and the
registration of the streaming callback succeed; it has then made exactly the
calls purge, pin enable (ISDB-T only) and registration, in this order, and the
callback is registered with remainder length 0. If the purge fails nothing
else is called. If the pin enable or the registration fails, the TS pins of
the ISDB-T system are disabled as the last call and the error of the failing
call is returned. -/
theorem s1ur_chrdev_start_capture_contract (env : Call → Int) (current_system : ptx_system)
    (stream_ctx : s1ur_stream_context) :
    ((s1ur_chrdev_start_capture env current_system stream_ctx).1 = 0 ↔
      env Call.it930x_purge_psb = 0 ∧
      (current_system = ptx_system.PTX_ISDB_T_SYSTEM →
        env (Call.tc90522_enable_ts_pins_t true) = 0) ∧
      env (Call.itedtv_bus_start_streaming 0) = 0) ∧
    ((s1ur_chrdev_start_capture env current_system stream_ctx).1 = 0 →
      s1ur_chrdev_start_capture env current_system stream_ctx =
        (0, { stream_ctx with remain_len := 0 },
         Call.it930x_purge_psb ::
           ((if current_system = ptx_system.PTX_ISDB_T_SYSTEM
             then [Call.tc90522_enable_ts_pins_t true] else []) ++
            [Call.itedtv_bus_start_streaming 0]))) ∧
    (env Call.it930x_purge_psb ≠ 0 →
      s1ur_chrdev_start_capture env current_system stream_ctx =
        (env Call.it930x_purge_psb, stream_ctx, [Call.it930x_purge_psb])) ∧
    (current_system = ptx_system.PTX_ISDB_T_SYSTEM → env Call.it930x_purge_psb = 0 →
      env (Call.tc90522_enable_ts_pins_t true) ≠ 0 →
      s1ur_chrdev_start_capture env current_system stream_ctx =
        (env (Call.tc90522_enable_ts_pins_t true), stream_ctx,
         [Call.it930x_purge_psb, Call.tc90522_enable_ts_pins_t true,
          Call.tc90522_enable_ts_pins_t false])) ∧
    (current_system = ptx_system.PTX_ISDB_T_SYSTEM → env Call.it930x_purge_psb = 0 →
      env (Call.tc90522_enable_ts_pins_t true) = 0 →
      env (Call.itedtv_bus_start_streaming 0) ≠ 0 →
      s1ur_chrdev_start_capture env current_system stream_ctx =
        (env (Call.itedtv_bus_start_streaming 0), { stream_ctx with remain_len := 0 },
         [Call.it930x_purge_psb, Call.tc90522_enable_ts_pins_t true,
          Call.itedtv_bus_start_streaming 0, Call.tc90522_enable_ts_pins_t false])) ∧
    (current_system ≠ ptx_system.PTX_ISDB_T_SYSTEM → env Call.it930x_purge_psb = 0 →
      env (Call.itedtv_bus_start_streaming 0) ≠ 0 →
      s1ur_chrdev_start_capture env current_system stream_ctx =
        (env (Call.itedtv_bus_start_streaming 0), { stream_ctx with remain_len := 0 },
         [Call.it930x_purge_psb, Call.itedtv_bus_start_streaming 0])) := by
  by_cases hp : env Call.it930x_purge_psb = 0 <;>
  by_cases he : env (Call.tc90522_enable_ts_pins_t true) = 0 <;>
  by_cases hs : env (Call.itedtv_bus_start_streaming 0) = 0 <;>
  cases current_system <;>
  simp [s1ur_chrdev_start_capture, hp, he, hs]

/-- A successful `s1ur_chrdev_start_capture` on the ISDB-T system: the three
calls in order, and the remainder length reset. -/
theorem s1ur_chrdev_start_capture_ok_example (b : List Nat) :
    s1ur_chrdev_start_capture env_ok ptx_system.PTX_ISDB_T_SYSTEM
        { remain_buf := b, remain_len := 100 } =
      (0, { remain_buf := b, remain_len := 0 },
       [Call.it930x_purge_psb, Call.tc90522_enable_ts_pins_t true,
        Call.itedtv_bus_start_streaming 0]) := by
  rfl

/-- Claim C17 (stop capture): `s1ur_chrdev_stop_capture` always returns 0 and
always stops the streaming callback first; it then disables the TS pins
exactly when the device is available and the system is ISDB-T, and makes no
chip call when the device is unavailable. -/
theorem s1ur_chrdev_stop_capture_contract (s1ur : s1ur_device) (current_system : ptx_system) :
    s1ur_chrdev_stop_capture s1ur current_system =
      (0, Call.itedtv_bus_stop_streaming ::
            (if s1ur.available = true ∧ current_system = ptx_system.PTX_ISDB_T_SYSTEM
             then [Call.tc90522_enable_ts_pins_t false] else [])) ∧
    (s1ur.available = false →
      (s1ur_chrdev_stop_capture s1ur current_system).2 = [Call.itedtv_bus_stop_streaming]) := by
  obtain ⟨k, a⟩ := s1ur
  cases a <;> cases current_system <;> simp [s1ur_chrdev_stop_capture]

/-! ## Life of the device object -/

/-- A successful `s1ur_device_init` leaves one reference and an available
device. -/
theorem device_init_state (env : Call → Int) (a k d : Bool) (s1ur : s1ur_device)
    (h : (s1ur_device_init env a k d).2.1 = some s1ur) : s1ur = life_start.s1ur := by
  unfold s1ur_device_init at h
  simp only at h
  split_ifs at h
  simp_all [life_start]

theorem step_open (st : LifeState) (c : Call) (hc : c = Call.it930x_term ∨ c = Call.complete) :
    (LifeOp.step st LifeOp.chrdev_open).s1ur =
      { kref := st.s1ur.kref + 1, available := st.s1ur.available } ∧
    (LifeOp.step st LifeOp.chrdev_open).calls.count c = st.calls.count c := by
  obtain ⟨⟨k, a⟩, calls⟩ := st
  rcases hc with rfl | rfl <;>
  simp [LifeOp.step, s1ur_chrdev_open, s1ur_backend_set_power, s1ur_backend_init, run_calls,
    env_ok]

theorem step_release (st : LifeState) (c : Call)
    (hc : c = Call.it930x_term ∨ c = Call.complete) (hk : 0 < st.s1ur.kref) :
    (LifeOp.step st LifeOp.chrdev_release).s1ur =
      { kref := st.s1ur.kref - 1, available := st.s1ur.available } ∧
    (LifeOp.step st LifeOp.chrdev_release).calls.count c =
      st.calls.count c + (if st.s1ur.kref = 1 then 1 else 0) := by
  obtain ⟨⟨k, a⟩, calls⟩ := st
  dsimp only at hk
  by_cases h1 : k = 1
  · subst h1
    rcases hc with rfl | rfl <;> cases a <;>
    simp [LifeOp.step, s1ur_chrdev_release, s1ur_backend_set_power, s1ur_backend_term, kref_put,
      s1ur_device_release]
  · have h0 : k ≠ 0 := by omega
    rcases hc with rfl | rfl <;> cases a <;>
    simp [LifeOp.step, s1ur_chrdev_release, s1ur_backend_set_power, s1ur_backend_term, kref_put,
      s1ur_device_release, h0, h1]

theorem step_term (st : LifeState) (c : Call)
    (hc : c = Call.it930x_term ∨ c = Call.complete) (hk : 0 < st.s1ur.kref) :
    (LifeOp.step st LifeOp.device_term).s1ur =
      { kref := st.s1ur.kref - 1, available := false } ∧
    (LifeOp.step st LifeOp.device_term).calls.count c =
      st.calls.count c + (if st.s1ur.kref = 1 then 1 else 0) := by
  obtain ⟨⟨k, a⟩, calls⟩ := st
  dsimp only at hk
  by_cases h1 : k = 1
  · subst h1
    rcases hc with rfl | rfl <;>
    simp [LifeOp.step, s1ur_device_term, kref_put, s1ur_device_release]
  · have h0 : k ≠ 0 := by omega
    rcases hc with rfl | rfl <;>
    simp [LifeOp.step, s1ur_device_term, kref_put, s1ur_device_release, h0, h1]

theorem history_alive_done (ops : List LifeOp) (h : history_alive 0 true ops = true) :
    ops = [] := by
  cases ops with
  | nil => rfl
  | cons op ops => cases op <;> simp [history_alive] at h

/-- The run of a history that keeps the device referenced at every open, from
a state whose count is the number of unreleased opens plus one for the
initial reference not yet dropped by terminate: the finalizer calls appear
once, at the last operation, and the device is unavailable once terminate has
been called. -/
theorem run_life_alive (c : Call) (hc : c = Call.it930x_term ∨ c = Call.complete)
    (ops : List LifeOp) :
    ∀ (out : Nat) (termed : Bool) (st : LifeState),
      history_alive out termed ops = true →
      st.s1ur.kref = out + (if termed then 0 else 1) → 0 < st.s1ur.kref →
      (termed = true → st.s1ur.available = false) →
      (run_life st ops).calls.count c = st.calls.count c + 1 ∧
      (∀ k < ops.length, (run_life st (ops.take k)).calls.count c = st.calls.count c) ∧
      (∀ k ≤ ops.length, termed = true ∨ LifeOp.device_term ∈ ops.take k →
        (run_life st (ops.take k)).s1ur.available = false) := by
  induction ops with
  | nil =>
    intro out termed st h hk hpos _
    simp only [history_alive, Bool.and_eq_true, beq_iff_eq] at h
    obtain ⟨h1, h2⟩ := h
    rw [h1, h2] at hk
    simp at hk
    omega
  | cons op ops ih =>
    intro out termed st h hk hpos hav
    -- the state after `op`, with the count of finalizer calls it adds
    have key : ∃ (out2 : Nat) (termed2 : Bool),
        history_alive out2 termed2 ops = true ∧
        (LifeOp.step st op).s1ur.kref = out2 + (if termed2 then 0 else 1) ∧
        (LifeOp.step st op).calls.count c =
          st.calls.count c + (if (LifeOp.step st op).s1ur.kref = 0 then 1 else 0) ∧
        (termed2 = true → (LifeOp.step st op).s1ur.available = false) ∧
        (termed = true ∨ op = LifeOp.device_term → termed2 = true) := by
      cases op with
      | chrdev_open =>
        simp only [history_alive, Bool.and_eq_true] at h
        obtain ⟨s1, s2⟩ := step_open st c hc
        refine ⟨out + 1, termed, h.2, ?_, ?_, ?_, ?_⟩
        · rw [s1]; dsimp only; omega
        · rw [s1, s2]; simp
        · intro ht; rw [s1]; exact hav ht
        · intro ht; rcases ht with ht | ht
          · exact ht
          · cases ht
      | chrdev_release =>
        simp only [history_alive, Bool.and_eq_true, decide_eq_true_eq] at h
        obtain ⟨s1, s2⟩ := step_release st c hc hpos
        refine ⟨out - 1, termed, h.2, ?_, ?_, ?_, ?_⟩
        · rw [s1]; dsimp only; omega
        · rw [s1, s2]; dsimp only
          by_cases h1 : st.s1ur.kref = 1
          · simp [h1]
          · rw [if_neg h1, if_neg (by omega)]
        · intro ht; rw [s1]; exact hav ht
        · intro ht; rcases ht with ht | ht
          · exact ht
          · cases ht
      | device_term =>
        simp only [history_alive, Bool.and_eq_true, Bool.not_eq_true'] at h
        obtain ⟨s1, s2⟩ := step_term st c hc hpos
        rw [h.1] at hk
        refine ⟨out, true, h.2, ?_, ?_, ?_, ?_⟩
        · rw [s1]; simp at hk ⊢; omega
        · rw [s1, s2]; dsimp only
          by_cases h1 : st.s1ur.kref = 1
          · simp [h1]
          · rw [if_neg h1, if_neg (by omega)]
        · intro _; rw [s1]
        · intro _; rfl
    obtain ⟨out2, termed2, k1, k2, k3, k4, k5⟩ := key
    by_cases hz : (LifeOp.step st op).s1ur.kref = 0
    · -- the finalizer has run: the history is over
      have hout : out2 = 0 ∧ termed2 = true := by
        rw [hz] at k2
        cases termed2 with
        | false => simp at k2
        | true => exact ⟨by simpa using k2.symm, rfl⟩
      obtain ⟨rfl, rfl⟩ := hout
      have hnil := history_alive_done ops k1
      subst hnil
      rw [if_pos hz] at k3
      refine ⟨k3, ?_, ?_⟩
      · intro k hk0
        have : k = 0 := by simpa using hk0
        subst this
        rfl
      · intro k hkle ht
        rcases Nat.eq_zero_or_pos k with h0 | h0
        · subst h0
          rcases ht with ht | ht
          · exact hav ht
          · simp at ht
        · have h1 : k = 1 := by simp at hkle; omega
          subst h1
          exact k4 rfl
    · rw [if_neg hz, Nat.add_zero] at k3
      obtain ⟨r1, r2, r3⟩ := ih out2 termed2 (LifeOp.step st op) k1 k2 (by omega) k4
      refine ⟨by rw [← k3]; exact r1, ?_, ?_⟩
      · intro k hk0
        cases k with
        | zero => rfl
        | succ k =>
          rw [← k3]
          exact r2 k (by simpa using hk0)
      · intro k hkle ht
        cases k with
        | zero =>
          rcases ht with ht | ht
          · exact hav ht
          · simp at ht
        | succ k =>
          apply r3 k (by simpa using hkle)
          rcases ht with ht | ht
          · exact Or.inl (k5 (Or.inl ht))
          · simp only [List.take_succ_cons, List.mem_cons] at ht
            rcases ht with ht | ht
            · exact Or.inl (k5 (Or.inr ht.symm))
            · exact Or.inr ht

/-- Claim C18, counterexample: in the history terminate, open, release (one
successful open, its release after it, one terminate) the finalizer has
already run and the completion has fired after the first operation, not at
the last one; with the count at zero the later open and release run it a
second time. -/
theorem device_finalizer_counterexample :
    history_matched 0 false
      [LifeOp.device_term, LifeOp.chrdev_open, LifeOp.chrdev_release] = true ∧
    finalizer_runs (run_life life_start [LifeOp.device_term]).calls = 1 ∧
    completions (run_life life_start [LifeOp.device_term]).calls = 1 ∧
    finalizer_runs (run_life life_start
      [LifeOp.device_term, LifeOp.chrdev_open, LifeOp.chrdev_release]).calls = 2 := by
  decide

/-- Claim C18, amended (finalizer exactly once): with the reference count at
1 after `s1ur_device_init`, raised by each successful open and lowered by each
release and by terminate, for every history of opens, their releases and one
terminate in which each release follows its open and every open after the
terminate happens while an earlier open is still unreleased, the finalizer
`s1ur_device_release` runs exactly once and the completion is fired exactly
once, both at the last operation and not before; the device is unavailable
from the terminate on. -/
theorem device_finalizer_once (ops : List LifeOp)
    (h : history_alive 0 false ops = true) :
    finalizer_runs (run_life life_start ops).calls = 1 ∧
    completions (run_life life_start ops).calls = 1 ∧
    (∀ k < ops.length,
      finalizer_runs (run_life life_start (ops.take k)).calls = 0 ∧
      completions (run_life life_start (ops.take k)).calls = 0) ∧
    (∀ k ≤ ops.length, LifeOp.device_term ∈ ops.take k →
      (run_life life_start (ops.take k)).s1ur.available = false) := by
  obtain ⟨a1, a2, a3⟩ := run_life_alive Call.it930x_term (Or.inl rfl) ops 0 false life_start h
    rfl (by decide) (by intro hc; cases hc)
  obtain ⟨b1, b2, _⟩ := run_life_alive Call.complete (Or.inr rfl) ops 0 false life_start h
    rfl (by decide) (by intro hc; cases hc)
  exact ⟨a1, b1, fun k hk => ⟨a2 k hk, b2 k hk⟩, fun k hk hm => a3 k hk (Or.inr hm)⟩

theorem device_finalizer_once_witness :
    finalizer_runs (run_life life_start
      [LifeOp.chrdev_open, LifeOp.device_term, LifeOp.chrdev_open, LifeOp.chrdev_release,
       LifeOp.chrdev_release]).calls = 1 :=
  (device_finalizer_once
    [LifeOp.chrdev_open, LifeOp.device_term, LifeOp.chrdev_open, LifeOp.chrdev_release,
     LifeOp.chrdev_release] (by decide)).1

/-! ## Control path: stream-id selection -/

theorem tsid_resolve_loop_polls (poll : Nat → Int × Nat) (i : Nat) :
    ∀ k ret tsid, (0 < i → k < (tsid_resolve_loop poll i k ret tsid).2.2) ∧
      (tsid_resolve_loop poll i k ret tsid).2.2 ≤ k + i := by
  induction i with
  | zero => intro k ret tsid; simp [tsid_resolve_loop]
  | succ i ih =>
    intro k ret tsid
    simp only [tsid_resolve_loop]
    generalize (if (poll k).1 = 0 then (poll k).2 else tsid) = t1
    split_ifs with hb
    · simp
    · have h := ih (k + 1) (poll k).1 t1
      refine ⟨fun _ => ?_, by omega⟩
      rcases Nat.eq_zero_or_pos i with hi | hi
      · subst hi
        simp [tsid_resolve_loop]
      · have := h.1 hi
        omega

theorem tsid_resolve_loop_resolved (poll : Nat → Int × Nat) (i : Nat) :
    ∀ k ret tsid, (tsid_resolve_loop poll i k ret tsid).1 = 0 →
      (tsid_resolve_loop poll i k ret tsid).2.1 ≠ 0 →
      tsid_resolve_loop poll i k ret tsid = (ret, tsid, k) ∨
      ∃ j, k ≤ j ∧ j < k + i ∧ poll j = (0, (tsid_resolve_loop poll i k ret tsid).2.1) := by
  induction i with
  | zero => intro k ret tsid _ _; left; simp [tsid_resolve_loop]
  | succ i ih =>
    intro k ret tsid h0 hne
    right
    simp only [tsid_resolve_loop] at h0 hne ⊢
    by_cases hb : ((poll k).1 = 0 ∧ (if (poll k).1 = 0 then (poll k).2 else tsid) ≠ 0) ∨
        (poll k).1 = -EINVAL
    · rw [if_pos hb] at h0 hne ⊢
      simp only at h0 hne ⊢
      refine ⟨k, le_refl k, by omega, ?_⟩
      rw [if_pos h0]
      exact Prod.ext h0 rfl
    · rw [if_neg hb] at h0 hne ⊢
      rcases ih (k + 1) (poll k).1 (if (poll k).1 = 0 then (poll k).2 else tsid) h0 hne with h | h
      · exfalso
        rw [h] at h0 hne
        simp only at h0 hne
        exact hb (Or.inl ⟨h0, hne⟩)
      · obtain ⟨j, hj1, hj2, hj3⟩ := h
        exact ⟨j, by omega, by omega, hj3⟩

theorem tsid_resolve_loop_first (poll : Nat → Int × Nat) (t : Nat) (ht : t ≠ 0) (i : Nat) :
    ∀ k ret tsid j, k ≤ j → j < k + i → poll j = (0, t) →
      (∀ m, k ≤ m → m < j → ¬ ((poll m).1 = 0 ∧ (poll m).2 ≠ 0) ∧ (poll m).1 ≠ -EINVAL) →
      tsid_resolve_loop poll i k ret tsid = (0, t, j + 1) := by
  induction i with
  | zero => intro k ret tsid j h1 h2; omega
  | succ i ih =>
    intro k ret tsid j h1 h2 hp hm
    simp only [tsid_resolve_loop]
    by_cases hjk : j = k
    · subst hjk
      simp [hp, ht]
    · have hk := hm k (le_refl k) (by omega)
      rw [if_neg]
      · exact ih (k + 1) _ _ j (by omega) (by omega) hp (fun m a b => hm m (by omega) b)
      · rintro (⟨a, b⟩ | c)
        · rw [if_pos a] at b
          exact hk.1 ⟨a, b⟩
        · exact hk.2 c

theorem tsid_resolve_loop_unresolved (poll : Nat → Int × Nat) (i : Nat) :
    ∀ k ret tsid,
      (∀ m, k ≤ m → m < k + (i + 1) →
        ¬ ((poll m).1 = 0 ∧ (poll m).2 ≠ 0) ∧ (poll m).1 ≠ -EINVAL) →
      (tsid_resolve_loop poll (i + 1) k ret tsid).1 = (poll (k + i)).1 ∧
      ((poll (k + i)).1 = 0 → (tsid_resolve_loop poll (i + 1) k ret tsid).2.1 = 0) ∧
      (tsid_resolve_loop poll (i + 1) k ret tsid).2.2 = k + (i + 1) := by
  induction i with
  | zero =>
    intro k ret tsid hm
    have hk := hm k (le_refl k) (by omega)
    rw [tsid_resolve_loop, if_neg]
    · simp only [tsid_resolve_loop, Nat.add_zero]
      refine ⟨trivial, fun h0 => ?_, trivial⟩
      rw [if_pos h0]
      by_contra hx
      exact hk.1 ⟨h0, hx⟩
    · rintro (⟨a, b⟩ | c)
      · rw [if_pos a] at b
        exact hk.1 ⟨a, b⟩
      · exact hk.2 c
  | succ i ih =>
    intro k ret tsid hm
    have hk := hm k (le_refl k) (by omega)
    rw [tsid_resolve_loop, if_neg]
    · have h := ih (k + 1) (poll k).1 (if (poll k).1 = 0 then (poll k).2 else tsid)
        (fun m a b => hm m (by omega) (by omega))
      have e : k + 1 + i = k + (i + 1) := by omega
      rw [e] at h
      refine ⟨h.1, h.2.1, ?_⟩
      rw [h.2.2]
      omega
    · rintro (⟨a, b⟩ | c)
      · rw [if_pos a] at b
        exact hk.1 ⟨a, b⟩
      · exact hk.2 c

theorem tsid_readback_loop_polls (poll : Nat → Int × Nat) (tsid : Nat) (i : Nat) :
    ∀ k ret tsid2, (0 < i → k < (tsid_readback_loop poll tsid i k ret tsid2).2.2) ∧
      (tsid_readback_loop poll tsid i k ret tsid2).2.2 ≤ k + i := by
  induction i with
  | zero => intro k ret tsid2; simp [tsid_readback_loop]
  | succ i ih =>
    intro k ret tsid2
    simp only [tsid_readback_loop]
    generalize (if (poll k).1 = 0 then (poll k).2 else tsid2) = t1
    split_ifs with hb
    · simp
    · have h := ih (k + 1) (poll k).1 t1
      refine ⟨fun _ => ?_, by omega⟩
      rcases Nat.eq_zero_or_pos i with hi | hi
      · subst hi
        simp [tsid_readback_loop]
      · have := h.1 hi
        omega

theorem tsid_readback_loop_matched (poll : Nat → Int × Nat) (tsid : Nat) (i : Nat) :
    ∀ k ret tsid2, (tsid_readback_loop poll tsid i k ret tsid2).1 = 0 →
      (tsid_readback_loop poll tsid i k ret tsid2).2.1 = tsid →
      tsid_readback_loop poll tsid i k ret tsid2 = (ret, tsid2, k) ∨
      ∃ j, k ≤ j ∧ j < k + i ∧ poll j = (0, tsid) := by
  induction i with
  | zero => intro k ret tsid2 _ _; left; simp [tsid_readback_loop]
  | succ i ih =>
    intro k ret tsid2 h0 he
    right
    simp only [tsid_readback_loop] at h0 he
    by_cases hb : (poll k).1 = 0 ∧ (if (poll k).1 = 0 then (poll k).2 else tsid2) = tsid
    · refine ⟨k, le_refl k, by omega, ?_⟩
      have h2 := hb.2
      rw [if_pos hb.1] at h2
      exact Prod.ext hb.1 h2
    · rw [if_neg hb] at h0 he
      rcases ih (k + 1) (poll k).1 (if (poll k).1 = 0 then (poll k).2 else tsid2) h0 he with h | h
      · exfalso
        rw [h] at h0 he
        exact hb ⟨h0, he⟩
      · obtain ⟨j, hj1, hj2, hj3⟩ := h
        exact ⟨j, by omega, by omega, hj3⟩

theorem tsid_readback_loop_mismatch (poll : Nat → Int × Nat) (tsid : Nat) (i : Nat) :
    ∀ k ret tsid2, tsid2 ≠ tsid →
      (∀ m, k ≤ m → m < k + i → (poll m).1 = 0 → (poll m).2 ≠ tsid) →
      (tsid_readback_loop poll tsid i k ret tsid2).2.1 ≠ tsid ∧
      (tsid_readback_loop poll tsid i k ret tsid2).2.2 = k + i := by
  induction i with
  | zero => intro k ret tsid2 h _; simpa [tsid_readback_loop] using h
  | succ i ih =>
    intro k ret tsid2 hne hm
    have hk := hm k (le_refl k) (by omega)
    have h1 : (if (poll k).1 = 0 then (poll k).2 else tsid2) ≠ tsid := by
      split_ifs with h0
      · exact hk h0
      · exact hne
    rw [tsid_readback_loop, if_neg (fun hb => h1 hb.2)]
    have h := ih (k + 1) (poll k).1 _ h1 (fun m a b => hm m (by omega) (by omega))
    refine ⟨h.1, ?_⟩
    rw [h.2]
    omega

theorem set_stream_id_shape (env : Call → Int) (resolve readback : Nat → Int × Nat)
    (tsid0 tsid20 : Nat) (stream_id : Nat) :
    ∃ L M : Int × Nat × Nat,
      L = (if stream_id < 12 then tsid_resolve_loop resolve 100 0 0 tsid0
        else (0, stream_id, 0)) ∧
      M = tsid_readback_loop readback L.2.1 100 0 0 tsid20 ∧
      ((stream_id < 12 ∧ L.1 ≠ 0 ∧
          s1ur_chrdev_set_stream_id env resolve readback tsid0 tsid20
            ptx_system.PTX_ISDB_S_SYSTEM stream_id =
          (L.1, List.replicate L.2.2 (Call.tc90522_tmcc_get_tsid_s stream_id))) ∨
       (stream_id < 12 ∧ L.1 = 0 ∧ L.2.1 = 0 ∧
          s1ur_chrdev_set_stream_id env resolve readback tsid0 tsid20
            ptx_system.PTX_ISDB_S_SYSTEM stream_id =
          (-EAGAIN, List.replicate L.2.2 (Call.tc90522_tmcc_get_tsid_s stream_id))) ∨
       ((12 ≤ stream_id ∨ (L.1 = 0 ∧ L.2.1 ≠ 0)) ∧ env (Call.tc90522_set_tsid_s L.2.1) ≠ 0 ∧
          s1ur_chrdev_set_stream_id env resolve readback tsid0 tsid20
            ptx_system.PTX_ISDB_S_SYSTEM stream_id =
          (env (Call.tc90522_set_tsid_s L.2.1),
            List.replicate L.2.2 (Call.tc90522_tmcc_get_tsid_s stream_id) ++
              [Call.tc90522_set_tsid_s L.2.1])) ∨
       ((12 ≤ stream_id ∨ (L.1 = 0 ∧ L.2.1 ≠ 0)) ∧ env (Call.tc90522_set_tsid_s L.2.1) = 0 ∧
          s1ur_chrdev_set_stream_id env resolve readback tsid0 tsid20
            ptx_system.PTX_ISDB_S_SYSTEM stream_id =
          (if M.2.1 ≠ L.2.1 then -EAGAIN else M.1,
            List.replicate L.2.2 (Call.tc90522_tmcc_get_tsid_s stream_id) ++
              [Call.tc90522_set_tsid_s L.2.1] ++
              List.replicate M.2.2 Call.tc90522_get_tsid_s))) := by
  refine ⟨_, _, rfl, rfl, ?_⟩
  by_cases hid : stream_id < 12
  · simp only [s1ur_chrdev_set_stream_id, if_pos hid, ne_eq, not_true_eq_false, if_false,
      true_and, hid]
    generalize tsid_resolve_loop resolve 100 0 0 tsid0 = L
    by_cases h1 : L.1 = 0
    · by_cases h2 : L.2.1 = 0
      · right; left
        simp [h1, h2]
      · by_cases h3 : env (Call.tc90522_set_tsid_s L.2.1) = 0
        · right; right; right
          simp [h1, h2, h3]
          split_ifs <;> rfl
        · right; right; left
          simp [h1, h2, h3]
    · left
      simp [h1]
  · simp only [s1ur_chrdev_set_stream_id, if_neg hid, ne_eq, not_true_eq_false, if_false,
      false_and, hid]
    by_cases h3 : env (Call.tc90522_set_tsid_s stream_id) = 0
    · right; right; right
      simp [h3, Nat.le_of_not_lt hid]
      split_ifs <;> rfl
    · right; right; left
      simp [h3, Nat.le_of_not_lt hid]

/-- The function `s1ur_chrdev_set_stream_id`: without any chip call it
returns `-EINVAL` unless the system is satellite; at most 100 polls of each
kind are made; what is committed is `stream_id` itself or, for a slot index,
the non-zero identifier of a resolving poll; and the return value is 0 only
after a commit and a readback poll that reported the committed identifier,
and `-EAGAIN` when the readback never reports it. -/
theorem set_stream_id_facts (env : Call → Int)
    (resolve readback : Nat → Int × Nat) (tsid0 tsid20 : Nat) (current_system : ptx_system)
    (stream_id : Nat) :
    (current_system ≠ ptx_system.PTX_ISDB_S_SYSTEM →
      s1ur_chrdev_set_stream_id env resolve readback tsid0 tsid20 current_system stream_id =
        (-EINVAL, [])) ∧
    (current_system = ptx_system.PTX_ISDB_S_SYSTEM →
      ((s1ur_chrdev_set_stream_id env resolve readback tsid0 tsid20 current_system
          stream_id).2.count (Call.tc90522_tmcc_get_tsid_s stream_id) ≤ 100 ∧
        (s1ur_chrdev_set_stream_id env resolve readback tsid0 tsid20 current_system
          stream_id).2.count Call.tc90522_get_tsid_s ≤ 100) ∧
      (∀ t, Call.tc90522_set_tsid_s t ∈
          (s1ur_chrdev_set_stream_id env resolve readback tsid0 tsid20 current_system
            stream_id).2 →
        (12 ≤ stream_id → t = stream_id) ∧
        (stream_id < 12 → t ≠ 0 ∧ ∃ k, k < 100 ∧ resolve k = (0, t))) ∧
      (12 ≤ stream_id → Call.tc90522_set_tsid_s stream_id ∈
          (s1ur_chrdev_set_stream_id env resolve readback tsid0 tsid20 current_system
            stream_id).2) ∧
      (stream_id < 12 → ∀ t j, t ≠ 0 → j < 100 → resolve j = (0, t) →
        (∀ m, m < j →
          ¬ ((resolve m).1 = 0 ∧ (resolve m).2 ≠ 0) ∧ (resolve m).1 ≠ -EINVAL) →
        Call.tc90522_set_tsid_s t ∈
          (s1ur_chrdev_set_stream_id env resolve readback tsid0 tsid20 current_system
            stream_id).2) ∧
      (stream_id < 12 →
        (∀ m, m < 100 →
          ¬ ((resolve m).1 = 0 ∧ (resolve m).2 ≠ 0) ∧ (resolve m).1 ≠ -EINVAL) →
        (∀ t, Call.tc90522_set_tsid_s t ∉
          (s1ur_chrdev_set_stream_id env resolve readback tsid0 tsid20 current_system
            stream_id).2) ∧
        (s1ur_chrdev_set_stream_id env resolve readback tsid0 tsid20 current_system
          stream_id).1 = (if (resolve 99).1 = 0 then -EAGAIN else (resolve 99).1)) ∧
      ((s1ur_chrdev_set_stream_id env resolve readback tsid0 tsid20 current_system
          stream_id).1 = 0 →
        ∃ t, Call.tc90522_set_tsid_s t ∈
          (s1ur_chrdev_set_stream_id env resolve readback tsid0 tsid20 current_system
            stream_id).2 ∧ ∃ k, k < 100 ∧ readback k = (0, t)) ∧
      (∀ t, Call.tc90522_set_tsid_s t ∈
          (s1ur_chrdev_set_stream_id env resolve readback tsid0 tsid20 current_system
            stream_id).2 →
        env (Call.tc90522_set_tsid_s t) = 0 → tsid20 ≠ t →
        (∀ k, k < 100 → (readback k).1 = 0 → (readback k).2 ≠ t) →
        (s1ur_chrdev_set_stream_id env resolve readback tsid0 tsid20 current_system
          stream_id).1 = -EAGAIN ∧
        (s1ur_chrdev_set_stream_id env resolve readback tsid0 tsid20 current_system
          stream_id).2.count Call.tc90522_get_tsid_s = 100)) := by
  refine ⟨fun h => by simp [s1ur_chrdev_set_stream_id, h], fun hs => ?_⟩
  subst hs
  obtain ⟨L, M, hL, hM, hshape⟩ := set_stream_id_shape env resolve readback tsid0 tsid20 stream_id
  generalize s1ur_chrdev_set_stream_id env resolve readback tsid0 tsid20
    ptx_system.PTX_ISDB_S_SYSTEM stream_id = r at hshape ⊢
  have hLp : L.2.2 ≤ 100 := by
    rw [hL]
    split_ifs
    · have := (tsid_resolve_loop_polls resolve 100 0 0 tsid0).2
      omega
    · simp
  have hLge : 12 ≤ stream_id → L = (0, stream_id, 0) := fun h => by
    rw [hL, if_neg (by omega)]
  have hLlt : stream_id < 12 → L = tsid_resolve_loop resolve 100 0 0 tsid0 := fun h => by
    rw [hL, if_pos h]
  have hMp : 0 < M.2.2 ∧ M.2.2 ≤ 100 := by
    rw [hM]
    have := tsid_readback_loop_polls readback L.2.1 100 0 0 tsid20
    exact ⟨this.1 (by decide), by omega⟩
  have hres : stream_id < 12 → L.1 = 0 → L.2.1 ≠ 0 →
      ∃ k, k < 100 ∧ resolve k = (0, L.2.1) := by
    intro hid h1 h2
    have hp := (tsid_resolve_loop_polls resolve 100 0 0 tsid0).1 (by decide)
    rw [hLlt hid] at h1 h2 ⊢
    rcases tsid_resolve_loop_resolved resolve 100 0 0 tsid0 h1 h2 with h | ⟨j, _, hj, hj2⟩
    · rw [h] at hp
      exact absurd hp (lt_irrefl 0)
    · exact ⟨j, by omega, hj2⟩
  have hfirst : stream_id < 12 → ∀ t j, t ≠ 0 → j < 100 → resolve j = (0, t) →
      (∀ m, m < j → ¬ ((resolve m).1 = 0 ∧ (resolve m).2 ≠ 0) ∧ (resolve m).1 ≠ -EINVAL) →
      L.1 = 0 ∧ L.2.1 = t := by
    intro hid t j ht hj hp hm
    rw [hLlt hid, tsid_resolve_loop_first resolve t ht 100 0 0 tsid0 j (Nat.zero_le j)
      (by omega) hp (fun m _ b => hm m b)]
    exact ⟨rfl, rfl⟩
  have hunres : stream_id < 12 →
      (∀ m, m < 100 → ¬ ((resolve m).1 = 0 ∧ (resolve m).2 ≠ 0) ∧ (resolve m).1 ≠ -EINVAL) →
      L.1 = (resolve 99).1 ∧ ((resolve 99).1 = 0 → L.2.1 = 0) := by
    intro hid hm
    have h := tsid_resolve_loop_unresolved resolve 99 0 0 tsid0 (fun m _ b => hm m (by omega))
    rw [hLlt hid]
    simpa using ⟨h.1, h.2.1⟩
  have hmatch : M.1 = 0 → M.2.1 = L.2.1 → ∃ k, k < 100 ∧ readback k = (0, L.2.1) := by
    intro h1 h2
    have hp := hMp.1
    rw [hM] at h1 h2 hp
    rcases tsid_readback_loop_matched readback L.2.1 100 0 0 tsid20 h1 h2 with
      h | ⟨j, _, hj, hj2⟩
    · rw [h] at hp
      exact absurd hp (lt_irrefl 0)
    · exact ⟨j, by omega, hj2⟩
  have hmis : tsid20 ≠ L.2.1 →
      (∀ k, k < 100 → (readback k).1 = 0 → (readback k).2 ≠ L.2.1) →
      M.2.1 ≠ L.2.1 ∧ M.2.2 = 100 := by
    intro h1 h2
    have h := tsid_readback_loop_mismatch readback L.2.1 100 0 0 tsid20 h1
      (fun m _ b => h2 m (by omega))
    rw [hM]
    simpa using h
  clear hL hM
  rcases hshape with ⟨hid, h1, hr⟩ | ⟨hid, h1, h2, hr⟩ | ⟨hg, h3, hr⟩ | ⟨hg, h3, hr⟩
  · subst hr
    refine ⟨⟨by simpa [List.count_replicate] using hLp, by simp [List.count_replicate]⟩,
      fun t ht => by simp [List.mem_replicate] at ht, fun h => by omega,
      fun _ t j ht hj hp hm => absurd (hfirst hid t j ht hj hp hm).1 h1,
      fun _ hm => ⟨fun t ht => by simp [List.mem_replicate] at ht, ?_⟩,
      fun h0 => absurd h0 h1, fun t ht => by simp [List.mem_replicate] at ht⟩
    have h := (hunres hid hm).1
    rw [← h, if_neg h1]
  · subst hr
    refine ⟨⟨by simpa [List.count_replicate] using hLp, by simp [List.count_replicate]⟩,
      fun t ht => by simp [List.mem_replicate] at ht, fun h => by omega,
      fun _ t j ht hj hp hm => absurd ((hfirst hid t j ht hj hp hm).2.symm.trans h2) ht,
      fun _ hm => ⟨fun t ht => by simp [List.mem_replicate] at ht, ?_⟩,
      fun h0 => absurd h0 (show (-EAGAIN : Int) ≠ 0 by decide), fun t ht => by simp [List.mem_replicate] at ht⟩
    have h := (hunres hid hm).1
    rw [← h, if_pos h1]
  · subst hr
    have hmem : ∀ t, Call.tc90522_set_tsid_s t ∈
        List.replicate L.2.2 (Call.tc90522_tmcc_get_tsid_s stream_id) ++
          [Call.tc90522_set_tsid_s L.2.1] ↔ t = L.2.1 := fun t => by
      simp [List.mem_replicate]
    have hlt : stream_id < 12 → L.1 = 0 ∧ L.2.1 ≠ 0 := fun h => by
      rcases hg with h' | h'
      · omega
      · exact h'
    refine ⟨⟨by simpa [List.count_replicate] using hLp, by simp [List.count_replicate]⟩,
      fun t ht => ?_, fun h => ?_, fun hid t j ht hj hp hm => ?_, fun hid hm => ?_,
      fun h0 => absurd h0 h3, fun t ht h0 => ?_⟩
    · have e := (hmem t).1 ht
      subst e
      exact ⟨fun h => by rw [hLge h], fun h => ⟨(hlt h).2, hres h (hlt h).1 (hlt h).2⟩⟩
    · exact (hmem stream_id).2 (by rw [hLge h])
    · exact (hmem t).2 (hfirst hid t j ht hj hp hm).2.symm
    · have h := hunres hid hm
      exact absurd (h.2 (h.1.symm.trans (hlt hid).1)) (hlt hid).2
    · have e := (hmem t).1 ht
      subst e
      exact absurd h0 h3
  · subst hr
    have hmem : ∀ t, Call.tc90522_set_tsid_s t ∈
        List.replicate L.2.2 (Call.tc90522_tmcc_get_tsid_s stream_id) ++
          [Call.tc90522_set_tsid_s L.2.1] ++
          List.replicate M.2.2 Call.tc90522_get_tsid_s ↔ t = L.2.1 := fun t => by
      simp [List.mem_replicate]
    have hlt : stream_id < 12 → L.1 = 0 ∧ L.2.1 ≠ 0 := fun h => by
      rcases hg with h' | h'
      · omega
      · exact h'
    refine ⟨⟨by simpa [List.count_replicate] using hLp,
        by simpa [List.count_replicate] using hMp.2⟩,
      fun t ht => ?_, fun h => ?_, fun hid t j ht hj hp hm => ?_, fun hid hm => ?_,
      fun h0 => ?_, fun t ht _ h1 h2 => ?_⟩
    · have e := (hmem t).1 ht
      subst e
      exact ⟨fun h => by rw [hLge h], fun h => ⟨(hlt h).2, hres h (hlt h).1 (hlt h).2⟩⟩
    · exact (hmem stream_id).2 (by rw [hLge h])
    · exact (hmem t).2 (hfirst hid t j ht hj hp hm).2.symm
    · have h := hunres hid hm
      exact absurd (h.2 (h.1.symm.trans (hlt hid).1)) (hlt hid).2
    · refine ⟨L.2.1, (hmem L.2.1).2 rfl, ?_⟩
      simp only at h0
      split_ifs at h0 with hx
      · exact absurd h0 (show (-EAGAIN : Int) ≠ 0 by decide)
      · exact hmatch h0 (not_not.1 hx)
    · have e := (hmem t).1 ht
      subst e
      have h := hmis h1 h2
      refine ⟨by simp [h.1], ?_⟩
      simpa [List.count_replicate] using h.2

/-- The resolution loop at a poll that fails with `-EINVAL` before any poll
has resolved the slot: the loop ends there with that error. -/
theorem tsid_resolve_loop_einval (poll : Nat → Int × Nat) (i : Nat) :
    ∀ k ret tsid j, k ≤ j → j < k + i → (poll j).1 = -EINVAL →
      (∀ m, k ≤ m → m < j → ¬ ((poll m).1 = 0 ∧ (poll m).2 ≠ 0) ∧ (poll m).1 ≠ -EINVAL) →
      (tsid_resolve_loop poll i k ret tsid).1 = -EINVAL ∧
      (tsid_resolve_loop poll i k ret tsid).2.2 = j + 1 := by
  induction i with
  | zero => intro k ret tsid j h1 h2; omega
  | succ i ih =>
    intro k ret tsid j h1 h2 hp hm
    simp only [tsid_resolve_loop]
    by_cases hjk : j = k
    · subst hjk
      rw [if_pos (Or.inr hp)]
      exact ⟨hp, rfl⟩
    · have hk := hm k (le_refl k) (by omega)
      rw [if_neg]
      · exact ih (k + 1) _ _ j (by omega) (by omega) hp (fun m a b => hm m (by omega) b)
      · rintro (⟨a, b⟩ | c)
        · rw [if_pos a] at b
          exact hk.1 ⟨a, b⟩
        · exact hk.2 c

/-- The readback loop at the first poll that succeeds and reports the
committed identifier: the loop ends there with 0. -/
theorem tsid_readback_loop_first (poll : Nat → Int × Nat) (tsid : Nat) (i : Nat) :
    ∀ k ret tsid2 j, k ≤ j → j < k + i → poll j = (0, tsid) →
      (∀ m, k ≤ m → m < j → ¬ ((poll m).1 = 0 ∧ (poll m).2 = tsid)) →
      tsid_readback_loop poll tsid i k ret tsid2 = (0, tsid, j + 1) := by
  induction i with
  | zero => intro k ret tsid2 j h1 h2; omega
  | succ i ih =>
    intro k ret tsid2 j h1 h2 hp hm
    simp only [tsid_readback_loop]
    by_cases hjk : j = k
    · subst hjk
      simp [hp]
    · have hk := hm k (le_refl k) (by omega)
      rw [if_neg]
      · exact ih (k + 1) _ _ j (by omega) (by omega) hp (fun m a b => hm m (by omega) b)
      · rintro ⟨a, b⟩
        rw [if_pos a] at b
        exact hk ⟨a, b⟩

/-- A resolution poll that fails with `-EINVAL` before the slot is resolved
ends `s1ur_chrdev_set_stream_id` at once with that error. -/
theorem set_stream_id_einval (env : Call → Int) (resolve readback : Nat → Int × Nat)
    (tsid0 tsid20 stream_id j : Nat) (hid : stream_id < 12) (hj : j < 100)
    (he : (resolve j).1 = -EINVAL)
    (hm : ∀ m, m < j →
      ¬ ((resolve m).1 = 0 ∧ (resolve m).2 ≠ 0) ∧ (resolve m).1 ≠ -EINVAL) :
    s1ur_chrdev_set_stream_id env resolve readback tsid0 tsid20
        ptx_system.PTX_ISDB_S_SYSTEM stream_id =
      (-EINVAL, List.replicate (j + 1) (Call.tc90522_tmcc_get_tsid_s stream_id)) := by
  have h := tsid_resolve_loop_einval resolve 100 0 0 tsid0 j (Nat.zero_le j) (by omega) he
    (fun m _ b => hm m b)
  have hE : ¬ ((-EINVAL : Int) = 0) := by decide
  unfold s1ur_chrdev_set_stream_id
  simp only [ne_eq, not_true_eq_false, if_false, if_pos hid, hid, true_and, h.1, h.2, hE,
    not_false_eq_true, if_true]

/-- When none of the 100 resolution polls resolves the slot (and none fails
with `-EINVAL`), `s1ur_chrdev_set_stream_id` makes the 100 polls and nothing
else, and returns the error of the last poll if it failed and `-EAGAIN` if it
succeeded. -/
theorem set_stream_id_unresolved (env : Call → Int) (resolve readback : Nat → Int × Nat)
    (tsid0 tsid20 stream_id : Nat) (hid : stream_id < 12)
    (hm : ∀ m, m < 100 →
      ¬ ((resolve m).1 = 0 ∧ (resolve m).2 ≠ 0) ∧ (resolve m).1 ≠ -EINVAL) :
    s1ur_chrdev_set_stream_id env resolve readback tsid0 tsid20
        ptx_system.PTX_ISDB_S_SYSTEM stream_id =
      (if (resolve 99).1 = 0 then -EAGAIN else (resolve 99).1,
       List.replicate 100 (Call.tc90522_tmcc_get_tsid_s stream_id)) := by
  have h := tsid_resolve_loop_unresolved resolve 99 0 0 tsid0 (fun m _ b => hm m (by omega))
  simp only [Nat.zero_add, Nat.reduceAdd] at h
  unfold s1ur_chrdev_set_stream_id
  simp only [ne_eq, not_true_eq_false, if_false, if_pos hid, hid, true_and, if_true, h.1,
    h.2.2]
  by_cases h0 : (resolve 99).1 = 0
  · rw [if_neg (not_not.2 h0), if_pos (h.2.1 h0), if_pos h0]
  · rw [if_pos h0, if_neg h0]

/-- After a commit that succeeds, the first readback poll that succeeds and
reports the committed identifier ends `s1ur_chrdev_set_stream_id` with 0: for
`stream_id >= 12` the calls are the commit of `stream_id` and the readback
polls up to that one. -/
theorem set_stream_id_literal_ok (env : Call → Int) (resolve readback : Nat → Int × Nat)
    (tsid0 tsid20 stream_id j : Nat) (hid : 12 ≤ stream_id)
    (hset : env (Call.tc90522_set_tsid_s stream_id) = 0) (hj : j < 100)
    (hp : readback j = (0, stream_id))
    (hm : ∀ m, m < j → ¬ ((readback m).1 = 0 ∧ (readback m).2 = stream_id)) :
    s1ur_chrdev_set_stream_id env resolve readback tsid0 tsid20
        ptx_system.PTX_ISDB_S_SYSTEM stream_id =
      (0, [Call.tc90522_set_tsid_s stream_id] ++
        List.replicate (j + 1) Call.tc90522_get_tsid_s) := by
  have h := tsid_readback_loop_first readback stream_id 100 0 0 tsid20 j (Nat.zero_le j)
    (by omega) hp (fun m _ b => hm m b)
  have hid2 : ¬ stream_id < 12 := by omega
  unfold s1ur_chrdev_set_stream_id
  simp [hid2, hset, h]

/-- The same for a slot index: when poll `j1` is the first that resolves slot
`stream_id < 12`, to `t`, the commit of `t` succeeds and readback poll `j2` is
the first that succeeds and reports `t`, the call returns 0 after `j1 + 1`
resolution polls, the commit and `j2 + 1` readback polls. -/
theorem set_stream_id_slot_ok (env : Call → Int) (resolve readback : Nat → Int × Nat)
    (tsid0 tsid20 stream_id t j1 j2 : Nat) (hid : stream_id < 12) (ht : t ≠ 0)
    (hj1 : j1 < 100) (hp1 : resolve j1 = (0, t))
    (hm1 : ∀ m, m < j1 →
      ¬ ((resolve m).1 = 0 ∧ (resolve m).2 ≠ 0) ∧ (resolve m).1 ≠ -EINVAL)
    (hset : env (Call.tc90522_set_tsid_s t) = 0) (hj2 : j2 < 100)
    (hp2 : readback j2 = (0, t))
    (hm2 : ∀ m, m < j2 → ¬ ((readback m).1 = 0 ∧ (readback m).2 = t)) :
    s1ur_chrdev_set_stream_id env resolve readback tsid0 tsid20
        ptx_system.PTX_ISDB_S_SYSTEM stream_id =
      (0, List.replicate (j1 + 1) (Call.tc90522_tmcc_get_tsid_s stream_id) ++
        [Call.tc90522_set_tsid_s t] ++ List.replicate (j2 + 1) Call.tc90522_get_tsid_s) := by
  have h1 := tsid_resolve_loop_first resolve t ht 100 0 0 tsid0 j1 (Nat.zero_le j1)
    (by omega) hp1 (fun m _ b => hm1 m b)
  have h2 := tsid_readback_loop_first readback t 100 0 0 tsid20 j2 (Nat.zero_le j2)
    (by omega) hp2 (fun m _ b => hm2 m b)
  unfold s1ur_chrdev_set_stream_id
  simp [hid, h1, ht, hset, h2]

/-- Claim C19, counterexample: on a satellite system with slot index 0, when
every resolution poll fails with `-EIO` the slot never resolves, and
`s1ur_chrdev_set_stream_id` makes its 100 polls, commits nothing and returns
`-EIO`, not `-EAGAIN`. -/
theorem s1ur_chrdev_set_stream_id_retry_counterexample :
    s1ur_chrdev_set_stream_id env_ok tsid_poll_fails tsid_reads_second 0 0
        ptx_system.PTX_ISDB_S_SYSTEM 0 =
      (- EIO, List.replicate 100 (Call.tc90522_tmcc_get_tsid_s 0)) ∧
    (∀ k, k < 100 → (tsid_poll_fails k).1 ≠ 0) ∧ - EIO ≠ -EAGAIN := by
  decide

/-- Claim C19, amended (stream-id selection): `s1ur_chrdev_set_stream_id`
returns `-EINVAL` without any chip call unless the current system is
satellite. On a satellite system at most 100 resolution polls and at most 100
readback polls are made; an identifier committed to the demodulator is
`stream_id` itself when `stream_id >= 12` (and is then always committed), and
when `stream_id < 12` it is non-zero and was reported by one of the 100
resolution polls of slot `stream_id`; the identifier reported by the first
resolving poll is committed. If no poll resolves the slot nothing is
committed: the call makes the 100 polls and returns `-EAGAIN` when the last
poll succeeded and the error of the last poll when it failed, and a poll that
fails with `-EINVAL` ends the call at once with `-EINVAL`. The call returns 0
only if something was committed and one of the 100 readback polls reported
the committed identifier, and it does return 0, at the first such poll, when
the commit succeeded; if the commit succeeded and neither a readback poll nor
the initial content of the readback variable equals the committed identifier,
all 100 readback polls are made and the call returns `-EAGAIN`. -/
theorem s1ur_chrdev_set_stream_id_contract (env : Call → Int)
    (resolve readback : Nat → Int × Nat) (tsid0 tsid20 : Nat) (current_system : ptx_system)
    (stream_id : Nat) :
    ((current_system ≠ ptx_system.PTX_ISDB_S_SYSTEM →
      s1ur_chrdev_set_stream_id env resolve readback tsid0 tsid20 current_system stream_id =
        (-EINVAL, [])) ∧
    (current_system = ptx_system.PTX_ISDB_S_SYSTEM →
      ((s1ur_chrdev_set_stream_id env resolve readback tsid0 tsid20 current_system
          stream_id).2.count (Call.tc90522_tmcc_get_tsid_s stream_id) ≤ 100 ∧
        (s1ur_chrdev_set_stream_id env resolve readback tsid0 tsid20 current_system
          stream_id).2.count Call.tc90522_get_tsid_s ≤ 100) ∧
      (∀ t, Call.tc90522_set_tsid_s t ∈
          (s1ur_chrdev_set_stream_id env resolve readback tsid0 tsid20 current_system
            stream_id).2 →
        (12 ≤ stream_id → t = stream_id) ∧
        (stream_id < 12 → t ≠ 0 ∧ ∃ k, k < 100 ∧ resolve k = (0, t))) ∧
      (12 ≤ stream_id → Call.tc90522_set_tsid_s stream_id ∈
          (s1ur_chrdev_set_stream_id env resolve readback tsid0 tsid20 current_system
            stream_id).2) ∧
      (stream_id < 12 → ∀ t j, t ≠ 0 → j < 100 → resolve j = (0, t) →
        (∀ m, m < j →
          ¬ ((resolve m).1 = 0 ∧ (resolve m).2 ≠ 0) ∧ (resolve m).1 ≠ -EINVAL) →
        Call.tc90522_set_tsid_s t ∈
          (s1ur_chrdev_set_stream_id env resolve readback tsid0 tsid20 current_system
            stream_id).2) ∧
      (stream_id < 12 →
        (∀ m, m < 100 →
          ¬ ((resolve m).1 = 0 ∧ (resolve m).2 ≠ 0) ∧ (resolve m).1 ≠ -EINVAL) →
        (∀ t, Call.tc90522_set_tsid_s t ∉
          (s1ur_chrdev_set_stream_id env resolve readback tsid0 tsid20 current_system
            stream_id).2) ∧
        (s1ur_chrdev_set_stream_id env resolve readback tsid0 tsid20 current_system
          stream_id).1 = (if (resolve 99).1 = 0 then -EAGAIN else (resolve 99).1)) ∧
      ((s1ur_chrdev_set_stream_id env resolve readback tsid0 tsid20 current_system
          stream_id).1 = 0 →
        ∃ t, Call.tc90522_set_tsid_s t ∈
          (s1ur_chrdev_set_stream_id env resolve readback tsid0 tsid20 current_system
            stream_id).2 ∧ ∃ k, k < 100 ∧ readback k = (0, t)) ∧
      (∀ t, Call.tc90522_set_tsid_s t ∈
          (s1ur_chrdev_set_stream_id env resolve readback tsid0 tsid20 current_system
            stream_id).2 →
        env (Call.tc90522_set_tsid_s t) = 0 → tsid20 ≠ t →
        (∀ k, k < 100 → (readback k).1 = 0 → (readback k).2 ≠ t) →
        (s1ur_chrdev_set_stream_id env resolve readback tsid0 tsid20 current_system
          stream_id).1 = -EAGAIN ∧
        (s1ur_chrdev_set_stream_id env resolve readback tsid0 tsid20 current_system
          stream_id).2.count Call.tc90522_get_tsid_s = 100))) ∧
    (current_system = ptx_system.PTX_ISDB_S_SYSTEM → stream_id < 12 →
      (∀ m, m < 100 →
        ¬ ((resolve m).1 = 0 ∧ (resolve m).2 ≠ 0) ∧ (resolve m).1 ≠ -EINVAL) →
      s1ur_chrdev_set_stream_id env resolve readback tsid0 tsid20 current_system stream_id =
        (if (resolve 99).1 = 0 then -EAGAIN else (resolve 99).1,
         List.replicate 100 (Call.tc90522_tmcc_get_tsid_s stream_id))) ∧
    (current_system = ptx_system.PTX_ISDB_S_SYSTEM → stream_id < 12 →
      ∀ j, j < 100 → (resolve j).1 = -EINVAL →
      (∀ m, m < j →
        ¬ ((resolve m).1 = 0 ∧ (resolve m).2 ≠ 0) ∧ (resolve m).1 ≠ -EINVAL) →
      s1ur_chrdev_set_stream_id env resolve readback tsid0 tsid20 current_system stream_id =
        (-EINVAL, List.replicate (j + 1) (Call.tc90522_tmcc_get_tsid_s stream_id))) ∧
    (current_system = ptx_system.PTX_ISDB_S_SYSTEM → 12 ≤ stream_id →
      env (Call.tc90522_set_tsid_s stream_id) = 0 →
      ∀ j, j < 100 → readback j = (0, stream_id) →
      (∀ m, m < j → ¬ ((readback m).1 = 0 ∧ (readback m).2 = stream_id)) →
      s1ur_chrdev_set_stream_id env resolve readback tsid0 tsid20 current_system stream_id =
        (0, [Call.tc90522_set_tsid_s stream_id] ++
          List.replicate (j + 1) Call.tc90522_get_tsid_s)) ∧
    (current_system = ptx_system.PTX_ISDB_S_SYSTEM → stream_id < 12 →
      ∀ t j1 j2, t ≠ 0 → j1 < 100 → resolve j1 = (0, t) →
      (∀ m, m < j1 →
        ¬ ((resolve m).1 = 0 ∧ (resolve m).2 ≠ 0) ∧ (resolve m).1 ≠ -EINVAL) →
      env (Call.tc90522_set_tsid_s t) = 0 → j2 < 100 → readback j2 = (0, t) →
      (∀ m, m < j2 → ¬ ((readback m).1 = 0 ∧ (readback m).2 = t)) →
      s1ur_chrdev_set_stream_id env resolve readback tsid0 tsid20 current_system stream_id =
        (0, List.replicate (j1 + 1) (Call.tc90522_tmcc_get_tsid_s stream_id) ++
          [Call.tc90522_set_tsid_s t] ++
          List.replicate (j2 + 1) Call.tc90522_get_tsid_s)) := by
  refine ⟨set_stream_id_facts env resolve readback tsid0 tsid20 current_system stream_id,
    ?_, ?_, ?_, ?_⟩
  · intro hs hid hm
    subst hs
    exact set_stream_id_unresolved env resolve readback tsid0 tsid20 stream_id hid hm
  · intro hs hid j hj he hm
    subst hs
    exact set_stream_id_einval env resolve readback tsid0 tsid20 stream_id j hid hj he hm
  · intro hs hid hset j hj hp hm
    subst hs
    exact set_stream_id_literal_ok env resolve readback tsid0 tsid20 stream_id j hid hset hj
      hp hm
  · intro hs hid t j1 j2 ht hj1 hp1 hm1 hset hj2 hp2 hm2
    subst hs
    exact set_stream_id_slot_ok env resolve readback tsid0 tsid20 stream_id t j1 j2 hid ht
      hj1 hp1 hm1 hset hj2 hp2 hm2

theorem s1ur_chrdev_set_stream_id_contract_witness :
    s1ur_chrdev_set_stream_id env_ok tsid_resolves_third tsid_reads_second 0 0
        ptx_system.PTX_ISDB_S_SYSTEM 0 =
      (0, List.replicate (2 + 1) (Call.tc90522_tmcc_get_tsid_s 0) ++
        [Call.tc90522_set_tsid_s 16400] ++ List.replicate (1 + 1) Call.tc90522_get_tsid_s) :=
  (s1ur_chrdev_set_stream_id_contract env_ok tsid_resolves_third tsid_reads_second 0 0
    ptx_system.PTX_ISDB_S_SYSTEM 0).2.2.2.2 rfl (by decide) 16400 2 1 (by decide) (by decide)
    (by decide) (by decide) (by decide) (by decide) (by decide) (by decide)
/-! ## Stream resynchronizer: arbitrary data -/

/-- The scan on arbitrary data: it returns, having found the sync marker at
each of the offsets it counted, and stops either at a byte that is not the
marker or where less than one packet length is left. -/
theorem sync_scan_spec (p : List Nat) (remain : Nat) (hL : remain < 4294967160) :
    ∀ fuel i, i * 188 ≤ remain → remain / 188 - i < fuel →
      ∃ i2 b, sync_scan p remain fuel i = some (i2, b) ∧ i ≤ i2 ∧ i2 * 188 ≤ remain ∧
        (∀ j, i ≤ j → j < i2 → p.getD (j * 188) 0 = 0x47) ∧
        (b = true → remain < (i2 + 1) * 188) ∧
        (b = false → (i2 + 1) * 188 ≤ remain ∧ p.getD (i2 * 188) 0 ≠ 0x47) := by
  intro fuel
  induction fuel with
  | zero => intro i _ h; omega
  | succ fuel ih =>
    intro i hi hf
    unfold sync_scan
    rw [u32_eq ((i + 1) * 188) (by omega), u32_eq (i * 188) (by omega)]
    by_cases hle : (i + 1) * 188 ≤ remain
    · rw [if_pos hle]
      by_cases hb : p.getD (i * 188) 0 = 0x47
      · rw [if_neg (by simpa using hb), u32_eq (i + 1) (by omega)]
        have hdiv : i + 1 ≤ remain / 188 := by
          rw [Nat.le_div_iff_mul_le (by decide)]
          exact hle
        obtain ⟨i2, b, h1, h2, h3, h4, h5, h6⟩ := ih (i + 1) hle (by omega)
        refine ⟨i2, b, h1, by omega, h3, fun j hj1 hj2 => ?_, h5, h6⟩
        by_cases hji : j = i
        · rw [hji]; exact hb
        · exact h4 j (by omega) hj2
      · rw [if_pos hb]
        exact ⟨i, false, rfl, le_refl i, hi, fun j hj1 hj2 => by omega,
          fun h => Bool.noConfusion h, fun _ => ⟨hle, hb⟩⟩
    · rw [if_neg hle]
      exact ⟨i, true, rfl, le_refl i, hi, fun j hj1 hj2 => by omega,
        fun _ => by omega, fun h => Bool.noConfusion h⟩

/-- The reads of the scan stay within the `remain` bytes of the region. -/
theorem sync_scan_accesses_bound (p : List Nat) (remain : Nat)
    (hL : remain < 4294967160) :
    ∀ fuel i, i * 188 ≤ remain →
      ∀ a ∈ sync_scan_accesses p remain fuel i, a.1 ≤ remain ∧ a.2 = p.length := by
  intro fuel
  induction fuel with
  | zero => intro i _ a ha; simp [sync_scan_accesses] at ha
  | succ fuel ih =>
    intro i hi a ha
    unfold sync_scan_accesses at ha
    by_cases hle : u32 ((i + 1) * 188) ≤ remain
    · rw [if_pos hle] at ha
      have e1 : u32 (i * 188) = i * 188 := u32_eq _ (by omega)
      have e2 : (i + 1) * 188 ≤ remain := by
        by_contra hc
        rw [u32_eq ((i + 1) * 188) (by omega)] at hle
        exact hc hle
      rcases List.mem_cons.1 ha with h | h
      · rw [h, e1]
        exact ⟨by simp only; omega, rfl⟩
      · by_cases hb : p.getD (u32 (i * 188)) 0 ≠ 0x47
        · rw [if_pos hb] at h
          simp at h
        · rw [if_neg hb, u32_eq (i + 1) (by omega)] at h
          exact ih (i + 1) e2 a h
    · rw [if_neg hle] at ha
      simp at ha

/-- A run of at least four counted packets at the head of a region is a
slice of whole packets that all start with the sync marker. -/
theorem scan_slice_synced (p : List Nat) (i : Nat)
    (h : ∀ j, j < i → p.getD (j * 188) 0 = 0x47) (hlen : i * 188 ≤ p.length) (h4 : 4 ≤ i) :
    (p.take (188 * i)).length = 188 * i ∧ 188 ∣ (p.take (188 * i)).length ∧
      752 ≤ (p.take (188 * i)).length ∧ Synced (p.take (188 * i)) := by
  have e : (p.take (188 * i)).length = 188 * i := by
    rw [List.length_take]; omega
  refine ⟨e, ?_, ?_, ?_⟩
  · rw [e]; exact Dvd.intro i rfl
  · rw [e]; omega
  · intro j hj
    rw [e] at hj
    have := h j (by omega)
    simp only [List.getD_eq_getElem?_getD, List.getElem?_take] at this ⊢
    rw [if_pos (by omega)]; exact this

/-- The function `s1ur_device_stream_process` on arbitrary data: with fuel
above the length it returns; less than one packet length is left; and the
region is, in order, skipped bytes, then each slice given to the sink followed
by skipped bytes, then what is left. Each slice is a whole number of packets,
at least four, that all start with the sync marker. -/
theorem stream_process_spec :
    ∀ (fuel : Nat) (p : List Nat) (sink : List (List Nat)),
      p.length < 4294967160 → p.length < fuel →
      ∃ (p2 g0 : List Nat) (rest : List (List Nat × List Nat)),
        s1ur_device_stream_process fuel p p.length sink =
          some (sink ++ rest.map Prod.fst, p2, p2.length) ∧
        p2.length < 188 ∧
        (∀ x ∈ rest, 188 ∣ x.1.length ∧ 752 ≤ x.1.length ∧ Synced x.1) ∧
        p = g0 ++ (rest.map (fun x => x.1 ++ x.2)).flatten ++ p2 := by
  intro fuel
  induction fuel with
  | zero => intro p sink _ h; omega
  | succ fuel ih =>
    intro p sink hL hf
    rw [s1ur_device_stream_process]
    by_cases h0 : p.length = 0
    · rw [if_pos h0]
      refine ⟨p, [], [], by simp, by omega, by simp, by simp⟩
    · rw [if_neg h0]
      obtain ⟨i2, b, h1, _, h3, h4, h5, h6⟩ :=
        sync_scan_spec p p.length hL (fuel + 1) 0 (by omega)
          (by have := Nat.div_le_self p.length 188; omega)
      rw [h1]
      simp only [S1UR_DEVICE_TS_SYNC_COUNT]
      by_cases hi : i2 < 4
      · rw [if_pos hi]
        have hl : (p.drop 1).length = p.length - 1 := List.length_drop 1 p
        obtain ⟨p2, g0, rest, e1, e2, e3, e4⟩ :=
          ih (p.drop 1) sink (by omega) (by omega)
        rw [hl] at e1
        refine ⟨p2, p.take 1 ++ g0, rest, e1, e2, e3, ?_⟩
        rw [List.append_assoc, List.append_assoc, ← List.append_assoc g0, ← e4,
          List.take_append_drop]
      · rw [if_neg hi, u32_eq (188 * i2) (by omega), u32_sub_eq _ _ (by omega) (by omega)]
        obtain ⟨s1, s2, s3, s4⟩ :=
          scan_slice_synced p i2 (fun j hj => h4 j (Nat.zero_le j) hj) h3 (by omega)
        have hl : (p.drop (188 * i2)).length = p.length - 188 * i2 := List.length_drop _ p
        cases b with
        | true =>
          simp only [if_true]
          refine ⟨p.drop (188 * i2), [], [(p.take (188 * i2), [])], ?_, ?_, ?_, ?_⟩
          · rw [hl]; simp
          · have := h5 rfl
            omega
          · intro x hx
            simp only [List.mem_singleton] at hx
            rw [hx]
            exact ⟨s2, s3, s4⟩
          · simp
        | false =>
          simp only [Bool.false_eq_true, if_false]
          obtain ⟨p2, g0, rest, e1, e2, e3, e4⟩ :=
            ih (p.drop (188 * i2)) (sink ++ [p.take (188 * i2)]) (by omega) (by omega)
          rw [hl] at e1
          refine ⟨p2, [], (p.take (188 * i2), g0) :: rest, ?_, e2, ?_, ?_⟩
          · rw [e1]; simp
          · intro x hx
            rcases List.mem_cons.1 hx with h | h
            · rw [h]; exact ⟨s2, s3, s4⟩
            · exact e3 x h
          · simp only [List.map_cons, List.flatten_cons, List.nil_append, List.append_assoc]
            rw [← List.append_assoc g0, ← e4, List.take_append_drop]

/-- The reads of `s1ur_device_stream_process` stay within the region. -/
theorem stream_process_accesses_bound :
    ∀ (fuel : Nat) (p : List Nat),
      p.length < 4294967160 → p.length < fuel →
      ∀ a ∈ stream_process_accesses fuel p p.length, a.1 ≤ a.2 := by
  intro fuel
  induction fuel with
  | zero => intro p _ h; omega
  | succ fuel ih =>
    intro p hL hf a ha
    rw [stream_process_accesses] at ha
    by_cases h0 : p.length = 0
    · rw [if_pos h0] at ha
      simp at ha
    · rw [if_neg h0] at ha
      obtain ⟨i2, b, h1, _, h3, _, _, _⟩ :=
        sync_scan_spec p p.length hL (fuel + 1) 0 (by omega)
          (by have := Nat.div_le_self p.length 188; omega)
      rw [h1] at ha
      simp only [S1UR_DEVICE_TS_SYNC_COUNT] at ha
      rcases List.mem_append.1 ha with h | h
      · have := sync_scan_accesses_bound p p.length hL (fuel + 1) 0 (by omega) a h
        omega
      · by_cases hi : i2 < 4
        · rw [if_pos hi] at h
          have hl : (p.drop 1).length = p.length - 1 := List.length_drop 1 p
          rw [← hl] at h
          exact ih (p.drop 1) (by omega) (by omega) a h
        · rw [if_neg hi, u32_eq (188 * i2) (by omega),
            u32_sub_eq _ _ (by omega) (by omega)] at h
          have hl : (p.drop (188 * i2)).length = p.length - 188 * i2 := List.length_drop _ p
          rcases List.mem_cons.1 h with h | h
          · rw [h]
            simp only
            omega
          · cases b with
            | true => simp at h
            | false =>
              simp only [Bool.false_eq_true, if_false] at h
              rw [← hl] at h
              exact ih (p.drop (188 * i2)) (by omega) (by omega) a h

/-- The slices already in the sink do not influence a run of
`s1ur_device_stream_process`; it appends to them. -/
theorem stream_process_sink :
    ∀ (fuel : Nat) (p : List Nat) (remain : Nat) (sink : List (List Nat)),
      s1ur_device_stream_process fuel p remain sink =
        (s1ur_device_stream_process fuel p remain []).map
          (fun r => (sink ++ r.1, r.2.1, r.2.2)) := by
  intro fuel
  induction fuel with
  | zero => intro p remain sink; simp [s1ur_device_stream_process]
  | succ fuel ih =>
    intro p remain sink
    rw [s1ur_device_stream_process, s1ur_device_stream_process]
    by_cases h0 : remain = 0
    · simp [h0]
    · rw [if_neg h0, if_neg h0]
      cases hs : sync_scan p remain (fuel + 1) 0 with
      | none => simp
      | some r =>
        obtain ⟨i, b⟩ := r
        simp only
        by_cases hi : i < S1UR_DEVICE_TS_SYNC_COUNT
        · rw [if_pos hi, if_pos hi]
          exact ih _ _ _
        · rw [if_neg hi, if_neg hi]
          cases b with
          | true => simp
          | false =>
            simp only [Bool.false_eq_true, if_false, List.nil_append]
            rw [ih _ _ (sink ++ [p.take (u32 (188 * i))]), ih _ _ [p.take (u32 (188 * i))],
              Option.map_map]
            congr 1
            funext r
            simp

/-- The end of `s1ur_device_stream_handler` on arbitrary data: it returns 0,
the remainder afterwards is shorter than one packet or unchanged, the
remainder buffer keeps its size, every access is within bounds and every
slice added to the sink is a whole number of packets, at least four, that
start with the sync marker. -/
theorem stream_handler_tail_spec (fuel : Nat) (ctx : s1ur_stream_context) (p : List Nat)
    (sink : List (List Nat)) (hbuf : ctx.remain_buf.length = 752)
    (hL : p.length < 4294967160) (hf : p.length < fuel) :
    ∃ (ctx2 : s1ur_stream_context) (sink2 : List (List Nat)),
      s1ur_device_stream_handler_tail fuel ctx p p.length sink = some (0, ctx2, sink ++ sink2) ∧
      ctx2.remain_buf.length = 752 ∧
      (ctx2.remain_len < 188 ∨ ctx2.remain_len = ctx.remain_len) ∧
      (∀ a ∈ s1ur_device_stream_handler_tail_accesses fuel p p.length, a.in_bounds) ∧
      (∀ s ∈ sink2, 188 ∣ s.length ∧ 752 ≤ s.length ∧ Synced s) := by
  obtain ⟨p2, g0, rest, e1, e2, e3, _⟩ := stream_process_spec fuel p [] hL hf
  have hacc := stream_process_accesses_bound fuel p hL hf
  have hsl : ∀ s ∈ rest.map Prod.fst, 188 ∣ s.length ∧ 752 ≤ s.length ∧ Synced s := by
    intro s hs
    obtain ⟨x, hx, rfl⟩ := List.mem_map.1 hs
    exact e3 x hx
  unfold s1ur_device_stream_handler_tail s1ur_device_stream_handler_tail_accesses
  rw [stream_process_sink fuel p p.length sink, e1]
  simp only [Option.map_some', List.nil_append]
  by_cases h0 : p2.length = 0
  · simp only [h0, ne_eq, not_true_eq_false, if_false, List.append_nil]
    refine ⟨ctx, rest.map Prod.fst, rfl, hbuf, Or.inr rfl, ?_, hsl⟩
    intro a ha
    obtain ⟨x, hx, rfl⟩ := List.mem_map.1 ha
    exact hacc x hx
  · simp only [h0, ne_eq, not_false_eq_true, if_true]
    refine ⟨_, rest.map Prod.fst, rfl, ?_, Or.inl e2, ?_, hsl⟩
    · exact (memcpy_length _ _ _ _ (by omega) (le_refl _)).trans hbuf
    · intro a ha
      rcases List.mem_append.1 ha with h | h
      · obtain ⟨x, hx, rfl⟩ := List.mem_map.1 h
        exact hacc x hx
      · simp only [List.mem_cons, List.mem_singleton, List.not_mem_nil, or_false] at h
        rcases h with h | h
        · rw [h]; exact le_refl _
        · rw [h]
          show 0 + p2.length ≤ S1UR_DEVICE_TS_SYNC_SIZE
          have hS : S1UR_DEVICE_TS_SYNC_SIZE = 752 := rfl
          omega

/-- One call of `s1ur_device_stream_handler` on a chunk of arbitrary content:
from a remainder of less than 752 bytes it returns 0 and leaves a remainder
of less than 752 bytes, the remainder buffer keeps its 752 bytes, every
access is within bounds and every slice given to the sink is a whole number
of packets, at least four, that start with the sync marker. -/
theorem stream_handler_spec (fuel : Nat) (ctx : s1ur_stream_context) (buf : List Nat)
    (hbuf : ctx.remain_buf.length = 752) (hlen : ctx.remain_len < 752)
    (hL : buf.length + 752 ≤ 4294967296) (hf : buf.length < fuel) (hf2 : 752 < fuel) :
    ∃ (ctx2 : s1ur_stream_context) (sink : List (List Nat)),
      s1ur_device_stream_handler fuel ctx buf = some (0, ctx2, sink) ∧
      ctx2.remain_buf.length = 752 ∧ ctx2.remain_len < 752 ∧
      (∀ a ∈ s1ur_device_stream_handler_accesses fuel ctx buf, a.in_bounds) ∧
      (∀ s ∈ sink, 188 ∣ s.length ∧ 752 ≤ s.length ∧ Synced s) := by
  have hS : S1UR_DEVICE_TS_SYNC_SIZE = 752 := rfl
  unfold s1ur_device_stream_handler s1ur_device_stream_handler_accesses
  simp only [hS]
  rw [u32_eq ctx.remain_len (by omega)]
  by_cases h0 : ctx.remain_len = 0
  · simp only [h0, ne_eq, not_true_eq_false, if_false]
    obtain ⟨ctx2, sink2, t1, t2, t3, t4, t5⟩ :=
      stream_handler_tail_spec fuel ctx buf [] hbuf (by omega) hf
    rw [List.nil_append] at t1
    exact ⟨ctx2, sink2, t1, t2, by omega, t4, t5⟩
  · simp only [h0, ne_eq, not_false_eq_true, if_true]
    rw [u32_eq (ctx.remain_len + buf.length) (by omega)]
    by_cases hge : ctx.remain_len + buf.length ≥ 752
    · simp only [hge, if_true]
      rw [u32_sub_eq 752 ctx.remain_len (by omega) (by decide)]
      have hrb : (memcpy ctx.remain_buf ctx.remain_len buf (752 - ctx.remain_len)).length =
          752 := (memcpy_length _ _ _ _ (by omega) (by omega)).trans hbuf
      generalize memcpy ctx.remain_buf ctx.remain_len buf (752 - ctx.remain_len) = rb at hrb ⊢
      obtain ⟨p2, g0, rest, e1, e2, e3, _⟩ :=
        stream_process_spec fuel rb [] (by omega) (by omega)
      have hacc := stream_process_accesses_bound fuel rb (by omega) (by omega)
      rw [hrb] at e1 hacc
      rw [e1]
      simp only [List.nil_append]
      have hsl : ∀ s ∈ rest.map Prod.fst, 188 ∣ s.length ∧ 752 ≤ s.length ∧ Synced s := by
        intro s hs
        obtain ⟨x, hx, rfl⟩ := List.mem_map.1 hs
        exact e3 x hx
      have hfirst : ∀ a ∈ [Access.chunk_read (752 - ctx.remain_len) buf.length,
          Access.remain_write ctx.remain_len (752 - ctx.remain_len)] ++
          (stream_process_accesses fuel rb 752).map (fun a => Access.remain_read a.1 a.2),
          a.in_bounds := by
        intro a ha
        rcases List.mem_append.1 ha with h | h
        · simp only [List.mem_cons, List.mem_singleton, List.not_mem_nil, or_false] at h
          rcases h with h | h
          · rw [h]
            show 752 - ctx.remain_len ≤ buf.length
            omega
          · rw [h]
            show ctx.remain_len + (752 - ctx.remain_len) ≤ S1UR_DEVICE_TS_SYNC_SIZE
            omega
        · obtain ⟨x, hx, rfl⟩ := List.mem_map.1 h
          exact hacc x hx
      by_cases hz : p2.length = 0
      · simp only [hz, if_true]
        rw [u32_sub_eq buf.length (752 - ctx.remain_len) (by omega) (by omega)]
        have hl : (buf.drop (752 - ctx.remain_len)).length =
            buf.length - (752 - ctx.remain_len) := List.length_drop _ _
        rw [← hl]
        obtain ⟨ctx2, sink2, t1, t2, t3, t4, t5⟩ :=
          stream_handler_tail_spec fuel { remain_buf := rb, remain_len := 0 }
            (buf.drop (752 - ctx.remain_len)) (rest.map Prod.fst) hrb (by omega) (by omega)
        refine ⟨ctx2, _, t1, t2, ?_, ?_, ?_⟩
        · simp only at t3
          omega
        · intro a ha
          rcases List.mem_append.1 ha with h | h
          · exact hfirst a h
          · exact t4 a h
        · intro s hs
          rcases List.mem_append.1 hs with h | h
          · exact hsl s h
          · exact t5 s h
      · simp only [hz, if_false]
        obtain ⟨ctx2, sink2, t1, t2, t3, t4, t5⟩ :=
          stream_handler_tail_spec fuel { remain_buf := rb, remain_len := 0 }
            buf (rest.map Prod.fst) hrb (by omega) (by omega)
        refine ⟨ctx2, _, t1, t2, ?_, ?_, ?_⟩
        · simp only at t3
          omega
        · intro a ha
          rcases List.mem_append.1 ha with h | h
          · exact hfirst a h
          · exact t4 a h
        · intro s hs
          rcases List.mem_append.1 hs with h | h
          · exact hsl s h
          · exact t5 s h
    · simp only [hge, if_false]
      refine ⟨_, [], rfl, ?_, ?_, ?_, by simp⟩
      · exact (memcpy_length _ _ _ _ (by omega) (le_refl _)).trans hbuf
      · show size_add ctx.remain_len buf.length < 752
        unfold size_add
        omega
      · intro a ha
        simp only [List.mem_cons, List.mem_singleton, List.not_mem_nil, or_false] at ha
        rcases ha with h | h
        · rw [h]; exact le_refl _
        · rw [h]
          show ctx.remain_len + buf.length ≤ S1UR_DEVICE_TS_SYNC_SIZE
          omega

/-- Feeding chunks of arbitrary content keeps the remainder below 752 bytes
and the remainder buffer at 752 bytes; every call returns. -/
theorem feed_chunks_inv (fuel : Nat) (hf2 : 752 < fuel) :
    ∀ (chunks : List (List Nat)) (ctx : s1ur_stream_context),
      ctx.remain_buf.length = 752 → ctx.remain_len < 752 →
      (∀ c ∈ chunks, c.length + 752 ≤ 4294967296 ∧ c.length < fuel) →
      ∃ (ctx2 : s1ur_stream_context) (sink : List (List Nat)),
        feed_chunks fuel ctx chunks = some (ctx2, sink) ∧
        ctx2.remain_buf.length = 752 ∧ ctx2.remain_len < 752 ∧
        (∀ s ∈ sink, 188 ∣ s.length ∧ 752 ≤ s.length ∧ Synced s) := by
  intro chunks
  induction chunks with
  | nil =>
    intro ctx hbuf hlen _
    exact ⟨ctx, [], rfl, hbuf, hlen, by simp⟩
  | cons c cs ih =>
    intro ctx hbuf hlen hc
    have h1 := hc c (List.mem_cons_self c cs)
    obtain ⟨ctx1, sink1, e1, e2, e3, _, e5⟩ :=
      stream_handler_spec fuel ctx c hbuf hlen h1.1 h1.2 hf2
    obtain ⟨ctx2, sink2, g1, g2, g3, g4⟩ :=
      ih ctx1 e2 e3 (fun x hx => hc x (List.mem_cons_of_mem c hx))
    refine ⟨ctx2, sink1 ++ sink2, ?_, g2, g3, ?_⟩
    · simp only [feed_chunks, e1, g1]
    · intro s hs
      rcases List.mem_append.1 hs with h | h
      · exact e5 s h
      · exact g4 s h

theorem markers_4g_length : markers_4g.length = 4294967295 :=
  List.length_replicate _ _

theorem chunk_4g_length : chunk_4g.length = 4294967295 :=
  List.length_replicate _ _

set_option maxRecDepth 100000 in
/-- Four packets and one byte, fed from a fresh context, leave a remainder of
one byte. -/
theorem stream_handler_four_packets_and_a_byte :
    s1ur_device_stream_handler 2000 fresh_context four_packets_and_a_byte =
      some (0, { remain_buf := 0x47 :: List.replicate 751 0, remain_len := 1 },
        [four_packets_and_a_byte.take 752]) := by
  decide

/-- With a remainder of one byte, a chunk of 2^32 - 1 bytes makes the `u32`
sum `ctx_remain_len + len` wrap to 0: the handler takes the branch for a
chunk that does not fill the remainder buffer and copies the whole chunk
behind the remainder. -/
theorem stream_handler_chunk_4g (fuel : Nat) (ctx : s1ur_stream_context)
    (hr : ctx.remain_len = 1) :
    s1ur_device_stream_handler fuel ctx chunk_4g =
      some (0, { remain_buf := memcpy ctx.remain_buf 1 chunk_4g 4294967295,
                 remain_len := 4294967296 }, []) ∧
    s1ur_device_stream_handler_accesses fuel ctx chunk_4g =
      [Access.chunk_read 4294967295 4294967295, Access.remain_write 1 4294967295] := by
  have h1 : u32 1 = 1 := by decide
  have h2 : u32 (1 + 4294967295) = 0 := by decide
  have h3 : size_add 1 4294967295 = 4294967296 := by decide
  have hS : ¬ (0 ≥ S1UR_DEVICE_TS_SYNC_SIZE) := by decide
  constructor
  · unfold s1ur_device_stream_handler
    simp only [hr, chunk_4g_length, h1, h2, h3, hS, ne_eq, one_ne_zero, not_false_eq_true,
      if_true, if_false]
  · unfold s1ur_device_stream_handler_accesses
    simp only [hr, chunk_4g_length, h1, h2, hS, ne_eq, one_ne_zero, not_false_eq_true,
      if_true, if_false]

/-- Claim C22, counterexample: from a fresh context a chunk of four packets
and one byte leaves `remain_len = 1`; the next call, on a chunk of 2^32 - 1
bytes, returns 0 after copying 2^32 - 1 bytes to offset 1 of the 752-byte
remainder buffer, and leaves `remain_len = 2^32`. -/
theorem stream_handler_remainder_counterexample :
    fresh_context.remain_len = 0 ∧ chunk_4g.length = 4294967295 ∧
    feed_chunks 2000 fresh_context [four_packets_and_a_byte] =
      some ({ remain_buf := 0x47 :: List.replicate 751 0, remain_len := 1 },
        [four_packets_and_a_byte.take 752]) ∧
    (s1ur_device_stream_handler 2000
      { remain_buf := 0x47 :: List.replicate 751 0, remain_len := 1 } chunk_4g).map
      (fun r => (r.1, r.2.1.remain_len)) = some (0, 4294967296) ∧
    s1ur_device_stream_handler_accesses 2000
      { remain_buf := 0x47 :: List.replicate 751 0, remain_len := 1 } chunk_4g =
      [Access.chunk_read 4294967295 4294967295, Access.remain_write 1 4294967295] ∧
    ¬ (Access.remain_write 1 4294967295).in_bounds := by
  have h1 := stream_handler_four_packets_and_a_byte
  have h2 := stream_handler_chunk_4g 2000
    { remain_buf := 0x47 :: List.replicate 751 0, remain_len := 1 } rfl
  refine ⟨rfl, chunk_4g_length, ?_, ?_, h2.2, by decide⟩
  · simp only [feed_chunks, h1, List.append_nil]
  · rw [h2.1]
    rfl

/-- Claim C22, amended (remainder stays in bounds): starting from
`remain_len = 0`, for every sequence of chunks of any content, each at most
2^32 - 752 bytes long, and every `k`, the calls of
`s1ur_device_stream_handler` on the first `k` chunks return, and the call on
chunk `k` returns 0, makes only accesses that are within bounds (each copy
into the remainder buffer has `offset + length <= 752`, each read of the chunk
and of the remainder buffer stays within it), and leaves `remain_len < 752`
and the remainder buffer at its 752 bytes. -/
theorem stream_handler_remainder_in_bounds (fuel : Nat) (ctx : s1ur_stream_context)
    (chunks : List (List Nat))
    (hbuf : ctx.remain_buf.length = S1UR_DEVICE_TS_SYNC_SIZE) (hfresh : ctx.remain_len = 0)
    (hL : ∀ c ∈ chunks, c.length + 752 ≤ 4294967296)
    (hf : ∀ c ∈ chunks, c.length < fuel) (hf2 : 752 < fuel) (k : Nat)
    (hk : k < chunks.length) :
    ∃ (ctx1 : s1ur_stream_context) (sink1 : List (List Nat)) (ctx2 : s1ur_stream_context)
      (sink2 : List (List Nat)),
      feed_chunks fuel ctx (chunks.take k) = some (ctx1, sink1) ∧
      s1ur_device_stream_handler fuel ctx1 (chunks.getD k []) = some (0, ctx2, sink2) ∧
      (∀ a ∈ s1ur_device_stream_handler_accesses fuel ctx1 (chunks.getD k []),
        a.in_bounds) ∧
      ctx2.remain_len < S1UR_DEVICE_TS_SYNC_SIZE ∧
      ctx2.remain_buf.length = S1UR_DEVICE_TS_SYNC_SIZE := by
  have hS : S1UR_DEVICE_TS_SYNC_SIZE = 752 := rfl
  rw [hS] at hbuf ⊢
  obtain ⟨ctx1, sink1, e1, e2, e3, _⟩ :=
    feed_chunks_inv fuel hf2 (chunks.take k) ctx hbuf (by omega)
      (fun c hc => ⟨hL c (List.mem_of_mem_take hc), hf c (List.mem_of_mem_take hc)⟩)
  have hmem : chunks.getD k [] ∈ chunks := by
    rw [List.getD_eq_getElem _ _ hk]
    exact List.getElem_mem hk
  obtain ⟨ctx2, sink2, g1, g2, g3, g4, _⟩ :=
    stream_handler_spec fuel ctx1 (chunks.getD k []) e2 e3 (hL _ hmem) (hf _ hmem) hf2
  exact ⟨ctx1, sink1, ctx2, sink2, e1, g1, g4, g3, g2⟩

set_option maxRecDepth 100000 in
theorem stream_handler_remainder_in_bounds_witness :
    ∃ (ctx1 : s1ur_stream_context) (sink1 : List (List Nat)) (ctx2 : s1ur_stream_context)
      (sink2 : List (List Nat)),
      feed_chunks 2000 fresh_context ([garbage_then_packets, short_chunk].take 1) =
        some (ctx1, sink1) ∧
      s1ur_device_stream_handler 2000 ctx1 ([garbage_then_packets, short_chunk].getD 1 []) =
        some (0, ctx2, sink2) ∧
      (∀ a ∈ s1ur_device_stream_handler_accesses 2000 ctx1
          ([garbage_then_packets, short_chunk].getD 1 []), a.in_bounds) ∧
      ctx2.remain_len < S1UR_DEVICE_TS_SYNC_SIZE ∧
      ctx2.remain_buf.length = S1UR_DEVICE_TS_SYNC_SIZE :=
  stream_handler_remainder_in_bounds 2000 fresh_context [garbage_then_packets, short_chunk]
    (by decide) (by decide) (by decide) (by decide) (by decide) 1 (by decide)

/-- On 2^32 - 1 sync markers the scan never ends: the `u32` product
`(i + 1) * 188` is at most the length for every `i`, and every byte read is the
marker. -/
theorem sync_scan_markers_4g : ∀ fuel i, sync_scan markers_4g 4294967295 fuel i = none := by
  intro fuel
  induction fuel with
  | zero => intro i; rfl
  | succ fuel ih =>
    intro i
    unfold sync_scan
    have h1 : u32 ((i + 1) * 188) ≤ 4294967295 := by unfold u32; omega
    have h2 : u32 (i * 188) < 4294967295 := by unfold u32; omega
    have h3 : markers_4g.getD (u32 (i * 188)) 0 = 0x47 := by
      unfold markers_4g
      rw [List.getD_eq_getElem?_getD, List.getElem?_replicate, if_pos h2]
      rfl
    rw [if_pos h1, h3]
    simp only [ne_eq, not_true_eq_false, if_false]
    exact ih _

/-- Claim C24, counterexample: on an input buffer of 2^32 - 1 bytes that are
all 0x47 no scan of `s1ur_device_stream_process` returns, whatever the fuel,
and so the function does not return either: the scan loop does not
terminate. -/
theorem stream_process_scan_counterexample :
    markers_4g.length = 4294967295 ∧
    (∀ fuel i, sync_scan markers_4g markers_4g.length fuel i = none) ∧
    (∀ fuel, s1ur_device_stream_process fuel markers_4g markers_4g.length [] = none) := by
  rw [markers_4g_length]
  refine ⟨rfl, sync_scan_markers_4g, fun fuel => ?_⟩
  cases fuel with
  | zero => rfl
  | succ fuel =>
    rw [s1ur_device_stream_process, if_neg (by decide), sync_scan_markers_4g]

/-- Claim C24, amended (only confirmed, aligned packets reach the sink): for
every input buffer shorter than 4294967160 bytes (22845570 x 188, the largest
multiple of 188 below 2^32), `s1ur_device_stream_process` returns (with fuel
above the length, so every scan and the outer loop end); every slice it gives
to the sink has a length that is a multiple of 188 and at least 4 x 188, and
every 188-byte unit of it starts with 0x47; and the input is, in this order,
skipped bytes, then each slice followed by skipped bytes, then the bytes left
over: the slices are contiguous pieces of the input, disjoint and in input
order. -/
theorem stream_process_slices (p : List Nat) (fuel : Nat)
    (hL : p.length < 4294967160) (hf : p.length < fuel) :
    ∃ (sink : List (List Nat)) (p2 : List Nat),
      s1ur_device_stream_process fuel p p.length [] = some (sink, p2, p2.length) ∧
      (∀ s ∈ sink, 188 ∣ s.length ∧ 4 * 188 ≤ s.length ∧ Synced s) ∧
      ∃ (g0 : List Nat) (rest : List (List Nat × List Nat)),
        sink = rest.map Prod.fst ∧
        p = g0 ++ (rest.map (fun x => x.1 ++ x.2)).flatten ++ p2 := by
  obtain ⟨p2, g0, rest, e1, _, e3, e4⟩ := stream_process_spec fuel p [] hL hf
  rw [List.nil_append] at e1
  refine ⟨rest.map Prod.fst, p2, e1, ?_, g0, rest, rfl, e4⟩
  intro s hs
  obtain ⟨x, hx, rfl⟩ := List.mem_map.1 hs
  exact e3 x hx

set_option maxRecDepth 100000 in
theorem stream_process_slices_witness :
    ∃ (sink : List (List Nat)) (p2 : List Nat),
      s1ur_device_stream_process 2000 garbage_then_packets garbage_then_packets.length [] =
        some (sink, p2, p2.length) ∧
      (∀ s ∈ sink, 188 ∣ s.length ∧ 4 * 188 ≤ s.length ∧ Synced s) ∧
      ∃ (g0 : List Nat) (rest : List (List Nat × List Nat)),
        sink = rest.map Prod.fst ∧
        garbage_then_packets = g0 ++ (rest.map (fun x => x.1 ++ x.2)).flatten ++ p2 :=
  stream_process_slices garbage_then_packets 2000 (by decide) (by decide)

/-- Claim C23 (round trip for large chunks): for every sequence of valid
188-byte packets and every cutting of their concatenation into consecutive
chunks of at least 1504 bytes each, at arbitrary byte boundaries, feeding the
chunks in order to `s1ur_device_stream_handler` from `remain_len = 0` returns
and delivers to the sink slices of whole packets whose concatenation is the
concatenation of the packets, byte for byte and in order, and the remainder is
empty at the end. -/
theorem stream_handler_roundtrip_large_chunks (fuel : Nat) (ctx : s1ur_stream_context)
    (pkts chunks : List (List Nat))
    (hbuf : ctx.remain_buf.length = S1UR_DEVICE_TS_SYNC_SIZE) (hfresh : ctx.remain_len = 0)
    (hv : ∀ pk ∈ pkts, ValidPacket pk) (hcut : chunks.flatten = pkts.flatten)
    (hbig : ∀ c ∈ chunks, 1504 ≤ c.length)
    (hL : ∀ c ∈ chunks, c.length + 752 < 4294967296)
    (hf : ∀ c ∈ chunks, c.length < fuel) :
    ∃ (ctx2 : s1ur_stream_context) (sink : List (List Nat)),
      feed_chunks fuel ctx chunks = some (ctx2, sink) ∧ sink.flatten = pkts.flatten ∧
      (∀ s ∈ sink, 188 ∣ s.length) ∧ ctx2.remain_len = 0 := by
  obtain ⟨ctx2, sink, h1, h2, h3⟩ :=
    feed_chunks_roundtrip fuel ctx pkts chunks hbuf hfresh hv hcut hbig
      (fun c hc => by have := hL c hc; omega) hf
  refine ⟨ctx2, sink, h1, h2, ?_, h3⟩
  cases chunks with
  | nil =>
    simp only [feed_chunks, Option.some.injEq, Prod.mk.injEq] at h1
    rw [← h1.2]
    simp
  | cons c cs =>
    have hc := List.mem_cons_self c cs
    have hf2 : 752 < fuel := by
      have := hbig c hc
      have := hf c hc
      omega
    obtain ⟨ctx3, sink3, g1, _, _, g4⟩ :=
      feed_chunks_inv fuel hf2 (c :: cs) ctx hbuf (by omega)
        (fun x hx => ⟨Nat.le_of_lt (hL x hx), hf x hx⟩)
    rw [h1] at g1
    simp only [Option.some.injEq, Prod.mk.injEq] at g1
    rw [g1.2]
    exact fun s hs => (g4 s hs).1

set_option maxRecDepth 100000 in
theorem stream_handler_roundtrip_large_chunks_witness :
    ∃ (ctx2 : s1ur_stream_context) (sink : List (List Nat)),
      feed_chunks 2000 fresh_context
          [seventeen_packets.flatten.take 1511, seventeen_packets.flatten.drop 1511] =
        some (ctx2, sink) ∧
      sink.flatten = seventeen_packets.flatten ∧
      (∀ s ∈ sink, 188 ∣ s.length) ∧ ctx2.remain_len = 0 :=
  stream_handler_roundtrip_large_chunks 2000 fresh_context seventeen_packets
    [seventeen_packets.flatten.take 1511, seventeen_packets.flatten.drop 1511]
    (by decide) (by decide) (by decide) (by simp) (by decide) (by decide) (by decide)

/-! ## Stream resynchronizer: cuttings of a packet stream that lose nothing -/

/-- The end of the handler when nothing is left of the chunk. -/
theorem stream_handler_tail_nil (fuel : Nat) (ctx : s1ur_stream_context)
    (sink : List (List Nat)) (hf : 0 < fuel) :
    s1ur_device_stream_handler_tail fuel ctx [] 0 sink = some (0, ctx, sink) := by
  obtain ⟨f, rfl⟩ : ∃ f, fuel = f + 1 := ⟨fuel - 1, by omega⟩
  unfold s1ur_device_stream_handler_tail
  rw [s1ur_device_stream_process]
  simp

theorem chunk_fits_zero (len : Nat) (h : chunk_fits 0 len = true) : len = 0 ∨ 752 ≤ len := by
  simpa [chunk_fits] using h

theorem chunk_fits_pos (r len : Nat) (hr : r ≠ 0) (h : chunk_fits r len = true) :
    r + len ≤ 752 ∨ 1504 ≤ r + len := by
  simpa [chunk_fits, hr] using h

/-- One call of `s1ur_device_stream_handler` on a chunk that continues an
aligned stream and fits the remainder: nothing is lost, the sink receives
whole packets, and the remainder afterwards is as `remain_after` says. -/
theorem stream_handler_step_fits (fuel : Nat) (ctx : s1ur_stream_context) (c : List Nat)
    (hbuf : ctx.remain_buf.length = 752) (hr : ctx.remain_len < 752)
    (hs : Synced (ctx.remain_buf.take ctx.remain_len ++ c))
    (hfit : chunk_fits ctx.remain_len c.length = true)
    (hL : c.length + 752 ≤ 4294967296) (hf : c.length < fuel) (hf2 : 752 < fuel) :
    ∃ (ctx2 : s1ur_stream_context) (sink : List (List Nat)),
      s1ur_device_stream_handler fuel ctx c = some (0, ctx2, sink) ∧
      ctx2.remain_buf.length = 752 ∧
      ctx2.remain_len = remain_after ctx.remain_len c.length ∧ ctx2.remain_len < 752 ∧
      sink.flatten ++ ctx2.remain_buf.take ctx2.remain_len =
        ctx.remain_buf.take ctx.remain_len ++ c ∧
      188 ∣ sink.flatten.length := by
  by_cases h0 : ctx.remain_len = 0
  · have hu : u32 ctx.remain_len = 0 := by rw [h0]; rfl
    rw [h0] at hfit
    rcases chunk_fits_zero _ hfit with hz | hbig
    · have hc : c = [] := List.length_eq_zero.mp hz
      subst hc
      refine ⟨ctx, [], ?_, hbuf, ?_, hr, by simp, by simp⟩
      · unfold s1ur_device_stream_handler
        simp only [hu, ne_eq, not_true_eq_false, if_false, List.length_nil]
        exact stream_handler_tail_nil fuel ctx [] (by omega)
      · rw [h0]; rfl
    · rw [h0, List.take_zero, List.nil_append] at hs
      obtain ⟨ctx2, h1, h2, h3, h4⟩ :=
        stream_handler_tail_synced fuel ctx c [] hbuf h0 hs hbig (by omega) hf
      refine ⟨ctx2, [] ++ [c.take (188 * (c.length / 188))], ?_, h2, ?_, by omega, ?_, ?_⟩
      · unfold s1ur_device_stream_handler
        simp only [hu, ne_eq, not_true_eq_false, if_false]
        exact h1
      · rw [h3, h0]
        simp [remain_after]
      · rw [h4, h0, List.take_zero, List.nil_append]
        simp
      · simp only [List.nil_append, List.flatten_cons, List.flatten_nil, List.append_nil,
          List.length_take]
        exact ⟨c.length / 188, by omega⟩
  · have hu : u32 ctx.remain_len = ctx.remain_len := u32_eq _ (by omega)
    rcases Nat.lt_or_ge (ctx.remain_len + c.length) 752 with hsmall | hge
    · refine ⟨{ remain_buf := memcpy ctx.remain_buf ctx.remain_len c c.length,
                remain_len := ctx.remain_len + c.length }, [], ?_, ?_, ?_, hsmall, ?_,
        by simp⟩
      · unfold s1ur_device_stream_handler
        simp only [hu, ne_eq, h0, not_false_eq_true, if_true, sync_size_eq]
        rw [u32_eq _ (by omega), if_neg (by omega)]
        have e : size_add ctx.remain_len c.length = ctx.remain_len + c.length := by
          unfold size_add; omega
        rw [e]
      · exact (memcpy_length _ _ _ _ (by omega) (le_refl _)).trans hbuf
      · simp [remain_after, h0, hsmall]
      · simp only [List.flatten_nil, List.nil_append]
        unfold memcpy
        rw [List.take_of_length_le (le_refl c.length), List.append_assoc,
          List.take_append_eq_append_take, List.length_take]
        have e1 : min ctx.remain_len ctx.remain_buf.length = ctx.remain_len := by omega
        rw [e1, List.take_of_length_le (by rw [List.length_take]; omega)]
        have e2 : ctx.remain_len + c.length - ctx.remain_len = c.length := by omega
        rw [e2, List.take_append_eq_append_take, List.take_of_length_le (le_refl _),
          Nat.sub_self, List.take_zero, List.append_nil]
    · have hbig : ctx.remain_len + c.length = 752 ∨ 1504 ≤ ctx.remain_len + c.length := by
        rcases chunk_fits_pos _ _ h0 hfit with h | h
        · left; omega
        · right; exact h
      have hfill := remain_buf_filled ctx.remain_buf c ctx.remain_len hbuf (by omega)
      have hra : remain_after ctx.remain_len c.length = (ctx.remain_len + c.length) % 188 := by
        simp [remain_after, h0, Nat.not_lt.2 hge]
      rw [hra]
      generalize hR : ctx.remain_buf.take ctx.remain_len ++ c = R at *
      have hRl : R.length = ctx.remain_len + c.length := by
        rw [← hR, List.length_append, List.length_take]; omega
      have hlen : (R.take 752).length = 752 := by
        rw [List.length_take]; omega
      have hproc := stream_process_synced _ [] fuel (Synced_take R 752 hs) (by omega) (by omega)
        (by omega)
      have hrbt : (R.take 752).take (188 * ((R.take 752).length / 188)) = R.take 752 :=
        List.take_of_length_le (by omega)
      rw [hrbt, List.nil_append, hlen] at hproc
      have hrest : R.drop 752 = c.drop (752 - ctx.remain_len) := by
        rw [← hR, List.drop_append_eq_append_drop, List.length_take, List.drop_of_length_le
          (by simp only [List.length_take]; omega), List.nil_append]
        congr 1; omega
      have hs2 : Synced (R.drop 752) := Synced_drop R 4 hs
      have hl2 : (R.drop 752).length = c.length - (752 - ctx.remain_len) := by
        rw [List.length_drop]; omega
      have hhandler : ∀ res, s1ur_device_stream_handler_tail fuel
          { remain_buf := R.take 752, remain_len := 0 } (R.drop 752) (R.drop 752).length
          [R.take 752] = res → s1ur_device_stream_handler fuel ctx c = res := by
        intro res hres
        unfold s1ur_device_stream_handler
        simp only [hu, ne_eq, h0, not_false_eq_true, if_true, sync_size_eq]
        rw [u32_eq _ (by omega), if_pos (by omega), u32_sub_eq _ _ (by omega) (by omega),
          hfill, hproc]
        simp only [Nat.reduceMod, if_true]
        rw [u32_sub_eq _ _ (by omega) (by omega), ← hrest]
        have e : c.length - (752 - ctx.remain_len) = (R.drop 752).length := hl2.symm
        rw [e]
        exact hres
      rcases hbig with heq | hbig2
      · have hnil : R.drop 752 = [] := List.length_eq_zero.mp (by omega)
        refine ⟨{ remain_buf := R.take 752, remain_len := 0 }, [R.take 752], ?_, hlen, ?_,
          by simp, ?_, ?_⟩
        · apply hhandler
          rw [hnil]
          exact stream_handler_tail_nil fuel _ _ (by omega)
        · simp only
          omega
        · simp only [List.flatten_cons, List.flatten_nil, List.append_nil, List.take_zero]
          exact List.take_of_length_le (by omega)
        · simp only [List.flatten_cons, List.flatten_nil, List.append_nil, hlen]
          exact ⟨4, rfl⟩
      · obtain ⟨ctx2, h1, h2, h3, h4⟩ :=
          stream_handler_tail_synced fuel { remain_buf := R.take 752, remain_len := 0 }
            (R.drop 752) [R.take 752] hlen rfl hs2 (by omega) (by omega) (by omega)
        refine ⟨ctx2, [R.take 752] ++ [(R.drop 752).take (188 * ((R.drop 752).length / 188))],
          hhandler _ h1, h2, by omega, by omega, ?_, ?_⟩
        · rw [h4]
          simp only [List.cons_append, List.nil_append, List.flatten_cons, List.flatten_nil,
            List.append_nil, List.append_assoc, List.take_append_drop]
        · simp only [List.cons_append, List.nil_append, List.flatten_cons, List.flatten_nil,
            List.append_nil, List.length_append, hlen, List.length_take]
          exact ⟨4 + (R.drop 752).length / 188, by omega⟩

/-- Feeding chunks that continue an aligned stream and whose lengths fit:
every call returns, all bytes reach the sink, in order and in whole packets,
and no remainder is left. -/
theorem feed_chunks_fits (fuel : Nat) (hf2 : 752 < fuel) (chunks : List (List Nat)) :
    ∀ ctx : s1ur_stream_context, ctx.remain_buf.length = 752 → ctx.remain_len < 752 →
      Synced (ctx.remain_buf.take ctx.remain_len ++ chunks.flatten) →
      cutting_fits ctx.remain_len (chunks.map List.length) = true →
      (∀ c ∈ chunks, c.length + 752 ≤ 4294967296 ∧ c.length < fuel) →
      ∃ (ctx2 : s1ur_stream_context) (sink : List (List Nat)),
        feed_chunks fuel ctx chunks = some (ctx2, sink) ∧
        ctx2.remain_buf.length = 752 ∧ ctx2.remain_len = 0 ∧
        sink.flatten = ctx.remain_buf.take ctx.remain_len ++ chunks.flatten ∧
        188 ∣ sink.flatten.length := by
  induction chunks with
  | nil =>
    intro ctx hbuf hr _ hfit _
    have h0 : ctx.remain_len = 0 := by simpa [cutting_fits] using hfit
    exact ⟨ctx, [], rfl, hbuf, h0, by simp [h0], by simp⟩
  | cons c cs ih =>
    intro ctx hbuf hr hs hfit hc
    rw [List.flatten_cons, ← List.append_assoc] at hs
    obtain ⟨hc1, hc2⟩ := hc c (List.mem_cons_self _ _)
    simp only [List.map_cons, cutting_fits, Bool.and_eq_true] at hfit
    have hs1 : Synced (ctx.remain_buf.take ctx.remain_len ++ c) := by
      have := Synced_take _ (ctx.remain_buf.take ctx.remain_len ++ c).length hs
      rwa [List.take_left'] at this
      rfl
    obtain ⟨ctx1, sink1, k1, k2, k3, k3b, k4, ⟨m, k5⟩⟩ :=
      stream_handler_step_fits fuel ctx c hbuf hr hs1 hfit.1 hc1 hc2 hf2
    have hs2 : Synced (ctx1.remain_buf.take ctx1.remain_len ++ cs.flatten) := by
      have := Synced_drop _ m hs
      rw [← k4, List.append_assoc, ← k5, List.drop_left'] at this
      · exact this
      · rfl
    obtain ⟨ctx2, sink2, j1, j2, j3, j4, ⟨n, j5⟩⟩ :=
      ih ctx1 k2 k3b hs2 (by rw [k3]; exact hfit.2)
        (fun x hx => hc x (List.mem_cons_of_mem _ hx))
    refine ⟨ctx2, sink1 ++ sink2, ?_, j2, j3, ?_, ?_⟩
    · simp only [feed_chunks, k1, j1]
    · rw [List.flatten_append, j4, ← List.append_assoc, k4, List.flatten_cons,
        List.append_assoc]
    · rw [List.flatten_append, List.length_append, k5, j5]
      exact ⟨m + n, by omega⟩

/-- A region shorter than four packets is skipped whole by
`s1ur_device_stream_process`, whatever its content. -/
theorem stream_process_short :
    ∀ (fuel : Nat) (p : List Nat) (sink : List (List Nat)),
      p.length < 752 → p.length < fuel →
      s1ur_device_stream_process fuel p p.length sink = some (sink, [], 0) := by
  intro fuel
  induction fuel with
  | zero => intro p sink _ h; omega
  | succ fuel ih =>
    intro p sink hs hf
    rw [s1ur_device_stream_process]
    by_cases h0 : p.length = 0
    · rw [if_pos h0, h0, List.length_eq_zero.mp h0]
    · rw [if_neg h0]
      obtain ⟨i2, b, h1, _, h3, _, _, _⟩ :=
        sync_scan_spec p p.length (by omega) (fuel + 1) 0 (by omega)
          (by have := Nat.div_le_self p.length 188; omega)
      rw [h1]
      simp only [S1UR_DEVICE_TS_SYNC_COUNT]
      rw [if_pos (by omega)]
      have hl : (p.drop 1).length = p.length - 1 := List.length_drop 1 p
      rw [← hl]
      exact ih (p.drop 1) sink (by omega) (by omega)

/-- A chunk shorter than four packets that arrives while no remainder is held
is dropped whole by `s1ur_device_stream_handler`, whatever its content:
nothing reaches the sink and nothing is kept. -/
theorem stream_handler_short_chunk_dropped (fuel : Nat) (ctx : s1ur_stream_context)
    (c : List Nat) (hr : ctx.remain_len = 0) (hs : c.length < 752) (hf : c.length < fuel) :
    s1ur_device_stream_handler fuel ctx c = some (0, ctx, []) := by
  have hu : u32 ctx.remain_len = 0 := by rw [hr]; rfl
  unfold s1ur_device_stream_handler
  simp only [hu, ne_eq, not_true_eq_false, if_false]
  unfold s1ur_device_stream_handler_tail
  rw [stream_process_short fuel c [] hs hf]
  simp

set_option maxRecDepth 100000 in
/-- Claim C4, counterexample: one valid packet fed as a single chunk of 188
bytes from a fresh context delivers nothing to the sink and leaves no
remainder; the packet is lost. -/
theorem stream_handler_roundtrip_counterexample :
    ValidPacket (packet_of 1) ∧ [packet_of 1].flatten = packet_of 1 ∧
    fresh_context.remain_len = 0 ∧
    feed_chunks 200 fresh_context [packet_of 1] = some (fresh_context, []) ∧
    ([] : List (List Nat)).flatten ≠ [packet_of 1].flatten := by
  decide

/-- Claim C4, amended (resynchronizer round trip): for every sequence of valid
188-byte packets and every way of cutting their concatenation into
consecutive chunks of at most 2^32 - 752 bytes whose lengths fit (a chunk
that arrives while no remainder is held is empty or at least 752 bytes long;
a chunk that arrives at a remainder of `r > 0` bytes has `r + len <= 752` or
`r + len >= 1504`; no remainder is held after the last chunk), feeding the
chunks in order from a context without remainder returns and delivers to the
sink exactly the packets, byte for byte and in order, in slices of whole
packets, and leaves no remainder. -/
theorem stream_handler_roundtrip (fuel : Nat) (ctx : s1ur_stream_context)
    (pkts chunks : List (List Nat))
    (hbuf : ctx.remain_buf.length = S1UR_DEVICE_TS_SYNC_SIZE) (hfresh : ctx.remain_len = 0)
    (hv : ∀ pk ∈ pkts, ValidPacket pk) (hcut : chunks.flatten = pkts.flatten)
    (hfit : cutting_fits 0 (chunks.map List.length) = true)
    (hL : ∀ c ∈ chunks, c.length + 752 ≤ 4294967296)
    (hf : ∀ c ∈ chunks, c.length < fuel) (hf2 : 752 < fuel) :
    ∃ (ctx2 : s1ur_stream_context) (sink : List (List Nat)),
      feed_chunks fuel ctx chunks = some (ctx2, sink) ∧ sink.flatten = pkts.flatten ∧
      188 ∣ sink.flatten.length ∧ ctx2.remain_len = 0 := by
  have hs : Synced (ctx.remain_buf.take ctx.remain_len ++ chunks.flatten) := by
    rw [hfresh, List.take_zero, List.nil_append, hcut]
    exact Synced_join pkts hv
  obtain ⟨ctx2, sink, h1, _, h3, h4, h5⟩ :=
    feed_chunks_fits fuel hf2 chunks ctx hbuf (by omega) hs (by rw [hfresh]; exact hfit)
      (fun c hc => ⟨hL c hc, hf c hc⟩)
  rw [hfresh, List.take_zero, List.nil_append, hcut] at h4
  exact ⟨ctx2, sink, h1, h4, h5, h3⟩

theorem cut_flatten (F : List Nat) :
    [F.take 852, (F.drop 852).take 88, (F.drop 940).take 564, [], F.drop 1504].flatten = F := by
  have e1 : F.drop 1504 = (F.drop 940).drop 564 := by rw [List.drop_drop]
  have e2 : F.drop 940 = (F.drop 852).drop 88 := by rw [List.drop_drop]
  simp only [List.flatten_cons, List.flatten_nil, List.append_nil, List.nil_append]
  rw [e1, List.take_append_drop, e2, List.take_append_drop, List.take_append_drop]

set_option maxRecDepth 100000 in
theorem stream_handler_roundtrip_witness :
    ∃ (ctx2 : s1ur_stream_context) (sink : List (List Nat)),
      feed_chunks 2000 fresh_context seventeen_packets_cut = some (ctx2, sink) ∧
      sink.flatten = seventeen_packets.flatten ∧
      188 ∣ sink.flatten.length ∧ ctx2.remain_len = 0 :=
  stream_handler_roundtrip 2000 fresh_context seventeen_packets seventeen_packets_cut
    (by decide) (by decide) (by decide) (cut_flatten _) (by decide) (by decide) (by decide)
    (by decide)

set_option maxRecDepth 100000 in
/-- A chunk that completes the four packets of the remainder and leaves fewer
than four packets behind them loses those: nine packets cut after 852 bytes
(remainder 100, then 840 bytes) deliver eight packets and keep nothing. -/
theorem feed_chunks_rest_dropped_example :
    chunk_fits 100 840 = false ∧
    feed_chunks 2000 fresh_context
        [nine_packets.flatten.take 852, nine_packets.flatten.drop 852] =
      some ({ remain_buf := (nine_packets.flatten.drop 752).take 752, remain_len := 0 },
        [nine_packets.flatten.take 752, (nine_packets.flatten.drop 752).take 752]) := by
  decide

set_option maxRecDepth 100000 in
/-- A stream that ends while whole packets are held in the remainder does not
deliver them: five packets cut after 852 bytes deliver four packets and hold
the fifth. -/
theorem feed_chunks_held_example :
    cutting_fits 0 [852, 88] = false ∧
    (feed_chunks 2000 fresh_context
        [five_packets.flatten.take 852, five_packets.flatten.drop 852]).map
      (fun r => (r.1.remain_len, r.2)) =
      some (188, [five_packets.flatten.take 752]) := by
  decide

/-! ## Registration of the USB driver -/

/-- When one of the first five steps of `px4_usb_register` is the first to
fail, the contexts created before it are destroyed in the reverse order of
their creation and the error of the step is returned. -/
theorem px4_usb_register_unwind_first_five (env : UsbCall → Int) (k : Nat) (hk : k < 5)
    (hok : ∀ j, j < k →
      env (UsbCall.ptx_chrdev_context_create (usb_creation_order.getD j
        px4_usb_device_type.PX4_USB_DEVICE)) = 0)
    (hfail : env (UsbCall.ptx_chrdev_context_create (usb_creation_order.getD k
        px4_usb_device_type.PX4_USB_DEVICE)) ≠ 0) :
    (px4_usb_register env).1 =
      env (UsbCall.ptx_chrdev_context_create (usb_creation_order.getD k
        px4_usb_device_type.PX4_USB_DEVICE)) ∧
    contexts_created env (px4_usb_register env).2 = usb_creation_order.take k ∧
    contexts_destroyed (px4_usb_register env).2 = (usb_creation_order.take k).reverse := by
  have h0 := hok 0
  have h1 := hok 1
  have h2 := hok 2
  have h3 := hok 3
  clear hok
  rcases k with _ | _ | _ | _ | _ | k
  · simp [usb_creation_order] at hfail
    simp [px4_usb_register, usb_creation_order, contexts_created, contexts_destroyed, hfail]
  · simp [usb_creation_order] at hfail h0
    simp [px4_usb_register, usb_creation_order, contexts_created, contexts_destroyed, hfail, h0]
  · simp [usb_creation_order] at hfail h0 h1
    simp [px4_usb_register, usb_creation_order, contexts_created, contexts_destroyed, hfail, h0,
      h1]
  · simp [usb_creation_order] at hfail h0 h1 h2
    simp [px4_usb_register, usb_creation_order, contexts_created, contexts_destroyed, hfail, h0,
      h1, h2]
  · simp [usb_creation_order] at hfail h0 h1 h2 h3
    simp [px4_usb_register, usb_creation_order, contexts_created, contexts_destroyed, hfail, h0,
      h1, h2, h3]
  · omega

/-- The function `px4_usb_unregister` destroys the seven contexts in the
reverse order of their creation. -/
theorem px4_usb_unregister_reverse :
    contexts_destroyed px4_usb_unregister = usb_creation_order.reverse := by
  decide

/-- Claim C21, the code at the failing inputs: when the creation of the
`pxs1ur` context (step 7) is the first step to fail, `px4_usb_register`
returns its error, but of the six contexts created it destroys five: the
`isdb6014` context is left, and the slot of the `pxs1ur` context, which was
not created, is handed to `ptx_chrdev_context_destroy`. When `usb_register`
(step 8) fails, all seven contexts are destroyed, but the `isdb6014` context,
created fifth, is destroyed first, before `pxs1ur` and `pxm1ur`. -/
theorem px4_usb_register_unwind_shifted :
    (px4_usb_register (usb_env_fail (UsbCall.ptx_chrdev_context_create
        px4_usb_device_type.PXS1UR_USB_DEVICE))).1 = -ENOMEM ∧
    contexts_created (usb_env_fail (UsbCall.ptx_chrdev_context_create
        px4_usb_device_type.PXS1UR_USB_DEVICE))
      (px4_usb_register (usb_env_fail (UsbCall.ptx_chrdev_context_create
        px4_usb_device_type.PXS1UR_USB_DEVICE))).2 = usb_creation_order.take 6 ∧
    contexts_destroyed (px4_usb_register (usb_env_fail (UsbCall.ptx_chrdev_context_create
        px4_usb_device_type.PXS1UR_USB_DEVICE))).2 =
      [px4_usb_device_type.PXS1UR_USB_DEVICE, px4_usb_device_type.PXM1UR_USB_DEVICE,
       px4_usb_device_type.ISDB2056_USB_DEVICE, px4_usb_device_type.PXMLT8_USB_DEVICE,
       px4_usb_device_type.PXMLT5_USB_DEVICE, px4_usb_device_type.PX4_USB_DEVICE] ∧
    (px4_usb_register (usb_env_fail UsbCall.usb_register)).1 = -ENOMEM ∧
    contexts_created (usb_env_fail UsbCall.usb_register)
      (px4_usb_register (usb_env_fail UsbCall.usb_register)).2 = usb_creation_order ∧
    contexts_destroyed (px4_usb_register (usb_env_fail UsbCall.usb_register)).2 =
      [px4_usb_device_type.ISDB6014_4TS_USB_DEVICE, px4_usb_device_type.PXS1UR_USB_DEVICE,
       px4_usb_device_type.PXM1UR_USB_DEVICE, px4_usb_device_type.ISDB2056_USB_DEVICE,
       px4_usb_device_type.PXMLT8_USB_DEVICE, px4_usb_device_type.PXMLT5_USB_DEVICE,
       px4_usb_device_type.PX4_USB_DEVICE] ∧
    usb_creation_order.reverse =
      [px4_usb_device_type.PXS1UR_USB_DEVICE, px4_usb_device_type.PXM1UR_USB_DEVICE,
       px4_usb_device_type.ISDB6014_4TS_USB_DEVICE, px4_usb_device_type.ISDB2056_USB_DEVICE,
       px4_usb_device_type.PXMLT8_USB_DEVICE, px4_usb_device_type.PXMLT5_USB_DEVICE,
       px4_usb_device_type.PX4_USB_DEVICE] := by
  decide

end Px4Drv
